import Mathlib

/-! SimpleAllocator: alignment arithmetic, linear, stack and pool allocators.

A shallow embedding of `include/Allocator.h`, `include/Allocator/Linear.h`,
`include/Allocator/Stack.h` and `include/Allocator/Pool.h`.

Conventions of the embedding
* `uintptr_t`, `size_t` and pointers are 64 bit wide (the LP64 build the tests
  describe: `sizeof(Header) == 16`); `uint32_t` and `uint8_t` are 32 and 8 bit.
  Every machine integer is a `Nat`; each arithmetic step of the source is
  followed by the reduction the C++ type performs.
* A failed `assert` aborts the program: the operation returns `none`.
* Template parameters enter as `sizeofT` and `alignofT`; the address
  `std::malloc` returns enters as `memory`.
* Memory is a store `Mem` from addresses to the value of the object stored at
  that address: the two fields of a stack header at the header address and at
  `offsetof(Header, mAdjustment)` behind it, the link of a free pool slot at
  the slot address, the length word of an array four bytes before the array.
  Reads truncate to the width of the type that is read.
* Runs of client operations (`StackConfig.run`, `PoolConfig.run`) carry, next
  to the allocator and the memory, the list of addresses handed out and not
  yet given back; a run of a linear allocator (`LinearAllocator.run`) needs
  the allocator alone.
-/

namespace simple

/-- Modulus of `uintptr_t`, `size_t` and pointer arithmetic. -/
def ptrMod : Nat := 2 ^ 64

/-- Modulus of `uint32_t` arithmetic. -/
def u32Mod : Nat := 2 ^ 32

/-- Modulus of `uint8_t` arithmetic. -/
def u8Mod : Nat := 2 ^ 8

namespace allocator

/-- Embeds `uint8_t alignForwardAdjustment(uintptr_t address, uint8_t alignment)`
(the `void*` overload has the same body).  `mask` is the `int` value
`alignment - 1` converted to `uintptr_t` by the `&`; the subtraction is done in
`uintptr_t` and the result is narrowed to `uint8_t`. -/
def alignForwardAdjustment (address alignment : Nat) : Nat :=
  let mask := (alignment + ptrMod - 1) % ptrMod
  let adjustmnet := (alignment + ptrMod - (address &&& mask)) % ptrMod % u8Mod
  if adjustmnet = alignment then 0 else adjustmnet

/-- Embeds `uint8_t alignForwardAdjustmentWithHeader(uintptr_t address,
uint8_t alignment, uint8_t headerSize)`.  The two `assert`s come first; the
compound assignments narrow to `uint8_t` after each step. -/
def alignForwardAdjustmentWithHeader (address alignment headerSize : Nat) : Option Nat :=
  if ¬ (alignment > 0) then none
  else if ¬ (alignment = 1 ∨ alignment % 2 = 0) then none
  else
    let adjustment := alignForwardAdjustment address alignment
    let neededSpace := headerSize
    if adjustment < neededSpace then
      let neededSpace := (neededSpace + u8Mod - adjustment) % u8Mod
      let adjustment := (adjustment + alignment * (neededSpace / alignment)) % u8Mod
      let adjustment :=
        if neededSpace % alignment > 0 then (adjustment + alignment) % u8Mod else adjustment
      some adjustment
    else
      some adjustment

end allocator

open allocator

/-- Memory: the value of the object stored at each address. -/
abbrev Mem := Nat → Nat

/-- Write an object at an address: `*pointer = value`. -/
def store (mem : Mem) (address value : Nat) : Mem :=
  fun a => if a = address then value else mem a

/-- Read the object stored at an address. -/
def load (mem : Mem) (address : Nat) : Nat := mem address

/-- Number of elements whose storage holds the `uint32_t` length word of an
array: `uint8_t headerSize = sizeof(uint32_t) / sizeof(T);
if (sizeof(uint32_t) % sizeof(T) > 0) { headerSize += 1; }`. -/
def arrayHeaderSize (sizeofT : Nat) : Nat :=
  let headerSize := (4 / sizeofT) % u8Mod
  if 4 % sizeofT > 0 then (headerSize + 1) % u8Mod else headerSize

/-- The `uint32_t` argument `sizeof(T) * (length + headerSize)` of `allocate`:
the sum is formed in `uint32_t`, the product in `size_t`, and the call narrows
it to `uint32_t`. -/
def arrayBlockSize (sizeofT length headerSize : Nat) : Nat :=
  (sizeofT * ((length + headerSize) % u32Mod)) % ptrMod % u32Mod

/-- The loop `for (i = 0; i < length; ++i) new (&pointer[i]) T(args...)`:
`count` further elements are constructed starting with element `i`; `value`
stands for the object image the constructor writes. -/
def constructElements (sizeofT pointer value : Nat) : Nat → Nat → Mem → Mem
  | 0, _, mem => mem
  | count + 1, i, mem =>
    constructElements sizeofT pointer value count (i + 1)
      (store mem ((pointer + i * sizeofT) % ptrMod) value)

/-! ## Linear allocator (`Allocator/Linear.h`) -/

/-- Data members of `class LinearAllocator`. -/
structure LinearAllocator where
  mStart : Nat
  mCurrentPosition : Nat
  mSize : Nat
  mUsedMemory : Nat
  mNumAllocations : Nat
deriving DecidableEq, Repr

namespace LinearAllocator

/-- The fields hold values of their machine types. -/
def WF (a : LinearAllocator) : Prop :=
  a.mStart < ptrMod ∧ a.mCurrentPosition < ptrMod ∧ a.mSize < u32Mod ∧
    a.mUsedMemory < u32Mod ∧ a.mNumAllocations < u32Mod

instance (a : LinearAllocator) : Decidable a.WF :=
  inferInstanceAs (Decidable (_ ∧ _))

/-- Embeds `LinearAllocator::LinearAllocator(void* start, uint32_t size)`. -/
def new (start size : Nat) : Option LinearAllocator :=
  if ¬ (size > 0) then none
  else some { mStart := start, mCurrentPosition := start, mSize := size,
              mUsedMemory := 0, mNumAllocations := 0 }

/-- Embeds `LinearAllocator::~LinearAllocator()`. -/
def destroy (a : LinearAllocator) : Option LinearAllocator :=
  if ¬ (a.mNumAllocations = 0 ∧ a.mUsedMemory = 0) then none
  else some { a with mStart := 0, mCurrentPosition := 0, mSize := 0 }

/-- Embeds `void LinearAllocator::clean()`. -/
def clean (a : LinearAllocator) : LinearAllocator :=
  { a with mNumAllocations := 0, mUsedMemory := 0, mCurrentPosition := a.mStart }

/-- Embeds `uintptr_t LinearAllocator::getCurrentPosition() const`. -/
def getCurrentPosition (a : LinearAllocator) : Nat := a.mCurrentPosition

/-- Embeds `void LinearAllocator::setCurrentPosition(uintptr_t position)`. -/
def setCurrentPosition (a : LinearAllocator) (position : Nat) : Option LinearAllocator :=
  if ¬ (a.mCurrentPosition > position) then none
  else if ¬ (a.mStart < position) then none
  else some { a with mCurrentPosition := position,
                     mUsedMemory := (position + ptrMod - a.mStart) % ptrMod % u32Mod }

/-- Embeds `uint32_t LinearAllocator::getSize() const`. -/
def getSize (a : LinearAllocator) : Nat := a.mSize

/-- Embeds `uint32_t LinearAllocator::getUsedMemory() const`. -/
def getUsedMemory (a : LinearAllocator) : Nat := a.mUsedMemory

/-- Embeds `uint32_t LinearAllocator::getNumAllocations() const`. -/
def getNumAllocations (a : LinearAllocator) : Nat := a.mNumAllocations

/-- Embeds `void* LinearAllocator::allocate(uint32_t size, uint8_t alignment)`: the
new state and the returned address.  The capacity `assert` adds in
`uint32_t`. -/
def allocate (a : LinearAllocator) (size alignment : Nat) : Option (LinearAllocator × Nat) :=
  if size = 0 then none
  else if alignment = 0 then none
  else
    let adjustment := alignForwardAdjustment a.mCurrentPosition alignment
    if ¬ ((a.mUsedMemory + adjustment + size) % u32Mod ≤ a.mSize) then none
    else
      let alignedAddress := (a.mCurrentPosition + adjustment) % ptrMod
      some ({ a with mCurrentPosition := (alignedAddress + size) % ptrMod,
                     mUsedMemory := (a.mUsedMemory + (size + adjustment) % u32Mod) % u32Mod,
                     mNumAllocations := (a.mNumAllocations + 1) % u32Mod },
            alignedAddress)

/-- Embeds `T* LinearAllocator::createNoConstruct<T>()`; `sizeof(T)` and `alignof(T)`
are narrowed to the parameter types of `allocate`. -/
def createNoConstruct (a : LinearAllocator) (sizeofT alignofT : Nat) :
    Option (LinearAllocator × Nat) :=
  a.allocate (sizeofT % u32Mod) (alignofT % u8Mod)

/-- Embeds `T* LinearAllocator::create<T>(args...)`: placement `new` writes the object
image `value` at the returned address. -/
def create (a : LinearAllocator) (mem : Mem) (sizeofT alignofT value : Nat) :
    Option (LinearAllocator × Mem × Nat) :=
  match a.allocate (sizeofT % u32Mod) (alignofT % u8Mod) with
  | none => none
  | some (a', address) => some (a', store mem address value, address)

/-- Embeds `T* LinearAllocator::createArrayNoConstruct<T>(uint32_t length)`. -/
def createArrayNoConstruct (a : LinearAllocator) (mem : Mem) (sizeofT alignofT length : Nat) :
    Option (LinearAllocator × Mem × Nat) :=
  if length = 0 then none
  else
    let headerSize := arrayHeaderSize sizeofT
    match a.allocate (arrayBlockSize sizeofT length headerSize) (alignofT % u8Mod) with
    | none => none
    | some (a', address) =>
      let pointer := (address + headerSize * sizeofT) % ptrMod
      some (a', store mem ((pointer + ptrMod - 4) % ptrMod) length, pointer)

/-- Embeds `T* LinearAllocator::createArray<T>(uint32_t length, args...)`. -/
def createArray (a : LinearAllocator) (mem : Mem) (sizeofT alignofT length value : Nat) :
    Option (LinearAllocator × Mem × Nat) :=
  match a.createArrayNoConstruct mem sizeofT alignofT length with
  | none => none
  | some (a', mem', pointer) =>
    some (a', constructElements sizeofT pointer value length 0 mem', pointer)

/-- Successive `allocate(size, alignment)` calls; the addresses are returned in
call order. -/
def allocateAll (a : LinearAllocator) : List (Nat × Nat) → Option (LinearAllocator × List Nat)
  | [] => some (a, [])
  | (size, alignment) :: rest =>
    match a.allocate size alignment with
    | none => none
    | some (a', address) =>
      match allocateAll a' rest with
      | none => none
      | some (a'', addresses) => some (a'', address :: addresses)

/-- None of the successive `allocate` calls wraps a counter or an address:
the 32-bit sum of the capacity check is the true sum, the allocation counter
does not pass its maximum and the block ends inside the address space. -/
def noOverflow (a : LinearAllocator) : List (Nat × Nat) → Bool
  | [] => true
  | (size, alignment) :: rest =>
    decide (a.mUsedMemory + alignForwardAdjustment a.mCurrentPosition alignment + size
      < u32Mod) &&
    decide (a.mNumAllocations + 1 < u32Mod) &&
    decide (a.mCurrentPosition + alignForwardAdjustment a.mCurrentPosition alignment + size
      < ptrMod) &&
    match a.allocate size alignment with
    | none => true
    | some (a', _) => noOverflow a' rest

/-- Sum of `size + padding` over successive `allocate` calls. -/
def consumed (a : LinearAllocator) : List (Nat × Nat) → Nat
  | [] => 0
  | (size, alignment) :: rest =>
    size + alignForwardAdjustment a.mCurrentPosition alignment +
      match a.allocate size alignment with
      | none => 0
      | some (a', _) => consumed a' rest

/-- Every block of the successive `allocate` calls ends inside the address
space: `mCurrentPosition + padding + size` stays below `2 ^ 64`. -/
def inAddressSpace (a : LinearAllocator) : List (Nat × Nat) → Bool
  | [] => true
  | (size, alignment) :: rest =>
    decide (a.mCurrentPosition + alignForwardAdjustment a.mCurrentPosition alignment + size
      < ptrMod) &&
    match a.allocate size alignment with
    | none => true
    | some (a', _) => inAddressSpace a' rest

end LinearAllocator

/-- Operations of a client on a linear allocator that change its state:
`allocate` (through the `create` family), `setCurrentPosition` and `clean`. -/
inductive LinearOp where
  | allocate (size alignment : Nat)
  | setCurrentPosition (position : Nat)
  | clean
deriving DecidableEq, Repr

namespace LinearAllocator

/-- One successful operation of a run. -/
def step (a : LinearAllocator) : LinearOp → Option LinearAllocator
  | .allocate size alignment =>
    match a.allocate size alignment with
    | none => none
    | some (a', _) => some a'
  | .setCurrentPosition position => a.setCurrentPosition position
  | .clean => some a.clean

/-- A run of successful operations. -/
def run (a : LinearAllocator) : List LinearOp → Option LinearAllocator
  | [] => some a
  | op :: ops =>
    match a.step op with
    | none => none
    | some a' => run a' ops

end LinearAllocator

/-! ## Stack allocator (`Allocator/Stack.h`) -/

/-- Embeds `sizeof(StackAllocator::Header)`: a `uintptr_t` and a `uint8_t`, padded to
the alignment of the former. -/
def sizeofHeader : Nat := 16

/-- Embeds `offsetof(StackAllocator::Header, mAdjustment)`. -/
def offsetofAdjustment : Nat := 8

/-- Data members of `class StackAllocator`. -/
structure StackAllocator where
  mStart : Nat
  mCurrentPosition : Nat
  mPreviousPosition : Nat
  mSize : Nat
  mUsedMemory : Nat
  mNumAllocations : Nat
deriving DecidableEq, Repr

namespace StackAllocator

/-- The fields hold values of their machine types. -/
def WF (a : StackAllocator) : Prop :=
  a.mStart < ptrMod ∧ a.mCurrentPosition < ptrMod ∧ a.mPreviousPosition < ptrMod ∧
    a.mSize < u32Mod ∧ a.mUsedMemory < u32Mod ∧ a.mNumAllocations < u32Mod

instance (a : StackAllocator) : Decidable a.WF :=
  inferInstanceAs (Decidable (_ ∧ _))

/-- Address of the `Header` in front of an allocation:
`reinterpret_cast<Header*>(position - sizeof(Header))`. -/
def headerAddress (position : Nat) : Nat := (position + ptrMod - sizeofHeader) % ptrMod

/-- Read `header->mPreviousAddress` (a `uintptr_t`). -/
def readPreviousAddress (mem : Mem) (header : Nat) : Nat := load mem header % ptrMod

/-- Read `header->mAdjustment` (a `uint8_t`). -/
def readAdjustment (mem : Mem) (header : Nat) : Nat :=
  load mem ((header + offsetofAdjustment) % ptrMod) % u8Mod

/-- Embeds `StackAllocator::StackAllocator(void* start, uint32_t size)`. -/
def new (start size : Nat) : Option StackAllocator :=
  if ¬ (size > 0) then none
  else some { mStart := start, mCurrentPosition := start, mPreviousPosition := 0,
              mSize := size, mUsedMemory := 0, mNumAllocations := 0 }

/-- Embeds `StackAllocator::~StackAllocator()`. -/
def destroy (a : StackAllocator) : Option StackAllocator :=
  if ¬ (a.mNumAllocations = 0 ∧ a.mUsedMemory = 0) then none else some a

/-- Embeds `void StackAllocator::clean()`. -/
def clean (a : StackAllocator) : StackAllocator :=
  { a with mCurrentPosition := a.mStart, mNumAllocations := 0, mUsedMemory := 0,
           mPreviousPosition := 0 }

/-- Embeds `uint32_t StackAllocator::getSize() const`. -/
def getSize (a : StackAllocator) : Nat := a.mSize

/-- Embeds `uint32_t StackAllocator::getUsedMemory() const`. -/
def getUsedMemory (a : StackAllocator) : Nat := a.mUsedMemory

/-- Embeds `uint32_t StackAllocator::getNumAllocations() const`. -/
def getNumAllocations (a : StackAllocator) : Nat := a.mNumAllocations

/-- Embeds `void* StackAllocator::allocate(uint32_t size, uint8_t alignment)`: the new
state, the memory with the header written, and the returned address. -/
def allocate (a : StackAllocator) (mem : Mem) (size alignment : Nat) :
    Option (StackAllocator × Mem × Nat) :=
  if size = 0 then none
  else
    match alignForwardAdjustmentWithHeader a.mCurrentPosition alignment (sizeofHeader % u8Mod) with
    | none => none
    | some adjustment =>
      if ¬ ((a.mUsedMemory + adjustment + size) % u32Mod ≤ a.mSize) then none
      else
        let alignedAddress := (a.mCurrentPosition + adjustment) % ptrMod
        let header := headerAddress alignedAddress
        let mem := store mem ((header + offsetofAdjustment) % ptrMod) adjustment
        let mem := store mem header a.mPreviousPosition
        some ({ a with mPreviousPosition := alignedAddress,
                       mCurrentPosition := (alignedAddress + size) % ptrMod,
                       mUsedMemory := (a.mUsedMemory + (size + adjustment) % u32Mod) % u32Mod,
                       mNumAllocations := (a.mNumAllocations + 1) % u32Mod },
              mem, alignedAddress)

/-- Embeds `void StackAllocator::free(void* pointer)`.  The released amount is
computed in `uintptr_t`; the compound assignment narrows to `uint32_t`. -/
def free (a : StackAllocator) (mem : Mem) (pointer : Nat) : Option StackAllocator :=
  let position := pointer
  if ¬ (position = a.mPreviousPosition) then none
  else
    let header := headerAddress position
    let released :=
      ((a.mCurrentPosition + ptrMod - position) % ptrMod + readAdjustment mem header) % ptrMod
    some { a with mUsedMemory := (a.mUsedMemory + ptrMod - released) % ptrMod % u32Mod,
                  mCurrentPosition := (position + ptrMod - readAdjustment mem header) % ptrMod,
                  mPreviousPosition := readPreviousAddress mem header,
                  mNumAllocations := (a.mNumAllocations + u32Mod - 1) % u32Mod }

/-- Embeds `T* StackAllocator::createNoConstruct<T>()`. -/
def createNoConstruct (a : StackAllocator) (mem : Mem) (sizeofT alignofT : Nat) :
    Option (StackAllocator × Mem × Nat) :=
  a.allocate mem (sizeofT % u32Mod) (alignofT % u8Mod)

/-- Embeds `T* StackAllocator::create<T>(args...)`. -/
def create (a : StackAllocator) (mem : Mem) (sizeofT alignofT value : Nat) :
    Option (StackAllocator × Mem × Nat) :=
  match a.allocate mem (sizeofT % u32Mod) (alignofT % u8Mod) with
  | none => none
  | some (a', mem', address) => some (a', store mem' address value, address)

/-- Embeds `T* StackAllocator::createArrayNoConstruct<T>(uint32_t length)`. -/
def createArrayNoConstruct (a : StackAllocator) (mem : Mem) (sizeofT alignofT length : Nat) :
    Option (StackAllocator × Mem × Nat) :=
  if length = 0 then none
  else
    let headerSize := arrayHeaderSize sizeofT
    match a.allocate mem (arrayBlockSize sizeofT length headerSize) (alignofT % u8Mod) with
    | none => none
    | some (a', mem', address) =>
      let pointer := (address + headerSize * sizeofT) % ptrMod
      some (a', store mem' ((pointer + ptrMod - 4) % ptrMod) length, pointer)

/-- Embeds `T* StackAllocator::createArray<T>(uint32_t length, args...)`. -/
def createArray (a : StackAllocator) (mem : Mem) (sizeofT alignofT length value : Nat) :
    Option (StackAllocator × Mem × Nat) :=
  match a.createArrayNoConstruct mem sizeofT alignofT length with
  | none => none
  | some (a', mem', pointer) =>
    some (a', constructElements sizeofT pointer value length 0 mem', pointer)

/-- Embeds `void StackAllocator::removeNoDestruct<T>(T* object)`. -/
def removeNoDestruct (a : StackAllocator) (mem : Mem) (object : Nat) : Option StackAllocator :=
  if object = 0 then none else a.free mem object

/-- Embeds `void StackAllocator::remove<T>(T* object)`: the destructor call does not
touch the allocator. -/
def remove (a : StackAllocator) (mem : Mem) (object : Nat) : Option StackAllocator :=
  if object = 0 then none else a.free mem object

/-- Embeds `void StackAllocator::removeArrayNoDestruct<T>(T* object)`. -/
def removeArrayNoDestruct (a : StackAllocator) (mem : Mem) (sizeofT object : Nat) :
    Option StackAllocator :=
  if object = 0 then none
  else
    let headerSize := arrayHeaderSize sizeofT
    a.free mem ((object + ptrMod - (headerSize * sizeofT) % ptrMod) % ptrMod)

/-- Embeds `void StackAllocator::removeArray<T>(T* object)`: the stored length is read
for the destructor loop, which does not touch the allocator; the length read
is returned with the state. -/
def removeArray (a : StackAllocator) (mem : Mem) (sizeofT object : Nat) :
    Option (StackAllocator × Nat) :=
  if object = 0 then none
  else
    let length := load mem ((object + ptrMod - 4) % ptrMod) % u32Mod
    let headerSize := arrayHeaderSize sizeofT
    match a.free mem ((object + ptrMod - (headerSize * sizeofT) % ptrMod) % ptrMod) with
    | none => none
    | some a' => some (a', length)

/-- Successive `allocate(size, alignment)` calls; the returned addresses are
listed most recent first. -/
def allocateAll (a : StackAllocator) (mem : Mem) (acc : List Nat) :
    List (Nat × Nat) → Option (StackAllocator × Mem × List Nat)
  | [] => some (a, mem, acc)
  | (size, alignment) :: rest =>
    match a.allocate mem size alignment with
    | none => none
    | some (a', mem', address) => allocateAll a' mem' (address :: acc) rest

/-- Successive `free(pointer)` calls in list order. -/
def freeAll (a : StackAllocator) (mem : Mem) : List Nat → Option StackAllocator
  | [] => some a
  | pointer :: rest =>
    match a.free mem pointer with
    | none => none
    | some a' => freeAll a' mem rest

/-- The block of an allocation lies inside the address space: neither the
aligned address nor the end of the data wraps around `2 ^ 64`. -/
def blockFits (a : StackAllocator) (size address : Nat) : Prop :=
  a.mCurrentPosition ≤ address ∧ address + size < ptrMod

instance (a : StackAllocator) (size address : Nat) : Decidable (blockFits a size address) :=
  inferInstanceAs (Decidable (_ ∧ _))

/-- Every block of the successive `allocate` calls lies inside the address
space. -/
def allFit (a : StackAllocator) (mem : Mem) : List (Nat × Nat) → Bool
  | [] => true
  | (size, alignment) :: rest =>
    match a.allocate mem size alignment with
    | none => true
    | some (a', mem', address) => decide (blockFits a size address) && allFit a' mem' rest

/-- The array of `length` elements created in the block at `address`, together
with the elements in front of it that hold its length word, lies above the
cursor the block was allocated at and inside the address space. -/
def arrayFits (a : StackAllocator) (sizeofT length address : Nat) : Prop :=
  a.mCurrentPosition ≤ address ∧
    address + sizeofT * (arrayHeaderSize sizeofT + length) < ptrMod

instance (a : StackAllocator) (sizeofT length address : Nat) :
    Decidable (arrayFits a sizeofT length address) :=
  inferInstanceAs (Decidable (_ ∧ _))

end StackAllocator

/-- The power-of-two alignments a `uint8_t` holds: the values `alignof(T)`
takes in the `create` family. -/
def alignments : List Nat := [1, 2, 4, 8, 16, 32, 64, 128]

/-- Operations of a client on a stack allocator: `allocate` (through the
`create` family), `free` through `remove` or `removeNoDestruct`, and `clean`. -/
inductive StackOp where
  | allocate (size alignment : Nat)
  | remove (object : Nat)
  | clean
deriving DecidableEq, Repr

/-- A stack allocator together with the memory it works on and the addresses
handed out and not yet freed, most recent first. -/
structure StackConfig where
  alloc : StackAllocator
  mem : Mem
  live : List Nat

namespace StackConfig

/-- One successful operation of a run.  A run only contains allocations with
a power-of-two alignment whose block lies inside the address space. -/
def step (c : StackConfig) : StackOp → Option StackConfig
  | .allocate size alignment =>
    if alignment ∈ alignments then
      match c.alloc.allocate c.mem size alignment with
      | none => none
      | some (a', mem', address) =>
        if StackAllocator.blockFits c.alloc size address then
          some { alloc := a', mem := mem', live := address :: c.live }
        else none
    else none
  | .remove object =>
    match c.alloc.remove c.mem object with
    | none => none
    | some a' => some { alloc := a', mem := c.mem, live := c.live.tail }
  | .clean => some { alloc := c.alloc.clean, mem := c.mem, live := [] }

/-- A run of successful operations. -/
def run (c : StackConfig) : List StackOp → Option StackConfig
  | [] => some c
  | op :: ops =>
    match c.step op with
    | none => none
    | some c' => run c' ops

/-- The headers of the live allocations form the chain the allocator walks
back on `free`: the most recent live address is `previous`, it lies below
`current`, its header holds a padding of at least the header size, and the
older live allocations form a chain for the cursor and the previous address
that the header restores. -/
def Chain (mem : Mem) : Nat → Nat → List Nat → Prop
  | _, previous, [] => previous = 0
  | current, previous, p :: rest =>
    previous = p ∧ p < current ∧
    sizeofHeader ≤ StackAllocator.readAdjustment mem (StackAllocator.headerAddress p) ∧
    StackAllocator.readAdjustment mem (StackAllocator.headerAddress p) ≤ p ∧
    Chain mem (p - StackAllocator.readAdjustment mem (StackAllocator.headerAddress p))
      (StackAllocator.readPreviousAddress mem (StackAllocator.headerAddress p)) rest

/-- Invariant of the runs of a stack allocator. -/
def Inv (c : StackConfig) : Prop :=
  c.alloc.WF ∧ Chain c.mem c.alloc.mCurrentPosition c.alloc.mPreviousPosition c.live

end StackConfig

/-! ## Pool allocator (`Allocator/Pool.h`) -/

/-- Embeds `sizeof(void*)`. -/
def sizeofPointer : Nat := 8

/-- Data members of `class PoolAllocator<T>`. -/
structure PoolAllocator where
  mMemory : Nat
  mFreeList : Nat
  mNumTotalObjects : Nat
  mNumFreeObjects : Nat
  mAdjustment : Nat
deriving DecidableEq, Repr

namespace PoolAllocator

/-- The body of the loop of `freeListInit`, run `count` times from `pointer`:
`*pointer = pointer + sizeof(T); pointer = *pointer;`. -/
def freeListInitLoop (sizeofT : Nat) : Nat → Nat → Mem → Mem
  | 0, _, mem => mem
  | count + 1, pointer, mem =>
    let mem' := store mem pointer ((pointer + sizeofT) % ptrMod)
    freeListInitLoop sizeofT count (load mem' pointer % ptrMod) mem'

/-- Embeds `void PoolAllocator<T>::freeListInit()`; the loop bound
`mNumTotalObjects - 1` is computed in `uint32_t`. -/
def freeListInit (sizeofT : Nat) (a : PoolAllocator) (mem : Mem) : PoolAllocator × Mem :=
  let freeList := (a.mMemory + a.mAdjustment) % ptrMod
  ({ a with mFreeList := freeList },
   freeListInitLoop sizeofT ((a.mNumTotalObjects + u32Mod - 1) % u32Mod) freeList mem)

/-- Embeds `PoolAllocator<T>::PoolAllocator(uint32_t numObjects)`; `memory` is the
address `std::malloc(numObjects * sizeof(T))` returned. -/
def new (sizeofT alignofT memory : Nat) (mem : Mem) (numObjects : Nat) :
    Option (PoolAllocator × Mem) :=
  if ¬ (sizeofT ≥ sizeofPointer) then none
  else
    some (freeListInit sizeofT
      { mMemory := memory, mFreeList := 0, mNumTotalObjects := numObjects,
        mNumFreeObjects := numObjects,
        mAdjustment := alignForwardAdjustment memory (alignofT % u8Mod) } mem)

/-- Embeds `PoolAllocator<T>::~PoolAllocator()`: the body is `std::free(mMemory)`
alone, without an `assert`; the fields are left as they are. -/
def destroy (a : PoolAllocator) : Option PoolAllocator := some a

/-- Embeds `void PoolAllocator<T>::clean()`. -/
def clean (sizeofT : Nat) (a : PoolAllocator) (mem : Mem) : PoolAllocator × Mem :=
  freeListInit sizeofT { a with mNumFreeObjects := a.mNumTotalObjects } mem

/-- Embeds `uint32_t PoolAllocator<T>::getNumTotalObjects() const`. -/
def getNumTotalObjects (a : PoolAllocator) : Nat := a.mNumTotalObjects

/-- Embeds `uint32_t PoolAllocator<T>::getNumFreeObjects() const`. -/
def getNumFreeObjects (a : PoolAllocator) : Nat := a.mNumFreeObjects

/-- Embeds `void* PoolAllocator<T>::allocate()`. -/
def allocate (a : PoolAllocator) (mem : Mem) : Option (PoolAllocator × Nat) :=
  if ¬ (a.mNumFreeObjects > 0) then none
  else if a.mFreeList = 0 then none
  else
    let pointer := a.mFreeList
    some ({ a with mFreeList := load mem a.mFreeList % ptrMod,
                   mNumFreeObjects := (a.mNumFreeObjects + u32Mod - 1) % u32Mod },
          pointer)

/-- Embeds `void PoolAllocator<T>::free(void* pointer)`. -/
def free (a : PoolAllocator) (mem : Mem) (pointer : Nat) : Option (PoolAllocator × Mem) :=
  if ¬ (pointer ≥ a.mMemory) then none
  else if ¬ (a.mNumFreeObjects < a.mNumTotalObjects) then none
  else
    some ({ a with mFreeList := pointer,
                   mNumFreeObjects := (a.mNumFreeObjects + 1) % u32Mod },
          store mem pointer a.mFreeList)

/-- Embeds `T* PoolAllocator<T>::createNoConstruct()`. -/
def createNoConstruct (a : PoolAllocator) (mem : Mem) : Option (PoolAllocator × Nat) :=
  a.allocate mem

/-- Embeds `T* PoolAllocator<T>::create(args...)`: placement `new` writes the object
image `value` into the slot. -/
def create (a : PoolAllocator) (mem : Mem) (value : Nat) : Option (PoolAllocator × Mem × Nat) :=
  match a.allocate mem with
  | none => none
  | some (a', pointer) => some (a', store mem pointer value, pointer)

/-- Embeds `void PoolAllocator<T>::removeNoDestruct(T* object)`. -/
def removeNoDestruct (a : PoolAllocator) (mem : Mem) (object : Nat) :
    Option (PoolAllocator × Mem) :=
  if object = 0 then none else a.free mem object

/-- Embeds `void PoolAllocator<T>::remove(T* object)`: the destructor call does not
touch the allocator. -/
def remove (a : PoolAllocator) (mem : Mem) (object : Nat) : Option (PoolAllocator × Mem) :=
  if object = 0 then none else a.free mem object

/-- Address of slot `k`: `mMemory + mAdjustment + k * sizeof(T)`. -/
def slot (sizeofT : Nat) (a : PoolAllocator) (k : Nat) : Nat :=
  a.mMemory + a.mAdjustment + k * sizeofT

/-- The addresses `pointer, pointer + sizeof(T), ...` of `count` consecutive
slots. -/
def slotsFrom (sizeofT : Nat) : Nat → Nat → List Nat
  | 0, _ => []
  | count + 1, pointer => pointer :: slotsFrom sizeofT count (pointer + sizeofT)

/-- The addresses of the `mNumTotalObjects` slots of the pool, in address
order. -/
def slots (sizeofT : Nat) (a : PoolAllocator) : List Nat :=
  slotsFrom sizeofT a.mNumTotalObjects (a.mMemory + a.mAdjustment)

/-- Successive `allocate()` calls, `count` of them; the addresses are returned
in call order. -/
def allocateN (mem : Mem) : Nat → PoolAllocator → Option (PoolAllocator × List Nat)
  | 0, a => some (a, [])
  | count + 1, a =>
    match a.allocate mem with
    | none => none
    | some (a', pointer) =>
      match allocateN mem count a' with
      | none => none
      | some (a'', pointers) => some (a'', pointer :: pointers)

end PoolAllocator

/-- Operations of a client on a pool allocator. -/
inductive PoolOp where
  | allocate
  | create (value : Nat)
  | free (pointer : Nat)
  | remove (object : Nat)
  | clean
deriving DecidableEq, Repr

/-- A pool allocator together with the memory it works on and the slots
currently handed out. -/
structure PoolConfig where
  alloc : PoolAllocator
  mem : Mem
  live : List Nat

namespace PoolConfig

/-- One successful operation of a run.  In a run `free` and `remove` are only
applied to slots that are currently handed out. -/
def step (sizeofT : Nat) (c : PoolConfig) : PoolOp → Option PoolConfig
  | .allocate =>
    match c.alloc.allocate c.mem with
    | none => none
    | some (a', pointer) => some { alloc := a', mem := c.mem, live := pointer :: c.live }
  | .create value =>
    match c.alloc.create c.mem value with
    | none => none
    | some (a', mem', pointer) => some { alloc := a', mem := mem', live := pointer :: c.live }
  | .free pointer =>
    if pointer ∈ c.live then
      match c.alloc.free c.mem pointer with
      | none => none
      | some (a', mem') => some { alloc := a', mem := mem', live := c.live.erase pointer }
    else none
  | .remove object =>
    if object ∈ c.live then
      match c.alloc.remove c.mem object with
      | none => none
      | some (a', mem') => some { alloc := a', mem := mem', live := c.live.erase object }
    else none
  | .clean =>
    let r := PoolAllocator.clean sizeofT c.alloc c.mem
    some { alloc := r.1, mem := r.2, live := [] }

/-- A run of successful operations. -/
def run (sizeofT : Nat) (c : PoolConfig) : List PoolOp → Option PoolConfig
  | [] => some c
  | op :: ops =>
    match c.step sizeofT op with
    | none => none
    | some c' => run sizeofT c' ops

/-- The free list in memory: `head` is the first address of the list and each
slot on it stores the address of the next one (the link of the last slot is
not constrained). -/
def Linked (mem : Mem) : Nat → List Nat → Prop
  | _, [] => True
  | head, p :: rest => head = p ∧ Linked mem (load mem p % ptrMod) rest

/-- Invariant of the runs of a pool allocator: the free list holds
`mNumFreeObjects` slots, free and handed-out slots together are exactly the
slots of the pool, each once, and every slot is a non-null address of the
address space at or above `mMemory`. -/
def Inv (sizeofT : Nat) (c : PoolConfig) : Prop :=
  c.alloc.mNumTotalObjects < u32Mod ∧
  (∀ q ∈ c.alloc.slots sizeofT, c.alloc.mMemory ≤ q ∧ 0 < q ∧ q < ptrMod) ∧
  (c.alloc.slots sizeofT).Nodup ∧
  (c.alloc.slots sizeofT).length = c.alloc.mNumTotalObjects ∧
  ∃ freeList : List Nat,
    freeList.length = c.alloc.mNumFreeObjects ∧
    List.Perm (freeList ++ c.live) (c.alloc.slots sizeofT) ∧
    Linked c.mem c.alloc.mFreeList freeList

/-- The configuration right after construction of a pool of `numObjects`
slots in the buffer `std::malloc` returned at `memory`. -/
def init (sizeofT alignofT memory : Nat) (mem : Mem) (numObjects : Nat) : Option PoolConfig :=
  match PoolAllocator.new sizeofT alignofT memory mem numObjects with
  | none => none
  | some (a, mem') => some { alloc := a, mem := mem', live := [] }

end PoolConfig

end simple

namespace simple

open allocator

/-! ## Alignment arithmetic -/

theorem alignForwardAdjustment_pow2 (address k : Nat) (hk : k ≤ 7) :
    alignForwardAdjustment address (2 ^ k) = (2 ^ k - address % 2 ^ k) % 2 ^ k := by
  have hpos : 0 < 2 ^ k := Nat.two_pow_pos k
  have hle : 2 ^ k ≤ 2 ^ 7 := Nat.pow_le_pow_right (by decide) hk
  have hm : address % 2 ^ k < 2 ^ k := Nat.mod_lt _ hpos
  have hmask : (2 ^ k + ptrMod - 1) % ptrMod = 2 ^ k - 1 := by
    simp only [ptrMod]; omega
  unfold alignForwardAdjustment
  simp only [hmask, Nat.and_pow_two_sub_one_eq_mod]
  simp only [ptrMod, u8Mod]
  generalize address % 2 ^ k = m at hm ⊢
  generalize 2 ^ k = a at *
  split <;> rename_i h
  · rcases Nat.eq_zero_or_pos m with h0 | h0
    · subst h0; simp
    · omega
  · rcases Nat.eq_zero_or_pos m with h0 | h0
    · subst h0; omega
    · rw [Nat.mod_eq_of_lt (by omega : a - m < a)]; omega

theorem alignForwardAdjustment_pow2_lt (address k : Nat) (hk : k ≤ 7) :
    alignForwardAdjustment address (2 ^ k) < 2 ^ k := by
  rw [alignForwardAdjustment_pow2 address k hk]
  exact Nat.mod_lt _ (Nat.two_pow_pos k)

theorem mod_add_pad (address a : Nat) (ha : 0 < a) :
    (address + (a - address % a) % a) % a = 0 := by
  have hm : address % a < a := Nat.mod_lt _ ha
  rcases Nat.eq_zero_or_pos (address % a) with h0 | h0
  · rw [h0]; simp [h0]
  · rw [Nat.mod_eq_of_lt (by omega : a - address % a < a)]
    have h1 : address + (a - address % a) = a * (address / a) + a := by
      have := Nat.div_add_mod address a
      omega
    rw [h1]; simp

theorem pad_le_of_aligned (address a r : Nat) (ha : 0 < a) (h : (address + r) % a = 0) :
    (a - address % a) % a ≤ r := by
  have hm : address % a < a := Nat.mod_lt _ ha
  rcases Nat.eq_zero_or_pos (address % a) with h0 | h0
  · rw [h0]; simp
  · rw [Nat.mod_eq_of_lt (by omega : a - address % a < a)]
    by_contra hlt
    have h2 : (address + r) % a = address % a + r := by
      have h3 : address + r = address % a + r + a * (address / a) := by
        have := Nat.div_add_mod address a
        omega
      rw [h3, Nat.add_mul_mod_self_left]
      exact Nat.mod_eq_of_lt (by omega)
    omega

/-- C1: for every address and every power-of-two alignment `2 ^ k` that fits
in 8 bits (`k ≤ 7`), the padding `alignForwardAdjustment` returns aligns the
address, is smaller than the alignment, is the least padding that aligns the
address, is 0 for an aligned address and never equals the alignment. -/
theorem alignForwardAdjustment_least (address k : Nat) (hk : k ≤ 7) :
    (address + alignForwardAdjustment address (2 ^ k)) % 2 ^ k = 0 ∧
    alignForwardAdjustment address (2 ^ k) < 2 ^ k ∧
    (∀ r, (address + r) % 2 ^ k = 0 → alignForwardAdjustment address (2 ^ k) ≤ r) ∧
    (address % 2 ^ k = 0 → alignForwardAdjustment address (2 ^ k) = 0) ∧
    alignForwardAdjustment address (2 ^ k) ≠ 2 ^ k := by
  have hpos : 0 < 2 ^ k := Nat.two_pow_pos k
  have hlt := alignForwardAdjustment_pow2_lt address k hk
  refine ⟨?_, hlt, ?_, ?_, Nat.ne_of_lt hlt⟩
  · rw [alignForwardAdjustment_pow2 address k hk]
    exact mod_add_pad address _ hpos
  · intro r hr
    rw [alignForwardAdjustment_pow2 address k hk]
    exact pad_le_of_aligned address _ r hpos hr
  · intro h0
    rw [alignForwardAdjustment_pow2 address k hk, h0]
    simp

/-- Witness of C1 at address 30 and alignment 8: the padding is 2. -/
theorem alignForwardAdjustment_least_witness :
    (30 + alignForwardAdjustment 30 (2 ^ 3)) % 2 ^ 3 = 0 ∧
    alignForwardAdjustment 30 (2 ^ 3) < 2 ^ 3 ∧
    (∀ r, (30 + r) % 2 ^ 3 = 0 → alignForwardAdjustment 30 (2 ^ 3) ≤ r) ∧
    (30 % 2 ^ 3 = 0 → alignForwardAdjustment 30 (2 ^ 3) = 0) ∧
    alignForwardAdjustment 30 (2 ^ 3) ≠ 2 ^ 3 :=
  alignForwardAdjustment_least 30 3 (by decide)

theorem alignForwardAdjustmentWithHeader_eq (address k headerSize : Nat) (hk : k ≤ 7)
    (hfit : headerSize + 2 ^ k ≤ 256) :
    ∃ q, alignForwardAdjustmentWithHeader address (2 ^ k) headerSize =
        some (alignForwardAdjustment address (2 ^ k) + 2 ^ k * q) ∧
      headerSize ≤ alignForwardAdjustment address (2 ^ k) + 2 ^ k * q ∧
      (alignForwardAdjustment address (2 ^ k) + 2 ^ k * q < headerSize + 2 ^ k) ∧
      (headerSize ≤ alignForwardAdjustment address (2 ^ k) → q = 0) := by
  have hpos : 0 < 2 ^ k := Nat.two_pow_pos k
  have hlt := alignForwardAdjustment_pow2_lt address k hk
  have hodd : 2 ^ k = 1 ∨ 2 ^ k % 2 = 0 := by
    rcases Nat.eq_zero_or_pos k with h0 | h0
    · left; rw [h0]; rfl
    · right
      obtain ⟨j, rfl⟩ : ∃ j, k = j + 1 := ⟨k - 1, by omega⟩
      rw [Nat.pow_succ]; simp
  unfold alignForwardAdjustmentWithHeader
  simp only [u8Mod]
  generalize alignForwardAdjustment address (2 ^ k) = p at hlt ⊢
  generalize 2 ^ k = a at *
  rw [if_neg (by omega), if_neg (not_not.mpr hodd)]
  by_cases hp : p < headerSize
  · rw [if_pos hp]
    have hn : (headerSize + 2 ^ 8 - p) % 2 ^ 8 = headerSize - p := by omega
    rw [hn]
    have hdm := Nat.div_add_mod (headerSize - p) a
    have hml : (headerSize - p) % a < a := Nat.mod_lt _ hpos
    have h1 : (p + a * ((headerSize - p) / a)) % 2 ^ 8 = p + a * ((headerSize - p) / a) := by
      apply Nat.mod_eq_of_lt; omega
    simp only [h1]
    by_cases hr : (headerSize - p) % a > 0
    · rw [if_pos hr]
      refine ⟨(headerSize - p) / a + 1, ?_, ?_, ?_, ?_⟩
      · rw [Nat.mod_eq_of_lt (by omega), Nat.mul_add, Nat.mul_one, Nat.add_assoc]
      · rw [Nat.mul_add, Nat.mul_one]; omega
      · rw [Nat.mul_add, Nat.mul_one]; omega
      · intro h; omega
    · rw [if_neg hr]
      refine ⟨(headerSize - p) / a, rfl, ?_, ?_, ?_⟩
      · omega
      · omega
      · intro h; omega
  · rw [if_neg hp]
    exact ⟨0, by simp, by omega, by omega, fun _ => rfl⟩

/-- C2 fails as stated: at an aligned address with alignment 128 and header
size 255 the 8-bit padding wraps to 0, which is smaller than the header. -/
theorem alignForwardAdjustmentWithHeader_wraps :
    alignForwardAdjustmentWithHeader 0 128 255 = some 0 ∧
    ¬ (∀ address k headerSize r, k ≤ 7 → headerSize ≤ 255 →
        alignForwardAdjustmentWithHeader address (2 ^ k) headerSize = some r →
        headerSize ≤ r) := by
  refine ⟨by decide, ?_⟩
  intro h
  have h1 := h 0 7 255 0 (by decide) (by decide) (by decide)
  omega

/-- C2 (amended): for every address, every power-of-two alignment `2 ^ k`
with `k ≤ 7` and every header size with `headerSize + 2 ^ k ≤ 256` (so every
header size up to 128), `alignForwardAdjustmentWithHeader` returns a padding
of at least `headerSize`. -/
theorem alignForwardAdjustmentWithHeader_ge (address k headerSize : Nat) (hk : k ≤ 7)
    (hfit : headerSize + 2 ^ k ≤ 256) :
    ∃ r, alignForwardAdjustmentWithHeader address (2 ^ k) headerSize = some r ∧
      headerSize ≤ r := by
  obtain ⟨q, hq, hge, _, _⟩ := alignForwardAdjustmentWithHeader_eq address k headerSize hk hfit
  exact ⟨_, hq, hge⟩

/-- Witness of the amended C2 at address 30, alignment 8 and header size 16:
the padding is 18. -/
theorem alignForwardAdjustmentWithHeader_ge_witness :
    ∃ r, alignForwardAdjustmentWithHeader 30 (2 ^ 3) 16 = some r ∧ 16 ≤ r :=
  alignForwardAdjustmentWithHeader_ge 30 3 16 (by decide) (by decide)

/-! ## Linear allocator -/

theorem linear_allocate_eq_some (a a' : LinearAllocator) (size alignment address : Nat)
    (h : a.allocate size alignment = some (a', address)) :
    size ≠ 0 ∧ alignment ≠ 0 ∧
    (a.mUsedMemory + alignForwardAdjustment a.mCurrentPosition alignment + size) % u32Mod
      ≤ a.mSize ∧
    address = (a.mCurrentPosition + alignForwardAdjustment a.mCurrentPosition alignment) % ptrMod ∧
    a' = { a with
      mCurrentPosition := (address + size) % ptrMod,
      mUsedMemory := (a.mUsedMemory +
        (size + alignForwardAdjustment a.mCurrentPosition alignment) % u32Mod) % u32Mod,
      mNumAllocations := (a.mNumAllocations + 1) % u32Mod } := by
  unfold LinearAllocator.allocate at h
  by_cases hs : size = 0
  · simp [hs] at h
  by_cases hal : alignment = 0
  · simp [hs, hal] at h
  by_cases hc : (a.mUsedMemory + alignForwardAdjustment a.mCurrentPosition alignment + size)
      % u32Mod ≤ a.mSize
  · simp only [hs, hal, hc, if_false, not_true_eq_false, Option.some.injEq, Prod.mk.injEq] at h
    obtain ⟨h1, h2⟩ := h
    refine ⟨hs, hal, hc, h2.symm, ?_⟩
    rw [← h1, ← h2]
  · simp [hs, hal, hc] at h

theorem linear_allocate_post (a a' : LinearAllocator) (size alignment address : Nat)
    (h : a.allocate size alignment = some (a', address))
    (hused : a.mUsedMemory + alignForwardAdjustment a.mCurrentPosition alignment + size < u32Mod)
    (hnum : a.mNumAllocations + 1 < u32Mod)
    (hcur : a.mCurrentPosition + alignForwardAdjustment a.mCurrentPosition alignment + size
      < ptrMod) :
    address = a.mCurrentPosition + alignForwardAdjustment a.mCurrentPosition alignment ∧
    a'.mCurrentPosition =
      a.mCurrentPosition + alignForwardAdjustment a.mCurrentPosition alignment + size ∧
    a'.mUsedMemory =
      a.mUsedMemory + (size + alignForwardAdjustment a.mCurrentPosition alignment) ∧
    a'.mNumAllocations = a.mNumAllocations + 1 ∧
    a'.mStart = a.mStart ∧ a'.mSize = a.mSize := by
  obtain ⟨_, _, _, haddr, ha'⟩ := linear_allocate_eq_some a a' size alignment address h
  subst ha'
  simp only [u32Mod, ptrMod] at *
  generalize alignForwardAdjustment a.mCurrentPosition alignment = p at *
  have h1 : address = a.mCurrentPosition + p := by omega
  refine ⟨h1, ?_, ?_, ?_, trivial, trivial⟩
  · show (address + size) % 2 ^ 64 = _
    omega
  · show (a.mUsedMemory + (size + p) % 2 ^ 32) % 2 ^ 32 = _
    omega
  · show (a.mNumAllocations + 1) % 2 ^ 32 = _
    omega

theorem linear_allocateAll_used (reqs : List (Nat × Nat)) :
    ∀ (a a' : LinearAllocator) (addresses : List Nat),
      a.allocateAll reqs = some (a', addresses) → a.noOverflow reqs = true →
      a'.mUsedMemory = a.mUsedMemory + a.consumed reqs ∧
      a'.mNumAllocations = a.mNumAllocations + reqs.length ∧
      addresses.length = reqs.length := by
  induction reqs with
  | nil =>
    intro a a' addresses h _
    simp only [LinearAllocator.allocateAll, Option.some.injEq, Prod.mk.injEq] at h
    obtain ⟨h1, h2⟩ := h
    subst h1 h2
    simp [LinearAllocator.consumed]
  | cons req rest ih =>
    obtain ⟨size, alignment⟩ := req
    intro a a' addresses h hno
    simp only [LinearAllocator.allocateAll] at h
    simp only [LinearAllocator.noOverflow, Bool.and_eq_true, decide_eq_true_eq] at hno
    simp only [LinearAllocator.consumed]
    cases h1 : a.allocate size alignment with
    | none => simp [h1] at h
    | some r =>
      obtain ⟨a1, address⟩ := r
      simp only [h1] at h hno ⊢
      obtain ⟨⟨⟨hu, hn⟩, hc⟩, hrest⟩ := hno
      cases h2 : a1.allocateAll rest with
      | none => simp [h2] at h
      | some r2 =>
        obtain ⟨a2, addrs2⟩ := r2
        simp only [h2, Option.some.injEq, Prod.mk.injEq] at h
        obtain ⟨h3, h4⟩ := h
        subst h3 h4
        obtain ⟨i1, i2, i3⟩ := ih a1 a2 addrs2 h2 hrest
        obtain ⟨_, _, p3, p4, _, _⟩ :=
          linear_allocate_post a a1 size alignment address h1 hu hn hc
        simp only [List.length_cons]
        omega

/-- C5 (the code at the failing input): over a 1024-byte arena at address
4096, after `createNoConstruct` of a 16-byte object the call
`createArrayNoConstruct<uint8_t>(4294967284)` passes the capacity `assert`,
because the 32-bit sum `16 + 0 + 4294967288` wraps to 8, and moves
`mCurrentPosition` to 4294971400, beyond `mStart + mSize = 5120`. -/
theorem linear_capacity_check_wraps :
    (((LinearAllocator.new 4096 1024).bind (fun a => a.createNoConstruct 16 4)).bind
      (fun r => (r.1.createArrayNoConstruct (fun _ => 0) 1 1 4294967284).map (fun q => q.1)))
      = some { mStart := 4096, mCurrentPosition := 4294971400, mSize := 1024,
               mUsedMemory := 8, mNumAllocations := 2 } ∧
    ¬ (4294971400 ≤ 4096 + 1024) := by
  refine ⟨by decide, by decide⟩

/-- C6 fails as stated: in the state reached by a 16-byte allocation in a
1024-byte arena, `allocate(4294967288, 1)` succeeds with padding 0 and
`mUsedMemory` goes from 16 to 8 instead of growing by `size + padding`; with
the allocation counter at its maximum the counter goes to 0; with the cursor
8 bytes below the top of the address space a 16-byte block ends at address
8. -/
theorem linear_allocate_usedMemory_wraps :
    LinearAllocator.allocate
      { mStart := 4096, mCurrentPosition := 4112, mSize := 1024, mUsedMemory := 16,
        mNumAllocations := 1 } 4294967288 1
      = some ({ mStart := 4096, mCurrentPosition := 4294971400, mSize := 1024,
                mUsedMemory := 8, mNumAllocations := 2 }, 4112) ∧
    alignForwardAdjustment 4112 1 = 0 ∧
    ¬ (8 = 16 + (4294967288 + 0)) ∧
    (LinearAllocator.allocate
      { mStart := 4096, mCurrentPosition := 4096, mSize := 1024, mUsedMemory := 0,
        mNumAllocations := 4294967295 } 16 4).map (fun r => r.1.mNumAllocations) = some 0 ∧
    (LinearAllocator.allocate
      { mStart := 18446744073709551600, mCurrentPosition := 18446744073709551608,
        mSize := 1024, mUsedMemory := 8, mNumAllocations := 1 } 16 4).map
        (fun r => (r.1.mCurrentPosition, r.2)) = some (8, 18446744073709551608) := by
  refine ⟨by decide, by decide, by decide, by decide, by decide⟩

/-- C6 (amended): for every state and every successful `allocate(size,
alignment)` with padding `p = alignForwardAdjustment(currentPosition,
alignment)` in which the 32-bit sum `usedMemory + p + size` and the allocation
counter do not wrap and the block ends inside the address space, the returned
address is `currentPosition + p`, the new `currentPosition` is the old one
`+ p + size`, `usedMemory` grows by exactly `size + p`, `numAllocations` by
exactly 1, and `start` and `size` are unchanged; hence after any sequence of
such allocations `usedMemory` has grown by the sum of the `size_i + p_i`. -/
theorem linear_allocate_postcondition :
    (∀ (a a' : LinearAllocator) (size alignment address : Nat),
      a.allocate size alignment = some (a', address) →
      a.mUsedMemory + alignForwardAdjustment a.mCurrentPosition alignment + size < u32Mod →
      a.mNumAllocations + 1 < u32Mod →
      a.mCurrentPosition + alignForwardAdjustment a.mCurrentPosition alignment + size
        < ptrMod →
      address = a.mCurrentPosition + alignForwardAdjustment a.mCurrentPosition alignment ∧
      a'.mCurrentPosition =
        a.mCurrentPosition + alignForwardAdjustment a.mCurrentPosition alignment + size ∧
      a'.mUsedMemory =
        a.mUsedMemory + (size + alignForwardAdjustment a.mCurrentPosition alignment) ∧
      a'.mNumAllocations = a.mNumAllocations + 1 ∧
      a'.mStart = a.mStart ∧ a'.mSize = a.mSize) ∧
    (∀ (a a' : LinearAllocator) (reqs : List (Nat × Nat)) (addresses : List Nat),
      a.allocateAll reqs = some (a', addresses) → a.noOverflow reqs = true →
      a'.mUsedMemory = a.mUsedMemory + a.consumed reqs ∧
      a'.mNumAllocations = a.mNumAllocations + reqs.length) :=
  ⟨linear_allocate_post, fun a a' reqs addresses h hno =>
    ⟨(linear_allocateAll_used reqs a a' addresses h hno).1,
     (linear_allocateAll_used reqs a a' addresses h hno).2.1⟩⟩

/-- Witness of the amended C6: in a 16-aligned 1024-byte arena, 16 bytes with
alignment 4 and then 24 bytes with alignment 8 give `usedMemory` 16 and then
40, and `numAllocations` 1 and then 2. -/
theorem linear_allocate_postcondition_witness :
    LinearAllocator.allocateAll
      { mStart := 4096, mCurrentPosition := 4096, mSize := 1024, mUsedMemory := 0,
        mNumAllocations := 0 } [(16, 4)]
      = some ({ mStart := 4096, mCurrentPosition := 4112, mSize := 1024, mUsedMemory := 16,
                mNumAllocations := 1 }, [4096]) ∧
    LinearAllocator.allocateAll
      { mStart := 4096, mCurrentPosition := 4096, mSize := 1024, mUsedMemory := 0,
        mNumAllocations := 0 } [(16, 4), (24, 8)]
      = some ({ mStart := 4096, mCurrentPosition := 4136, mSize := 1024, mUsedMemory := 40,
                mNumAllocations := 2 }, [4096, 4112]) ∧
    (40 : Nat) = 0 + LinearAllocator.consumed
      { mStart := 4096, mCurrentPosition := 4096, mSize := 1024, mUsedMemory := 0,
        mNumAllocations := 0 } [(16, 4), (24, 8)] ∧
    (2 : Nat) = 0 + [((16 : Nat), (4 : Nat)), (24, 8)].length :=
  ⟨by decide, by decide,
   (linear_allocate_postcondition.2
      { mStart := 4096, mCurrentPosition := 4096, mSize := 1024, mUsedMemory := 0,
        mNumAllocations := 0 }
      { mStart := 4096, mCurrentPosition := 4136, mSize := 1024, mUsedMemory := 40,
        mNumAllocations := 2 } [(16, 4), (24, 8)] [4096, 4112] (by decide)
      (by decide)).1,
   (linear_allocate_postcondition.2
      { mStart := 4096, mCurrentPosition := 4096, mSize := 1024, mUsedMemory := 0,
        mNumAllocations := 0 }
      { mStart := 4096, mCurrentPosition := 4136, mSize := 1024, mUsedMemory := 40,
        mNumAllocations := 2 } [(16, 4), (24, 8)] [4096, 4112] (by decide)
      (by decide)).2⟩

/-! ## Stack allocator -/

theorem load_store_same (mem : Mem) (k v : Nat) : load (store mem k v) k = v := by
  simp [load, store]

theorem load_store_other (mem : Mem) (k v j : Nat) (h : j ≠ k) :
    load (store mem k v) j = load mem j := by
  simp [load, store, h]

theorem alignForwardAdjustment_lt_u8 (address alignment : Nat) :
    alignForwardAdjustment address alignment < u8Mod := by
  unfold alignForwardAdjustment
  simp only [u8Mod]
  split
  · decide
  · exact Nat.mod_lt _ (by decide)

theorem alignForwardAdjustmentWithHeader_lt_u8 (address alignment headerSize r : Nat)
    (h : alignForwardAdjustmentWithHeader address alignment headerSize = some r) :
    r < u8Mod := by
  unfold alignForwardAdjustmentWithHeader at h
  have h8 : 0 < u8Mod := by decide
  split at h
  · simp at h
  split at h
  · simp at h
  simp only at h
  split at h
  · simp only [Option.some.injEq] at h
    subst h
    split
    · exact Nat.mod_lt _ h8
    · exact Nat.mod_lt _ h8
  · simp only [Option.some.injEq] at h
    subst h
    exact alignForwardAdjustment_lt_u8 _ _

theorem stack_allocate_eq_some (a a' : StackAllocator) (mem mem' : Mem)
    (size alignment address : Nat)
    (h : a.allocate mem size alignment = some (a', mem', address)) :
    ∃ adjustment,
      alignForwardAdjustmentWithHeader a.mCurrentPosition alignment 16 = some adjustment ∧
      size ≠ 0 ∧
      (a.mUsedMemory + adjustment + size) % u32Mod ≤ a.mSize ∧
      address = (a.mCurrentPosition + adjustment) % ptrMod ∧
      mem' = store (store mem
        ((StackAllocator.headerAddress address + offsetofAdjustment) % ptrMod) adjustment)
        (StackAllocator.headerAddress address) a.mPreviousPosition ∧
      a' = { a with
        mPreviousPosition := address,
        mCurrentPosition := (address + size) % ptrMod,
        mUsedMemory := (a.mUsedMemory + (size + adjustment) % u32Mod) % u32Mod,
        mNumAllocations := (a.mNumAllocations + 1) % u32Mod } := by
  unfold StackAllocator.allocate at h
  have h16 : sizeofHeader % u8Mod = 16 := by decide
  rw [h16] at h
  by_cases hs : size = 0
  · simp [hs] at h
  rw [if_neg hs] at h
  cases hadj : alignForwardAdjustmentWithHeader a.mCurrentPosition alignment 16 with
  | none => simp [hadj] at h
  | some adjustment =>
    simp only [hadj] at h
    by_cases hc : (a.mUsedMemory + adjustment + size) % u32Mod ≤ a.mSize
    · simp only [hc, not_true_eq_false, if_false, Option.some.injEq, Prod.mk.injEq] at h
      obtain ⟨h1, h2, h3⟩ := h
      refine ⟨adjustment, rfl, hs, hc, h3.symm, ?_, ?_⟩
      · rw [← h2, ← h3]
      · rw [← h1, ← h3]
    · simp [hc] at h

theorem stack_headerAddress_add (p : Nat) (h16 : 16 ≤ p) (hp : p < ptrMod) :
    StackAllocator.headerAddress p = p - 16 ∧
    (StackAllocator.headerAddress p + offsetofAdjustment) % ptrMod = p - 8 := by
  simp only [StackAllocator.headerAddress, sizeofHeader, offsetofAdjustment, ptrMod] at *
  omega

theorem stack_header_keys_ne (h : Nat) :
    (h % ptrMod + offsetofAdjustment) % ptrMod ≠ h % ptrMod := by
  simp only [offsetofAdjustment, ptrMod]
  omega

theorem stack_read_written_header (mem : Mem) (p adjustment previous : Nat)
    (ha : adjustment < u8Mod) (hp : previous < ptrMod) :
    StackAllocator.readAdjustment (store (store mem
        ((StackAllocator.headerAddress p + offsetofAdjustment) % ptrMod) adjustment)
        (StackAllocator.headerAddress p) previous) (StackAllocator.headerAddress p)
      = adjustment ∧
    StackAllocator.readPreviousAddress (store (store mem
        ((StackAllocator.headerAddress p + offsetofAdjustment) % ptrMod) adjustment)
        (StackAllocator.headerAddress p) previous) (StackAllocator.headerAddress p)
      = previous := by
  have hne := stack_header_keys_ne (p + ptrMod - sizeofHeader)
  unfold StackAllocator.readAdjustment StackAllocator.readPreviousAddress
  unfold StackAllocator.headerAddress at *
  rw [load_store_other _ _ _ _ hne, load_store_same, load_store_same]
  exact ⟨Nat.mod_eq_of_lt ha, Nat.mod_eq_of_lt hp⟩

/-- C7 fails on the code: in a 1024-byte arena at 4096, after the creation of
a 16-byte object (`usedMemory` 32, cursor 4128), `allocate(4294967256, 1)`, the
call that `createArrayNoConstruct<uint8_t>(4294967252)` makes, has padding 16
and passes the capacity check because the 32-bit sum `32 + 16 + 4294967256`
wraps to 8; the call succeeds, `usedMemory` goes from 32 to 8 instead of
growing by `size + padding`, and the cursor ends at 4294971400, far beyond
the end 5120 of the arena. -/
theorem stack_allocate_usedMemory_wraps :
    ∃ a0 a1 mem1 a2 mem2,
      StackAllocator.new 4096 1024 = some a0 ∧
      a0.createNoConstruct (fun _ => 0) 16 4 = some (a1, mem1, 4112) ∧
      a1.mUsedMemory = 32 ∧ a1.mCurrentPosition = 4128 ∧
      alignForwardAdjustmentWithHeader a1.mCurrentPosition 1 sizeofHeader = some 16 ∧
      (a1.mUsedMemory + 16 + 4294967256) % u32Mod = 8 ∧
      a1.allocate mem1 4294967256 1 = some (a2, mem2, 4144) ∧
      (∃ mem3 q, a1.createArrayNoConstruct mem1 1 1 4294967252 = some (a2, mem3, q)) ∧
      a2.mUsedMemory = 8 ∧
      a2.mUsedMemory ≠ a1.mUsedMemory + (4294967256 + 16) ∧
      a2.mCurrentPosition = 4294971400 ∧
      a2.mStart + a2.mSize = 5120 :=
  ⟨_, _, _, _, _, rfl, rfl, rfl, rfl, by decide, by decide, rfl, ⟨_, _, rfl⟩, rfl,
    by decide, rfl, rfl⟩

/-- Postcondition of `allocate` where nothing wraps (the statement of C7 with
the sums inside their ranges): for every state whose fields hold machine
values and every successful `allocate(size, alignment)` with padding
`p = alignForwardAdjustmentWithHeader(currentPosition, alignment,
sizeof(Header))` in which the 32-bit sum `usedMemory + p + size` and the
allocation counter do not wrap and the block ends inside the address space:
the returned address is `currentPosition + p`, the header in the
`sizeof(Header)` bytes in front of it holds the old `previousPosition` and
`p`, and afterwards `previousPosition` is the returned address,
`currentPosition` is the address `+ size`, `usedMemory` has grown by
`size + p`, `numAllocations` by 1, and `start` and `size` are unchanged. -/
theorem stack_allocate_postcondition (a a' : StackAllocator) (mem mem' : Mem)
    (size alignment address p : Nat) (hwf : a.WF)
    (hp : alignForwardAdjustmentWithHeader a.mCurrentPosition alignment sizeofHeader = some p)
    (h : a.allocate mem size alignment = some (a', mem', address))
    (hused : a.mUsedMemory + p + size < u32Mod)
    (hnum : a.mNumAllocations + 1 < u32Mod)
    (hcur : a.mCurrentPosition + p + size < ptrMod) :
    address = a.mCurrentPosition + p ∧
    (StackAllocator.headerAddress address + sizeofHeader) % ptrMod = address ∧
    StackAllocator.readPreviousAddress mem' (StackAllocator.headerAddress address)
      = a.mPreviousPosition ∧
    StackAllocator.readAdjustment mem' (StackAllocator.headerAddress address) = p ∧
    a'.mPreviousPosition = address ∧
    a'.mCurrentPosition = address + size ∧
    a'.mUsedMemory = a.mUsedMemory + (size + p) ∧
    a'.mNumAllocations = a.mNumAllocations + 1 ∧
    a'.mStart = a.mStart ∧ a'.mSize = a.mSize := by
  obtain ⟨adj, hadj, _, _, haddr, hmem, ha'⟩ :=
    stack_allocate_eq_some a a' mem mem' size alignment address h
  have h16 : sizeofHeader = 16 := rfl
  rw [h16, hadj] at hp
  simp only [Option.some.injEq] at hp
  subst hp
  have hlt := alignForwardAdjustmentWithHeader_lt_u8 _ _ _ _ hadj
  obtain ⟨_, hc, hpv, _, _, _⟩ := hwf
  obtain ⟨hr1, hr2⟩ :=
    stack_read_written_header mem address adj a.mPreviousPosition hlt hpv
  subst hmem ha'
  refine ⟨?_, ?_, hr2, hr1, rfl, ?_, ?_, ?_, rfl, rfl⟩
  · simp only [ptrMod] at *; omega
  · simp only [StackAllocator.headerAddress, sizeofHeader, ptrMod] at *; omega
  · show (address + size) % ptrMod = _
    simp only [ptrMod] at *; omega
  · show (a.mUsedMemory + (size + adj) % u32Mod) % u32Mod = _
    simp only [u32Mod] at *; omega
  · show (a.mNumAllocations + 1) % u32Mod = _
    simp only [u32Mod] at *; omega

/-- The test scenario of C7: in a 16-aligned 1024-byte arena, after 16 bytes
with alignment 4 (`usedMemory` 32), 24 bytes with alignment 8 are placed at
4144 with padding 16 and `usedMemory` becomes 72. -/
theorem stack_allocate_postcondition_witness :
    (StackAllocator.allocate
      { mStart := 4096, mCurrentPosition := 4096, mPreviousPosition := 0, mSize := 1024,
        mUsedMemory := 0, mNumAllocations := 0 } (fun _ => 0) 16 4).map (fun r => (r.1, r.2.2))
      = some ({ mStart := 4096, mCurrentPosition := 4128, mPreviousPosition := 4112,
                mSize := 1024, mUsedMemory := 32, mNumAllocations := 1 }, 4112) ∧
    (4144 = 4128 + 16 ∧
    (StackAllocator.headerAddress 4144 + sizeofHeader) % ptrMod = 4144 ∧
    StackAllocator.readPreviousAddress (store (store (fun _ => 0) 4136 16) 4128 4112)
      (StackAllocator.headerAddress 4144) = 4112 ∧
    StackAllocator.readAdjustment (store (store (fun _ => 0) 4136 16) 4128 4112)
      (StackAllocator.headerAddress 4144) = 16 ∧
    (4144 : Nat) = 4144 ∧
    (4168 : Nat) = 4144 + 24 ∧
    (72 : Nat) = 32 + (24 + 16) ∧
    (2 : Nat) = 1 + 1 ∧
    (4096 : Nat) = 4096 ∧ (1024 : Nat) = 1024) :=
  ⟨by decide,
   stack_allocate_postcondition
    { mStart := 4096, mCurrentPosition := 4128, mPreviousPosition := 4112, mSize := 1024,
      mUsedMemory := 32, mNumAllocations := 1 }
    { mStart := 4096, mCurrentPosition := 4168, mPreviousPosition := 4144, mSize := 1024,
      mUsedMemory := 72, mNumAllocations := 2 }
    (fun _ => 0) (store (store (fun _ => 0) 4136 16) 4128 4112) 24 8 4144 16
    (by decide) (by decide) (by rfl) (by decide) (by decide) (by decide)⟩

theorem alignments_pow2 (alignment : Nat) (h : alignment ∈ alignments) :
    ∃ k, k ≤ 7 ∧ alignment = 2 ^ k := by
  simp only [alignments, List.mem_cons, List.mem_singleton, List.not_mem_nil, or_false] at h
  rcases h with rfl | rfl | rfl | rfl | rfl | rfl | rfl | rfl
  · exact ⟨0, by decide, by decide⟩
  · exact ⟨1, by decide, by decide⟩
  · exact ⟨2, by decide, by decide⟩
  · exact ⟨3, by decide, by decide⟩
  · exact ⟨4, by decide, by decide⟩
  · exact ⟨5, by decide, by decide⟩
  · exact ⟨6, by decide, by decide⟩
  · exact ⟨7, by decide, by decide⟩

theorem header_padding_ge (address alignment adjustment : Nat) (hal : alignment ∈ alignments)
    (h : alignForwardAdjustmentWithHeader address alignment 16 = some adjustment) :
    16 ≤ adjustment := by
  obtain ⟨k, hk, rfl⟩ := alignments_pow2 alignment hal
  have hfit : 16 + 2 ^ k ≤ 256 := by
    have : 2 ^ k ≤ 2 ^ 7 := Nat.pow_le_pow_right (by decide) hk
    omega
  obtain ⟨q, hq, hge, _, _⟩ := alignForwardAdjustmentWithHeader_eq address k 16 hk hfit
  rw [hq] at h
  simp only [Option.some.injEq] at h
  omega

/-- What a fitting allocation with a power-of-two alignment does. -/
theorem stack_allocate_fits (a a' : StackAllocator) (mem mem' : Mem)
    (size alignment address : Nat) (hwf : a.WF) (hal : alignment ∈ alignments)
    (h : a.allocate mem size alignment = some (a', mem', address))
    (hfit : StackAllocator.blockFits a size address) :
    ∃ adjustment, 16 ≤ adjustment ∧ adjustment < 256 ∧ size ≠ 0 ∧
      address = a.mCurrentPosition + adjustment ∧
      a'.mCurrentPosition = address + size ∧ a'.mPreviousPosition = address ∧
      a'.mUsedMemory = (a.mUsedMemory + (size + adjustment) % u32Mod) % u32Mod ∧
      a'.mNumAllocations = (a.mNumAllocations + 1) % u32Mod ∧
      a'.mStart = a.mStart ∧ a'.mSize = a.mSize ∧ a'.WF ∧
      StackAllocator.readAdjustment mem' (StackAllocator.headerAddress address) = adjustment ∧
      StackAllocator.readPreviousAddress mem' (StackAllocator.headerAddress address)
        = a.mPreviousPosition ∧
      (∀ k, k < a.mCurrentPosition → mem' k = mem k) := by
  obtain ⟨adj, hadj, hs, _, haddr, hmem, ha'⟩ :=
    stack_allocate_eq_some a a' mem mem' size alignment address h
  have hge := header_padding_ge _ _ _ hal hadj
  have hlt := alignForwardAdjustmentWithHeader_lt_u8 _ _ _ _ hadj
  obtain ⟨hst, hc, hpv, hsz, hu, hn⟩ := hwf
  obtain ⟨hf1, hf2⟩ := hfit
  obtain ⟨hr1, hr2⟩ :=
    stack_read_written_header mem address adj a.mPreviousPosition hlt hpv
  have haddr' : address = a.mCurrentPosition + adj := by
    simp only [ptrMod, u8Mod] at *; omega
  have hkeys := stack_headerAddress_add address (by omega) (by simp only [ptrMod] at *; omega)
  subst hmem ha'
  refine ⟨adj, hge, hlt, hs, haddr', ?_, rfl, rfl, rfl, rfl, rfl, ?_, hr1, hr2, ?_⟩
  · show (address + size) % ptrMod = _
    exact Nat.mod_eq_of_lt hf2
  · refine ⟨hst, Nat.mod_lt _ (by decide), ?_, hsz, Nat.mod_lt _ (by decide),
      Nat.mod_lt _ (by decide)⟩
    show address < ptrMod
    omega
  · intro k hk
    rw [hkeys.2, hkeys.1]
    have h1 : k ≠ address - 16 := by omega
    have h2 : k ≠ address - 8 := by omega
    simp [store, h1, h2]

/-- Freeing the most recent fitting allocation restores the state before it,
whatever was written above the old cursor in between. -/
theorem stack_free_after_allocate (a a' : StackAllocator) (mem mem' later : Mem)
    (size alignment address : Nat) (hwf : a.WF) (hal : alignment ∈ alignments)
    (h : a.allocate mem size alignment = some (a', mem', address))
    (hfit : StackAllocator.blockFits a size address)
    (hsame : ∀ k, k < a'.mCurrentPosition → later k = mem' k) :
    a'.free later address = some a := by
  obtain ⟨adj, hge, hlt, hs, haddr, hcur, hprev, hused, hnum, hst, hsz, hwf', hr1, hr2, _⟩ :=
    stack_allocate_fits a a' mem mem' size alignment address hwf hal h hfit
  obtain ⟨hst0, hc, hpv, hsz0, hu, hn⟩ := hwf
  obtain ⟨hf1, hf2⟩ := hfit
  have hkeys := stack_headerAddress_add address (by omega)
    (by simp only [ptrMod] at *; omega)
  have hr1' : StackAllocator.readAdjustment later (StackAllocator.headerAddress address)
      = adj := by
    rw [← hr1]
    unfold StackAllocator.readAdjustment load
    rw [hkeys.2, hsame _ (by omega)]
  have hr2' : StackAllocator.readPreviousAddress later (StackAllocator.headerAddress address)
      = a.mPreviousPosition := by
    rw [← hr2]
    unfold StackAllocator.readPreviousAddress load
    rw [hkeys.1, hsame _ (by omega)]
  unfold StackAllocator.free
  simp only [hprev, not_true_eq_false, if_false, hr1', hr2', Option.some.injEq]
  cases a with
  | mk s c p z u n =>
    cases a' with
    | mk s' c' p' z' u' n' =>
      simp only at *
      subst hst hsz hprev hcur hused hnum
      simp only [StackAllocator.mk.injEq, true_and, and_true]
      simp only [ptrMod, u32Mod] at *
      refine ⟨?_, ?_, ?_⟩ <;> omega

theorem stack_freeAll_append (mem : Mem) (xs ys : List Nat) :
    ∀ a : StackAllocator, a.freeAll mem (xs ++ ys)
      = (a.freeAll mem xs).bind (fun a' => a'.freeAll mem ys) := by
  induction xs with
  | nil => intro a; simp [StackAllocator.freeAll]
  | cons x xs ih =>
    intro a
    simp only [List.cons_append, StackAllocator.freeAll]
    cases a.free mem x with
    | none => simp
    | some a1 => simp [ih a1]

theorem stack_round_trip_aux (reqs : List (Nat × Nat)) :
    ∀ (a a' : StackAllocator) (mem mem' : Mem) (acc addresses : List Nat),
      a.WF → (∀ r ∈ reqs, r.2 ∈ alignments) →
      a.allocateAll mem acc reqs = some (a', mem', addresses) →
      a.allFit mem reqs = true →
      ∃ fresh, addresses = fresh ++ acc ∧ fresh.length = reqs.length ∧
        a.mCurrentPosition ≤ a'.mCurrentPosition ∧
        (∀ k, k < a.mCurrentPosition → mem' k = mem k) ∧
        (∀ later : Mem, (∀ k, k < a'.mCurrentPosition → later k = mem' k) →
          a'.freeAll later fresh = some a) := by
  induction reqs with
  | nil =>
    intro a a' mem mem' acc addresses _ _ h _
    simp only [StackAllocator.allocateAll, Option.some.injEq, Prod.mk.injEq] at h
    obtain ⟨h1, h2, h3⟩ := h
    subst h1 h2 h3
    exact ⟨[], rfl, rfl, Nat.le_refl _, fun _ _ => rfl, fun _ _ => rfl⟩
  | cons req rest ih =>
    obtain ⟨size, alignment⟩ := req
    intro a a' mem mem' acc addresses hwf hal h hfit
    simp only [StackAllocator.allocateAll] at h
    simp only [StackAllocator.allFit] at hfit
    cases h1 : a.allocate mem size alignment with
    | none => simp [h1] at h
    | some r =>
      obtain ⟨a1, mem1, p⟩ := r
      simp only [h1, Bool.and_eq_true, decide_eq_true_eq] at h hfit
      obtain ⟨hbf, hrest⟩ := hfit
      have hal1 : alignment ∈ alignments := hal (size, alignment) (List.mem_cons_self _ _)
      have halr : ∀ r ∈ rest, r.2 ∈ alignments :=
        fun r hr => hal r (List.mem_cons_of_mem _ hr)
      obtain ⟨adj, _, _, hs, haddr, hcur1, _, _, _, _, _, hwf1, _, _, hframe1⟩ :=
        stack_allocate_fits a a1 mem mem1 size alignment p hwf hal1 h1 hbf
      obtain ⟨fresh, hf1, hf2, hf3, hf4, hf5⟩ :=
        ih a1 a' mem1 mem' (p :: acc) addresses hwf1 halr h hrest
      refine ⟨fresh ++ [p], ?_, ?_, ?_, ?_, ?_⟩
      · rw [hf1]; simp
      · simp [hf2]
      · omega
      · intro k hk
        rw [hf4 k (by omega), hframe1 k hk]
      · intro later hsame
        rw [stack_freeAll_append, hf5 later hsame]
        have hfree := stack_free_after_allocate a a1 mem mem1 later size alignment p
          hwf hal1 h1 hbf (fun k hk => by rw [hsame k (by omega), hf4 k hk])
        simp [StackAllocator.freeAll, hfree]

/-- C3: from every state whose fields hold machine values, after N successful
`allocate` calls with power-of-two alignments, each block lying inside the
address space, `free` of the N returned addresses in reverse order succeeds at
every step and ends in the state before the first allocation (the same
`currentPosition`, `previousPosition`, `usedMemory`, `numAllocations`, `start`
and `size`). -/
theorem stack_lifo_round_trip (a a' : StackAllocator) (mem mem' : Mem)
    (reqs : List (Nat × Nat)) (addresses : List Nat) (hwf : a.WF)
    (hal : ∀ r ∈ reqs, r.2 ∈ alignments)
    (hrun : a.allocateAll mem [] reqs = some (a', mem', addresses))
    (hfit : a.allFit mem reqs = true) :
    addresses.length = reqs.length ∧ a'.freeAll mem' addresses = some a := by
  obtain ⟨fresh, hf1, hf2, _, _, hf5⟩ :=
    stack_round_trip_aux reqs a a' mem mem' [] addresses hwf hal hrun hfit
  rw [List.append_nil] at hf1
  subst hf1
  exact ⟨hf2, hf5 mem' (fun _ _ => rfl)⟩

/-- Witness of C3: three allocations (16 bytes/alignment 4, 24 bytes/alignment
8, 3 bytes/alignment 1) in a 1024-byte arena at 4096, freed in reverse order,
give back the fresh allocator. -/
theorem stack_lifo_round_trip_witness :
    [4184, 4144, 4112].length = [((16 : Nat), (4 : Nat)), (24, 8), (3, 1)].length ∧
    StackAllocator.freeAll
      { mStart := 4096, mCurrentPosition := 4187, mPreviousPosition := 4184, mSize := 1024,
        mUsedMemory := 91, mNumAllocations := 3 }
      (store (store (store (store (store (store (fun _ => 0) 4104 16) 4096 0) 4136 16) 4128 4112)
        4176 16) 4168 4144)
      [4184, 4144, 4112]
      = some { mStart := 4096, mCurrentPosition := 4096, mPreviousPosition := 0, mSize := 1024,
               mUsedMemory := 0, mNumAllocations := 0 } :=
  stack_lifo_round_trip
    { mStart := 4096, mCurrentPosition := 4096, mPreviousPosition := 0, mSize := 1024,
      mUsedMemory := 0, mNumAllocations := 0 }
    { mStart := 4096, mCurrentPosition := 4187, mPreviousPosition := 4184, mSize := 1024,
      mUsedMemory := 91, mNumAllocations := 3 }
    (fun _ => 0)
    (store (store (store (store (store (store (fun _ => 0) 4104 16) 4096 0) 4136 16) 4128 4112)
      4176 16) 4168 4144)
    [(16, 4), (24, 8), (3, 1)] [4184, 4144, 4112]
    (by decide) (by decide) (by rfl) (by decide)

theorem stack_free_eq_some (a a' : StackAllocator) (mem : Mem) (pointer : Nat)
    (h : a.free mem pointer = some a') :
    pointer = a.mPreviousPosition ∧
    a' = { a with
      mUsedMemory := (a.mUsedMemory + ptrMod -
        ((a.mCurrentPosition + ptrMod - pointer) % ptrMod +
          StackAllocator.readAdjustment mem (StackAllocator.headerAddress pointer)) % ptrMod)
          % ptrMod % u32Mod,
      mCurrentPosition := (pointer + ptrMod -
        StackAllocator.readAdjustment mem (StackAllocator.headerAddress pointer)) % ptrMod,
      mPreviousPosition :=
        StackAllocator.readPreviousAddress mem (StackAllocator.headerAddress pointer),
      mNumAllocations := (a.mNumAllocations + u32Mod - 1) % u32Mod } := by
  unfold StackAllocator.free at h
  by_cases hp : pointer = a.mPreviousPosition
  · simp only [hp, not_true_eq_false, if_false, Option.some.injEq] at h
    exact ⟨hp, by rw [← h, hp]⟩
  · simp [hp] at h

theorem stack_read_frame (mem mem' : Mem) (p current : Nat) (h16 : 16 ≤ p)
    (hp : p < current) (hc : current ≤ ptrMod)
    (hsame : ∀ k, k < current → mem' k = mem k) :
    StackAllocator.readAdjustment mem' (StackAllocator.headerAddress p)
      = StackAllocator.readAdjustment mem (StackAllocator.headerAddress p) ∧
    StackAllocator.readPreviousAddress mem' (StackAllocator.headerAddress p)
      = StackAllocator.readPreviousAddress mem (StackAllocator.headerAddress p) := by
  have hkeys := stack_headerAddress_add p h16 (by omega)
  unfold StackAllocator.readAdjustment StackAllocator.readPreviousAddress load
  rw [hkeys.2, hkeys.1, hsame _ (by omega), hsame _ (by omega)]
  exact ⟨rfl, rfl⟩

theorem stackRun_Chain_frame (mem mem' : Mem) (live : List Nat) :
    ∀ current previous, current ≤ ptrMod → (∀ k, k < current → mem' k = mem k) →
      StackConfig.Chain mem current previous live →
      StackConfig.Chain mem' current previous live := by
  induction live with
  | nil => intro current previous _ _ h; exact h
  | cons p rest ih =>
    intro current previous hc hsame h
    simp only [StackConfig.Chain] at h ⊢
    obtain ⟨h1, h2, h3, h4, h5⟩ := h
    have h16 : 16 ≤ p := by
      have : sizeofHeader = 16 := rfl
      omega
    obtain ⟨hr1, hr2⟩ := stack_read_frame mem mem' p current h16 h2 hc hsame
    rw [hr1, hr2]
    refine ⟨h1, h2, h3, h4, ?_⟩
    exact ih _ _ (by omega) (fun k hk => hsame k (by omega)) h5

theorem stackRun_Chain_lt (mem : Mem) (live : List Nat) :
    ∀ current previous, StackConfig.Chain mem current previous live →
      ∀ q ∈ live, q < current := by
  induction live with
  | nil => intro _ _ _ q hq; simp at hq
  | cons p rest ih =>
    intro current previous h q hq
    simp only [StackConfig.Chain] at h
    obtain ⟨_, h2, _, _, h5⟩ := h
    rcases List.mem_cons.mp hq with rfl | hq'
    · exact h2
    · have := ih _ _ h5 q hq'
      omega

theorem stackRun_Chain_tail_lt (mem : Mem) (p : Nat) (rest : List Nat) (current previous : Nat)
    (h : StackConfig.Chain mem current previous (p :: rest)) :
    previous = p ∧ ∀ q ∈ rest, q < p := by
  simp only [StackConfig.Chain] at h
  obtain ⟨h1, _, h3, _, h5⟩ := h
  refine ⟨h1, fun q hq => ?_⟩
  have := stackRun_Chain_lt mem rest _ _ h5 q hq
  have h16 : sizeofHeader = 16 := rfl
  omega

theorem stackRun_Chain_nodup (mem : Mem) (live : List Nat) :
    ∀ current previous, StackConfig.Chain mem current previous live → live.Nodup := by
  induction live with
  | nil => intro _ _ _; exact List.nodup_nil
  | cons p rest ih =>
    intro current previous h
    have ht := (stackRun_Chain_tail_lt mem p rest current previous h).2
    simp only [StackConfig.Chain] at h
    refine List.nodup_cons.mpr ⟨fun hmem => ?_, ih _ _ h.2.2.2.2⟩
    have := ht p hmem
    omega

theorem stackRun_Inv_step (c c' : StackConfig) (op : StackOp) (hinv : c.Inv)
    (h : c.step op = some c') : c'.Inv := by
  obtain ⟨hwf, hchain⟩ := hinv
  cases op with
  | allocate size alignment =>
    simp only [StackConfig.step] at h
    by_cases hal : alignment ∈ alignments
    · rw [if_pos hal] at h
      cases h1 : c.alloc.allocate c.mem size alignment with
      | none => simp [h1] at h
      | some r =>
        obtain ⟨a1, mem1, p⟩ := r
        simp only [h1] at h
        by_cases hbf : StackAllocator.blockFits c.alloc size p
        · rw [if_pos hbf] at h
          simp only [Option.some.injEq] at h
          subst h
          obtain ⟨adj, hge, hlt, hs, haddr, hcur1, hprev1, _, _, _, _, hwf1, hr1, hr2, hframe⟩ :=
            stack_allocate_fits c.alloc a1 c.mem mem1 size alignment p hwf hal h1 hbf
          refine ⟨hwf1, ?_⟩
          show StackConfig.Chain mem1 a1.mCurrentPosition a1.mPreviousPosition (p :: c.live)
          simp only [StackConfig.Chain]
          rw [hr1, hr2]
          have h16 : sizeofHeader = 16 := rfl
          refine ⟨hprev1, by omega, by omega, by omega, ?_⟩
          have hsub : p - adj = c.alloc.mCurrentPosition := by omega
          rw [hsub]
          exact stackRun_Chain_frame c.mem mem1 c.live _ _ (Nat.le_of_lt hwf.2.1) hframe hchain
        · rw [if_neg hbf] at h; simp at h
    · rw [if_neg hal] at h; simp at h
  | remove object =>
    simp only [StackConfig.step, StackAllocator.remove] at h
    by_cases ho : object = 0
    · simp [ho] at h
    · rw [if_neg ho] at h
      cases h1 : c.alloc.free c.mem object with
      | none => simp [h1] at h
      | some a1 =>
        simp only [h1, Option.some.injEq] at h
        subst h
        obtain ⟨hptr, ha1⟩ := stack_free_eq_some c.alloc a1 c.mem object h1
        cases hl : c.live with
        | nil =>
          rw [hl] at hchain
          simp only [StackConfig.Chain] at hchain
          omega
        | cons p rest =>
          rw [hl] at hchain
          simp only [StackConfig.Chain] at hchain
          obtain ⟨hp, hlt, hge, hle, hrest⟩ := hchain
          have hop : object = p := by omega
          subst hop
          obtain ⟨hst, hc, hpv, hsz, hu, hn⟩ := hwf
          have hcur : (object + ptrMod -
              StackAllocator.readAdjustment c.mem (StackAllocator.headerAddress object)) % ptrMod
              = object -
                StackAllocator.readAdjustment c.mem (StackAllocator.headerAddress object) := by
            simp only [ptrMod] at *; omega
          subst ha1
          refine ⟨⟨hst, ?_, ?_, hsz, ?_, ?_⟩, ?_⟩
          · exact Nat.mod_lt _ (by decide)
          · exact Nat.mod_lt _ (by decide)
          · exact Nat.mod_lt _ (by decide)
          · exact Nat.mod_lt _ (by decide)
          · show StackConfig.Chain c.mem _ _ (List.tail (object :: rest))
            simp only [List.tail_cons]
            rw [hcur]
            exact hrest
  | clean =>
    simp only [StackConfig.step, Option.some.injEq] at h
    subst h
    obtain ⟨hst, hc, hpv, hsz, hu, hn⟩ := hwf
    refine ⟨⟨hst, hst, ?_, hsz, ?_, ?_⟩, ?_⟩
    · show 0 < ptrMod
      decide
    · show 0 < u32Mod
      decide
    · show 0 < u32Mod
      decide
    · show StackConfig.Chain c.mem _ 0 []
      simp [StackConfig.Chain]

theorem stackRun_Inv_run (ops : List StackOp) :
    ∀ c c' : StackConfig, c.Inv → c.run ops = some c' → c'.Inv := by
  induction ops with
  | nil =>
    intro c c' hinv h
    simp only [StackConfig.run, Option.some.injEq] at h
    subst h; exact hinv
  | cons op ops ih =>
    intro c c' hinv h
    simp only [StackConfig.run] at h
    cases h1 : c.step op with
    | none => simp [h1] at h
    | some c1 =>
      simp only [h1] at h
      exact ih c1 c' (stackRun_Inv_step c c1 op hinv h1) h

theorem stackRun_Inv_new (start size : Nat) (mem : Mem) (a0 : StackAllocator)
    (hstart : start < ptrMod) (hsize : size < u32Mod)
    (hnew : StackAllocator.new start size = some a0) :
    StackConfig.Inv { alloc := a0, mem := mem, live := [] } := by
  unfold StackAllocator.new at hnew
  by_cases hz : size > 0
  · simp only [hz, not_true_eq_false, if_false, Option.some.injEq] at hnew
    subst hnew
    refine ⟨⟨hstart, hstart, ?_, hsize, ?_, ?_⟩, ?_⟩
    · show 0 < ptrMod
      decide
    · show 0 < u32Mod
      decide
    · show 0 < u32Mod
      decide
    · show StackConfig.Chain mem _ 0 []
      simp [StackConfig.Chain]
  · simp [hz] at hnew

/-- C9: `free(pointer)` succeeds only if `pointer == previousPosition`; in
every state reached from construction by successful `allocate`, `remove` and
`clean` calls (power-of-two alignments, blocks inside the address space), the
addresses of the live allocations are pairwise distinct, the most recent one
is `previousPosition`, and `free` of any other live address fails. -/
theorem stack_free_out_of_order (start size : Nat) (mem : Mem) (ops : List StackOp)
    (a0 : StackAllocator) (c : StackConfig) (hstart : start < ptrMod) (hsize : size < u32Mod)
    (hnew : StackAllocator.new start size = some a0)
    (hrun : StackConfig.run { alloc := a0, mem := mem, live := [] } ops = some c) :
    (∀ (a a' : StackAllocator) (m : Mem) (pointer : Nat),
      a.free m pointer = some a' → pointer = a.mPreviousPosition) ∧
    c.live.Nodup ∧
    (∀ p, c.live.head? = some p → c.alloc.mPreviousPosition = p) ∧
    (∀ p ∈ c.live.tail, c.alloc.free c.mem p = none) := by
  have hinv := stackRun_Inv_run ops _ c
    (stackRun_Inv_new start size mem a0 hstart hsize hnew) hrun
  obtain ⟨_, hchain⟩ := hinv
  refine ⟨fun a a' m pointer h => (stack_free_eq_some a a' m pointer h).1,
    stackRun_Chain_nodup _ _ _ _ hchain, ?_, ?_⟩
  · intro p hp
    cases hl : c.live with
    | nil => rw [hl] at hp; simp at hp
    | cons q rest =>
      rw [hl] at hp hchain
      simp only [List.head?_cons, Option.some.injEq] at hp
      subst hp
      exact (stackRun_Chain_tail_lt _ _ _ _ _ hchain).1
  · intro p hp
    cases hl : c.live with
    | nil => rw [hl] at hp; simp at hp
    | cons q rest =>
      rw [hl] at hp hchain
      simp only [List.tail_cons] at hp
      obtain ⟨hq, hlt⟩ := stackRun_Chain_tail_lt _ _ _ _ _ hchain
      have := hlt p hp
      cases hf : c.alloc.free c.mem p with
      | none => rfl
      | some a1 =>
        have := (stack_free_eq_some _ _ _ _ hf).1
        omega

/-- Witness of C9: with the 16-byte block at 4112 and the 24-byte block at
4144 live, `free(4112)` fails. -/
theorem stack_free_out_of_order_witness :
    StackAllocator.free
      { mStart := 4096, mCurrentPosition := 4168, mPreviousPosition := 4144, mSize := 1024,
        mUsedMemory := 72, mNumAllocations := 2 }
      (store (store (store (store (fun _ => 0) 4104 16) 4096 0) 4136 16) 4128 4112) 4112
      = none :=
  (stack_free_out_of_order 4096 1024 (fun _ => 0)
    [StackOp.allocate 16 4, StackOp.allocate 24 8]
    { mStart := 4096, mCurrentPosition := 4096, mPreviousPosition := 0, mSize := 1024,
      mUsedMemory := 0, mNumAllocations := 0 }
    { alloc := { mStart := 4096, mCurrentPosition := 4168, mPreviousPosition := 4144,
                 mSize := 1024, mUsedMemory := 72, mNumAllocations := 2 },
      mem := store (store (store (store (fun _ => 0) 4104 16) 4096 0) 4136 16) 4128 4112,
      live := [4144, 4112] }
    (by decide) (by decide) (by decide) (by rfl)).2.2.2 4112 (by decide)

/-! ## Pool allocator -/

theorem pool_slotsFrom_length (s : Nat) :
    ∀ k p, (PoolAllocator.slotsFrom s k p).length = k := by
  intro k
  induction k with
  | zero => intro p; rfl
  | succ k ih => intro p; simp [PoolAllocator.slotsFrom, ih]

theorem pool_slotsFrom_bounds (s : Nat) :
    ∀ k p q, q ∈ PoolAllocator.slotsFrom s k p → p ≤ q ∧ q + s ≤ p + k * s := by
  intro k
  induction k with
  | zero => intro p q h; simp [PoolAllocator.slotsFrom] at h
  | succ k ih =>
    intro p q h
    simp only [PoolAllocator.slotsFrom, List.mem_cons] at h
    rw [Nat.succ_mul]
    rcases h with rfl | h
    · omega
    · have := ih _ _ h
      omega

theorem pool_slotsFrom_nodup (s : Nat) (hs : 0 < s) :
    ∀ k p, (PoolAllocator.slotsFrom s k p).Nodup := by
  intro k
  induction k with
  | zero => intro p; exact List.nodup_nil
  | succ k ih =>
    intro p
    simp only [PoolAllocator.slotsFrom]
    refine List.nodup_cons.mpr ⟨fun h => ?_, ih _⟩
    have := (pool_slotsFrom_bounds s k _ _ h).1
    omega

theorem pool_slotsFrom_mem (s : Nat) :
    ∀ k p i, i < k → p + i * s ∈ PoolAllocator.slotsFrom s k p := by
  intro k
  induction k with
  | zero => intro p i h; omega
  | succ k ih =>
    intro p i h
    simp only [PoolAllocator.slotsFrom, List.mem_cons]
    rcases Nat.eq_zero_or_pos i with h0 | h0
    · left; subst h0; simp
    · right
      obtain ⟨j, rfl⟩ : ∃ j, i = j + 1 := ⟨i - 1, by omega⟩
      have := ih (p + s) j (by omega)
      rw [Nat.succ_mul]
      have he : p + (j * s + s) = p + s + j * s := by omega
      rw [he]
      exact this

theorem poolRun_Linked_frame (mem mem' : Mem) (fl : List Nat) :
    ∀ head, (∀ q ∈ fl, mem' q = mem q) → PoolConfig.Linked mem head fl →
      PoolConfig.Linked mem' head fl := by
  induction fl with
  | nil => intro _ _ _; trivial
  | cons p rest ih =>
    intro head hsame h
    simp only [PoolConfig.Linked] at h ⊢
    refine ⟨h.1, ?_⟩
    have hp : load mem' p = load mem p := hsame p (List.mem_cons_self _ _)
    rw [hp]
    exact ih _ (fun q hq => hsame q (List.mem_cons_of_mem _ hq)) h.2

theorem pool_freeListInitLoop_linked (s : Nat) (hs : 0 < s) :
    ∀ k p (mem : Mem), p + k * s < ptrMod →
      PoolConfig.Linked (PoolAllocator.freeListInitLoop s k p mem) p
        (PoolAllocator.slotsFrom s (k + 1) p) ∧
      ∀ q, q < p → PoolAllocator.freeListInitLoop s k p mem q = mem q := by
  intro k
  induction k with
  | zero =>
    intro p mem _
    simp [PoolAllocator.freeListInitLoop, PoolAllocator.slotsFrom, PoolConfig.Linked]
  | succ k ih =>
    intro p mem hlt
    rw [Nat.succ_mul] at hlt
    have hnext : load (store mem p ((p + s) % ptrMod)) p % ptrMod = p + s := by
      rw [load_store_same, Nat.mod_mod]
      apply Nat.mod_eq_of_lt
      have : 0 ≤ k * s := Nat.zero_le _
      omega
    simp only [PoolAllocator.freeListInitLoop, hnext]
    obtain ⟨h1, h2⟩ := ih (p + s) (store mem p ((p + s) % ptrMod)) (by omega)
    have hp : PoolAllocator.freeListInitLoop s k (p + s) (store mem p ((p + s) % ptrMod)) p
        = (p + s) % ptrMod := by
      rw [h2 p (by omega)]
      simp [store]
    refine ⟨?_, ?_⟩
    · rw [PoolAllocator.slotsFrom]
      simp only [PoolConfig.Linked, true_and]
      have hl : load (PoolAllocator.freeListInitLoop s k (p + s)
          (store mem p ((p + s) % ptrMod))) p % ptrMod = p + s := by
        unfold load
        rw [hp, Nat.mod_mod]
        apply Nat.mod_eq_of_lt
        have : 0 ≤ k * s := Nat.zero_le _
        omega
      rw [hl]
      exact h1
    · intro q hq
      rw [h2 q (by omega)]
      have : q ≠ p := by omega
      simp [store, this]

theorem pool_allocate_eq_some (a a' : PoolAllocator) (mem : Mem) (p : Nat)
    (h : a.allocate mem = some (a', p)) :
    0 < a.mNumFreeObjects ∧ a.mFreeList ≠ 0 ∧ p = a.mFreeList ∧
    a' = { a with mFreeList := load mem a.mFreeList % ptrMod,
                  mNumFreeObjects := (a.mNumFreeObjects + u32Mod - 1) % u32Mod } := by
  unfold PoolAllocator.allocate at h
  by_cases h1 : a.mNumFreeObjects > 0
  · by_cases h2 : a.mFreeList = 0
    · simp [h1, h2] at h
    · simp only [h1, h2, not_true_eq_false, if_false, Option.some.injEq, Prod.mk.injEq] at h
      exact ⟨h1, h2, h.2.symm, h.1.symm⟩
  · simp [h1] at h

theorem pool_allocate_isSome (a : PoolAllocator) (mem : Mem)
    (h1 : 0 < a.mNumFreeObjects) (h2 : a.mFreeList ≠ 0) :
    a.allocate mem =
      some ({ a with mFreeList := load mem a.mFreeList % ptrMod,
                     mNumFreeObjects := (a.mNumFreeObjects + u32Mod - 1) % u32Mod },
            a.mFreeList) := by
  unfold PoolAllocator.allocate
  simp [h1, h2]

theorem pool_free_eq_some (a a' : PoolAllocator) (mem mem' : Mem) (p : Nat)
    (h : a.free mem p = some (a', mem')) :
    a.mMemory ≤ p ∧ a.mNumFreeObjects < a.mNumTotalObjects ∧
    a' = { a with mFreeList := p, mNumFreeObjects := (a.mNumFreeObjects + 1) % u32Mod } ∧
    mem' = store mem p a.mFreeList := by
  unfold PoolAllocator.free at h
  by_cases h1 : p ≥ a.mMemory
  · by_cases h2 : a.mNumFreeObjects < a.mNumTotalObjects
    · simp only [h1, h2, not_true_eq_false, if_false, Option.some.injEq, Prod.mk.injEq] at h
      exact ⟨h1, h2, h.1.symm, h.2.symm⟩
    · simp [h1, h2] at h
  · simp [h1] at h

theorem pool_free_isSome (a : PoolAllocator) (mem : Mem) (p : Nat)
    (h1 : a.mMemory ≤ p) (h2 : a.mNumFreeObjects < a.mNumTotalObjects) :
    a.free mem p =
      some ({ a with mFreeList := p,
                     mNumFreeObjects := (a.mNumFreeObjects + 1) % u32Mod },
            store mem p a.mFreeList) := by
  unfold PoolAllocator.free
  simp [h1, h2]

theorem poolRun_Inv_freeListInit (s : Nat) (hs : 0 < s) (a : PoolAllocator) (mem : Mem)
    (hn : a.mNumTotalObjects < u32Mod) (hfree : a.mNumFreeObjects = a.mNumTotalObjects)
    (hslots : ∀ q ∈ a.slots s, a.mMemory ≤ q ∧ 0 < q ∧ q < ptrMod) :
    PoolConfig.Inv s { alloc := (PoolAllocator.freeListInit s a mem).1,
                       mem := (PoolAllocator.freeListInit s a mem).2, live := [] } := by
  have hlinked : PoolConfig.Linked
      (PoolAllocator.freeListInitLoop s ((a.mNumTotalObjects + u32Mod - 1) % u32Mod)
        ((a.mMemory + a.mAdjustment) % ptrMod) mem)
      ((a.mMemory + a.mAdjustment) % ptrMod) (a.slots s) := by
    unfold PoolAllocator.slots at hslots ⊢
    rcases Nat.eq_zero_or_pos a.mNumTotalObjects with h0 | h0
    · rw [h0]
      simp [PoolAllocator.slotsFrom, PoolConfig.Linked]
    · obtain ⟨k, hk⟩ : ∃ k, a.mNumTotalObjects = k + 1 := ⟨a.mNumTotalObjects - 1, by omega⟩
      have hcount : (a.mNumTotalObjects + u32Mod - 1) % u32Mod = k := by
        simp only [u32Mod] at *; omega
      rw [hcount]
      rw [hk] at hslots ⊢
      have hmem0 := pool_slotsFrom_mem s (k + 1) (a.mMemory + a.mAdjustment) 0
        (by omega)
      simp only [Nat.zero_mul, Nat.add_zero] at hmem0
      have hfirst := hslots _ hmem0
      have hlast := hslots _
        (pool_slotsFrom_mem s (k + 1) (a.mMemory + a.mAdjustment) k (by omega))
      rw [Nat.mod_eq_of_lt hfirst.2.2]
      exact (pool_freeListInitLoop_linked s hs k _ mem hlast.2.2).1
  unfold PoolConfig.Inv
  simp only [PoolAllocator.freeListInit]
  refine ⟨hn, hslots, pool_slotsFrom_nodup s hs _ _,
    pool_slotsFrom_length s _ _, a.slots s, ?_, ?_, hlinked⟩
  · rw [hfree]
    exact pool_slotsFrom_length s _ _
  · rw [List.append_nil]
    exact List.Perm.refl _

theorem poolRun_step_fields (s : Nat) (c c' : PoolConfig) (op : PoolOp)
    (h : c.step s op = some c') :
    c'.alloc.mNumTotalObjects = c.alloc.mNumTotalObjects ∧
    c'.alloc.mMemory = c.alloc.mMemory ∧ c'.alloc.mAdjustment = c.alloc.mAdjustment := by
  cases op with
  | allocate =>
    simp only [PoolConfig.step] at h
    cases h1 : c.alloc.allocate c.mem with
    | none => simp [h1] at h
    | some r =>
      obtain ⟨a', p⟩ := r
      simp only [h1, Option.some.injEq] at h
      subst h
      obtain ⟨_, _, _, ha'⟩ := pool_allocate_eq_some _ _ _ _ h1
      subst ha'
      exact ⟨rfl, rfl, rfl⟩
  | create value =>
    simp only [PoolConfig.step, PoolAllocator.create] at h
    cases h1 : c.alloc.allocate c.mem with
    | none => simp [h1] at h
    | some r =>
      obtain ⟨a', p⟩ := r
      simp only [h1, Option.some.injEq] at h
      subst h
      obtain ⟨_, _, _, ha'⟩ := pool_allocate_eq_some _ _ _ _ h1
      subst ha'
      exact ⟨rfl, rfl, rfl⟩
  | free pointer =>
    simp only [PoolConfig.step] at h
    by_cases hl : pointer ∈ c.live
    · rw [if_pos hl] at h
      cases h1 : c.alloc.free c.mem pointer with
      | none => simp [h1] at h
      | some r =>
        obtain ⟨a', mem'⟩ := r
        simp only [h1, Option.some.injEq] at h
        subst h
        obtain ⟨_, _, ha', _⟩ := pool_free_eq_some _ _ _ _ _ h1
        subst ha'
        exact ⟨rfl, rfl, rfl⟩
    · rw [if_neg hl] at h; simp at h
  | remove object =>
    simp only [PoolConfig.step, PoolAllocator.remove] at h
    by_cases hl : object ∈ c.live
    · rw [if_pos hl] at h
      by_cases ho : object = 0
      · simp [ho] at h
      · rw [if_neg ho] at h
        cases h1 : c.alloc.free c.mem object with
        | none => simp [h1] at h
        | some r =>
          obtain ⟨a', mem'⟩ := r
          simp only [h1, Option.some.injEq] at h
          subst h
          obtain ⟨_, _, ha', _⟩ := pool_free_eq_some _ _ _ _ _ h1
          subst ha'
          exact ⟨rfl, rfl, rfl⟩
    · rw [if_neg hl] at h; simp at h
  | clean =>
    simp only [PoolConfig.step, Option.some.injEq] at h
    subst h
    exact ⟨rfl, rfl, rfl⟩

theorem poolRun_Inv_allocate (s : Nat) (c : PoolConfig) (a' : PoolAllocator) (p : Nat)
    (mem' : Mem) (hinv : c.Inv s) (h : c.alloc.allocate c.mem = some (a', p))
    (hmem : ∀ q, q ≠ p → mem' q = c.mem q) :
    PoolConfig.Inv s { alloc := a', mem := mem', live := p :: c.live } := by
  obtain ⟨hn, hslots, hnd, hlen, fl, hfl, hperm, hlink⟩ := hinv
  obtain ⟨hpos, hne, hp, ha'⟩ := pool_allocate_eq_some _ _ _ _ h
  subst ha'
  cases fl with
  | nil => simp at hfl; omega
  | cons q rest =>
    simp only [PoolConfig.Linked] at hlink
    obtain ⟨hhead, hrest⟩ := hlink
    have hpq : p = q := by rw [hp, hhead]
    subst hpq
    have hndall : (p :: rest ++ c.live).Nodup := hperm.nodup_iff.mpr hnd
    have hlenall := hperm.length_eq
    simp only [List.cons_append, List.length_cons, List.length_append] at hlenall hfl
    refine ⟨hn, hslots, hnd, hlen, rest, ?_, ?_, ?_⟩
    · show rest.length = (c.alloc.mNumFreeObjects + u32Mod - 1) % u32Mod
      simp only [u32Mod] at *; omega
    · exact List.perm_middle.trans hperm
    · show PoolConfig.Linked mem' (load c.mem c.alloc.mFreeList % ptrMod) rest
      rw [hhead]
      apply poolRun_Linked_frame c.mem mem' rest _ _ hrest
      intro x hx
      apply hmem
      intro hxp
      subst hxp
      simp only [List.cons_append, List.nodup_cons, List.mem_append] at hndall
      exact hndall.1 (Or.inl hx)

theorem poolRun_Inv_free (s : Nat) (c : PoolConfig) (a' : PoolAllocator) (p : Nat)
    (mem' : Mem) (hinv : c.Inv s) (hlive : p ∈ c.live)
    (h : c.alloc.free c.mem p = some (a', mem')) :
    PoolConfig.Inv s { alloc := a', mem := mem', live := c.live.erase p } := by
  obtain ⟨hn, hslots, hnd, hlen, fl, hfl, hperm, hlink⟩ := hinv
  obtain ⟨hge, hlt, ha', hm'⟩ := pool_free_eq_some _ _ _ _ _ h
  subst ha' hm'
  have hndall : (fl ++ c.live).Nodup := hperm.nodup_iff.mpr hnd
  have hpfl : p ∉ fl := fun hp => (List.nodup_append.mp hndall).2.2 hp hlive
  refine ⟨hn, hslots, hnd, hlen, p :: fl, ?_, ?_, ?_⟩
  · show (p :: fl).length = (c.alloc.mNumFreeObjects + 1) % u32Mod
    simp only [List.length_cons, u32Mod] at *; omega
  · show List.Perm (p :: fl ++ c.live.erase p) (c.alloc.slots s)
    refine List.Perm.trans ?_ hperm
    have h1 : List.Perm (p :: c.live.erase p) c.live := (List.perm_cons_erase hlive).symm
    exact (List.perm_middle.symm).trans (List.Perm.append_left fl h1)
  · show PoolConfig.Linked (store c.mem p c.alloc.mFreeList) p (p :: fl)
    simp only [PoolConfig.Linked, load_store_same, true_and]
    have hframe : ∀ q ∈ fl, store c.mem p c.alloc.mFreeList q = c.mem q := by
      intro q hq
      have : q ≠ p := fun hqp => hpfl (hqp ▸ hq)
      simp [store, this]
    cases hfl' : fl with
    | nil => trivial
    | cons q rest =>
      rw [hfl'] at hlink hframe hperm
      have hq := (hslots q (hperm.subset (by simp))).2.2
      have hhead : c.alloc.mFreeList = q := hlink.1
      rw [hhead] at hlink hframe ⊢
      rw [Nat.mod_eq_of_lt hq]
      exact poolRun_Linked_frame c.mem _ _ _ hframe hlink

theorem poolRun_Inv_step (s : Nat) (hs : 0 < s) (c c' : PoolConfig) (op : PoolOp)
    (hinv : c.Inv s) (h : c.step s op = some c') : c'.Inv s := by
  cases op with
  | allocate =>
    simp only [PoolConfig.step] at h
    cases h1 : c.alloc.allocate c.mem with
    | none => simp [h1] at h
    | some r =>
      obtain ⟨a', p⟩ := r
      simp only [h1, Option.some.injEq] at h
      subst h
      exact poolRun_Inv_allocate s c a' p c.mem hinv h1 (fun _ _ => rfl)
  | create value =>
    simp only [PoolConfig.step, PoolAllocator.create] at h
    cases h1 : c.alloc.allocate c.mem with
    | none => simp [h1] at h
    | some r =>
      obtain ⟨a', p⟩ := r
      simp only [h1, Option.some.injEq] at h
      subst h
      exact poolRun_Inv_allocate s c a' p _ hinv h1 (fun q hq => by simp [store, hq])
  | free pointer =>
    simp only [PoolConfig.step] at h
    by_cases hl : pointer ∈ c.live
    · rw [if_pos hl] at h
      cases h1 : c.alloc.free c.mem pointer with
      | none => simp [h1] at h
      | some r =>
        obtain ⟨a', mem'⟩ := r
        simp only [h1, Option.some.injEq] at h
        subst h
        exact poolRun_Inv_free s c a' pointer mem' hinv hl h1
    · rw [if_neg hl] at h; simp at h
  | remove object =>
    simp only [PoolConfig.step, PoolAllocator.remove] at h
    by_cases hl : object ∈ c.live
    · rw [if_pos hl] at h
      by_cases ho : object = 0
      · simp [ho] at h
      · rw [if_neg ho] at h
        cases h1 : c.alloc.free c.mem object with
        | none => simp [h1] at h
        | some r =>
          obtain ⟨a', mem'⟩ := r
          simp only [h1, Option.some.injEq] at h
          subst h
          exact poolRun_Inv_free s c a' object mem' hinv hl h1
    · rw [if_neg hl] at h; simp at h
  | clean =>
    simp only [PoolConfig.step, Option.some.injEq] at h
    subst h
    obtain ⟨hn, hslots, _, _, _⟩ := hinv
    exact poolRun_Inv_freeListInit s hs
      { c.alloc with mNumFreeObjects := c.alloc.mNumTotalObjects } c.mem hn rfl hslots

theorem poolRun_Inv_run (s : Nat) (hs : 0 < s) (ops : List PoolOp) :
    ∀ c c' : PoolConfig, c.Inv s → c.run s ops = some c' →
      c'.Inv s ∧ c'.alloc.mNumTotalObjects = c.alloc.mNumTotalObjects ∧
      c'.alloc.slots s = c.alloc.slots s := by
  induction ops with
  | nil =>
    intro c c' hinv h
    simp only [PoolConfig.run, Option.some.injEq] at h
    subst h; exact ⟨hinv, rfl, rfl⟩
  | cons op ops ih =>
    intro c c' hinv h
    simp only [PoolConfig.run] at h
    cases h1 : c.step s op with
    | none => simp [h1] at h
    | some c1 =>
      simp only [h1] at h
      obtain ⟨i1, i2, i3⟩ := ih c1 c' (poolRun_Inv_step s hs c c1 op hinv h1) h
      obtain ⟨f1, f2, f3⟩ := poolRun_step_fields s c c1 op h1
      refine ⟨i1, by rw [i2, f1], ?_⟩
      rw [i3]
      unfold PoolAllocator.slots
      rw [f1, f2, f3]

theorem poolRun_Inv_init (sizeofT alignofT memory numObjects : Nat) (mem : Mem)
    (c0 : PoolConfig) (hal : alignofT ∈ alignments) (hle : alignofT ≤ sizeofT)
    (hmem : 0 < memory) (hbuf : memory + numObjects * sizeofT ≤ ptrMod)
    (hn : numObjects < u32Mod)
    (hinit : PoolConfig.init sizeofT alignofT memory mem numObjects = some c0) :
    0 < sizeofT ∧ c0.Inv sizeofT ∧ c0.alloc.mNumTotalObjects = numObjects := by
  unfold PoolConfig.init PoolAllocator.new at hinit
  by_cases hs : sizeofT ≥ sizeofPointer
  · simp only [hs, not_true_eq_false, if_false, Option.some.injEq] at hinit
    subst hinit
    have hs8 : 8 ≤ sizeofT := hs
    obtain ⟨k, hk, rfl⟩ := alignments_pow2 alignofT hal
    have hmod : 2 ^ k % u8Mod = 2 ^ k :=
      Nat.mod_eq_of_lt (Nat.lt_of_le_of_lt (Nat.pow_le_pow_right (by decide) hk)
        (by decide : 2 ^ 7 < u8Mod))
    have hadj := alignForwardAdjustment_pow2_lt memory k hk
    rw [hmod]
    refine ⟨by omega, ?_, rfl⟩
    apply poolRun_Inv_freeListInit sizeofT (by omega) _ mem hn rfl
    intro q hq
    have hb := pool_slotsFrom_bounds sizeofT _ _ q hq
    simp only at hb
    generalize alignForwardAdjustment memory (2 ^ k) = adj at *
    show memory ≤ q ∧ 0 < q ∧ q < ptrMod
    omega
  · simp [hs] at hinit

/-- C4: in every state reached from construction by successful `allocate`,
`create`, `free`, `remove` and `clean` calls (`free` and `remove` applied only
to slots currently handed out), the slots handed out are pairwise distinct,
`numFreeObjects + (number of slots handed out) == numTotalObjects`,
`numFreeObjects <= numTotalObjects`, `numTotalObjects` is the number the pool
was constructed with; a successful `allocate` decreases `numFreeObjects` by
exactly 1 and a successful `free` of a slot handed out increases it by
exactly 1, both leaving `numTotalObjects` unchanged. -/
theorem pool_conservation (sizeofT alignofT memory numObjects : Nat) (mem : Mem)
    (ops : List PoolOp) (c0 c : PoolConfig) (hal : alignofT ∈ alignments)
    (hle : alignofT ≤ sizeofT) (hmem : 0 < memory)
    (hbuf : memory + numObjects * sizeofT ≤ ptrMod) (hn : numObjects < u32Mod)
    (hinit : PoolConfig.init sizeofT alignofT memory mem numObjects = some c0)
    (hrun : c0.run sizeofT ops = some c) :
    c.live.Nodup ∧
    c.alloc.mNumFreeObjects + c.live.length = c.alloc.mNumTotalObjects ∧
    c.alloc.mNumFreeObjects ≤ c.alloc.mNumTotalObjects ∧
    c.alloc.mNumTotalObjects = numObjects ∧
    (∀ a' p, c.alloc.allocate c.mem = some (a', p) →
      a'.mNumFreeObjects + 1 = c.alloc.mNumFreeObjects ∧
      a'.mNumTotalObjects = c.alloc.mNumTotalObjects) ∧
    (∀ a' mem' p, p ∈ c.live → c.alloc.free c.mem p = some (a', mem') →
      a'.mNumFreeObjects = c.alloc.mNumFreeObjects + 1 ∧
      a'.mNumTotalObjects = c.alloc.mNumTotalObjects) := by
  obtain ⟨hs, hinv0, hn0⟩ :=
    poolRun_Inv_init sizeofT alignofT memory numObjects mem c0 hal hle hmem hbuf hn hinit
  obtain ⟨hinv, htot, _⟩ := poolRun_Inv_run sizeofT hs ops c0 c hinv0 hrun
  obtain ⟨hlt, hslots, hnd, hlen, fl, hfl, hperm, hlink⟩ := hinv
  have hndall : (fl ++ c.live).Nodup := hperm.nodup_iff.mpr hnd
  have hlenall := hperm.length_eq
  rw [List.length_append, hlen, hfl] at hlenall
  refine ⟨(List.nodup_append.mp hndall).2.1, hlenall, by omega, by rw [htot, hn0], ?_, ?_⟩
  · intro a' p h
    obtain ⟨hpos, _, _, ha'⟩ := pool_allocate_eq_some _ _ _ _ h
    subst ha'
    refine ⟨?_, rfl⟩
    show (c.alloc.mNumFreeObjects + u32Mod - 1) % u32Mod + 1 = c.alloc.mNumFreeObjects
    simp only [u32Mod] at *; omega
  · intro a' mem' p _ h
    obtain ⟨_, hlt', ha', _⟩ := pool_free_eq_some _ _ _ _ _ h
    subst ha'
    refine ⟨?_, rfl⟩
    show (c.alloc.mNumFreeObjects + 1) % u32Mod = c.alloc.mNumFreeObjects + 1
    simp only [u32Mod] at *; omega

/-- Witness of C4: a 2-slot pool of a 16-byte type at 4096 after `allocate`,
`create`, `free(4096)`: one slot is handed out and one is free. -/
theorem pool_conservation_witness :
    [4112].Nodup ∧ 1 + [4112].length = 2 ∧ 1 ≤ 2 ∧ (2 : Nat) = 2 :=
  have h := pool_conservation 16 4 4096 2 (fun _ => 0)
    [PoolOp.allocate, PoolOp.create 7, PoolOp.free 4096]
    { alloc := { mMemory := 4096, mFreeList := 4096, mNumTotalObjects := 2,
                 mNumFreeObjects := 2, mAdjustment := 0 },
      mem := store (fun _ => 0) 4096 4112, live := [] }
    { alloc := { mMemory := 4096, mFreeList := 4096, mNumTotalObjects := 2,
                 mNumFreeObjects := 1, mAdjustment := 0 },
      mem := store (store (store (fun _ => 0) 4096 4112) 4112 7) 4096 0, live := [4112] }
    (by decide) (by decide) (by decide) (by decide) (by decide) (by rfl) (by rfl)
  ⟨h.1, h.2.1, h.2.2.1, h.2.2.2.1⟩

/-- C10: in every state reached from construction by successful `allocate`,
`create`, `free`, `remove` and `clean` calls (`free` and `remove` applied only
to slots currently handed out), `allocate` succeeds if and only if
`numFreeObjects > 0`; the free-list head is then a non-null slot address, and
`allocate` fails when `numFreeObjects == 0`. -/
theorem pool_exhaustion (sizeofT alignofT memory numObjects : Nat) (mem : Mem)
    (ops : List PoolOp) (c0 c : PoolConfig) (hal : alignofT ∈ alignments)
    (hle : alignofT ≤ sizeofT) (hmem : 0 < memory)
    (hbuf : memory + numObjects * sizeofT ≤ ptrMod) (hn : numObjects < u32Mod)
    (hinit : PoolConfig.init sizeofT alignofT memory mem numObjects = some c0)
    (hrun : c0.run sizeofT ops = some c) :
    ((c.alloc.allocate c.mem).isSome = true ↔ 0 < c.alloc.mNumFreeObjects) ∧
    (0 < c.alloc.mNumFreeObjects →
      c.alloc.mFreeList ≠ 0 ∧ c.alloc.mFreeList ∈ c.alloc.slots sizeofT ∧
      ∃ a', c.alloc.allocate c.mem = some (a', c.alloc.mFreeList)) ∧
    (c.alloc.mNumFreeObjects = 0 → c.alloc.allocate c.mem = none) := by
  obtain ⟨hs, hinv0, hn0⟩ :=
    poolRun_Inv_init sizeofT alignofT memory numObjects mem c0 hal hle hmem hbuf hn hinit
  obtain ⟨hinv, htot, _⟩ := poolRun_Inv_run sizeofT hs ops c0 c hinv0 hrun
  obtain ⟨hlt, hslots, hnd, hlen, fl, hfl, hperm, hlink⟩ := hinv
  have hhead : 0 < c.alloc.mNumFreeObjects →
      c.alloc.mFreeList ≠ 0 ∧ c.alloc.mFreeList ∈ c.alloc.slots sizeofT := by
    intro hpos
    cases hfl' : fl with
    | nil => rw [hfl'] at hfl; simp at hfl; omega
    | cons q rest =>
      rw [hfl'] at hlink hperm
      have hq : q ∈ c.alloc.slots sizeofT := hperm.subset (by simp)
      have hq0 := (hslots q hq).2.1
      have hh : c.alloc.mFreeList = q := hlink.1
      rw [hh]
      exact ⟨by omega, hq⟩
  refine ⟨⟨?_, ?_⟩, ?_, ?_⟩
  · intro h
    cases h1 : c.alloc.allocate c.mem with
    | none => rw [h1] at h; simp at h
    | some r => exact (pool_allocate_eq_some _ _ _ _ h1).1
  · intro hpos
    rw [pool_allocate_isSome _ _ hpos (hhead hpos).1]
    rfl
  · intro hpos
    exact ⟨(hhead hpos).1, (hhead hpos).2, _,
      pool_allocate_isSome _ _ hpos (hhead hpos).1⟩
  · intro h0
    unfold PoolAllocator.allocate
    simp [h0]

/-- Witness of C10: a 2-slot pool of a 16-byte type at 4096 accepts two
allocations, reaches `numFreeObjects == 0` and rejects a third; freeing both
slots returns `numFreeObjects == 2`. -/
theorem pool_exhaustion_witness :
    ((PoolConfig.init 16 4 4096 (fun _ => 0) 2).bind (fun c0 =>
      c0.run 16 [PoolOp.allocate, PoolOp.allocate])).map
        (fun c => (c.alloc.mNumFreeObjects, c.live)) = some (0, [4112, 4096]) ∧
    PoolAllocator.allocate
      { mMemory := 4096, mFreeList := 0, mNumTotalObjects := 2, mNumFreeObjects := 0,
        mAdjustment := 0 } (store (fun _ => 0) 4096 4112) = none ∧
    ((PoolConfig.init 16 4 4096 (fun _ => 0) 2).bind (fun c0 =>
      c0.run 16 [PoolOp.allocate, PoolOp.allocate, PoolOp.free 4096, PoolOp.free 4112])).map
        (fun c => c.alloc.mNumFreeObjects) = some 2 :=
  ⟨by decide,
   (pool_exhaustion 16 4 4096 2 (fun _ => 0) [PoolOp.allocate, PoolOp.allocate]
    { alloc := { mMemory := 4096, mFreeList := 4096, mNumTotalObjects := 2,
                 mNumFreeObjects := 2, mAdjustment := 0 },
      mem := store (fun _ => 0) 4096 4112, live := [] }
    { alloc := { mMemory := 4096, mFreeList := 0, mNumTotalObjects := 2,
                 mNumFreeObjects := 0, mAdjustment := 0 },
      mem := store (fun _ => 0) 4096 4112, live := [4112, 4096] }
    (by decide) (by decide) (by decide) (by decide) (by decide) (by rfl) (by rfl)).2.2 rfl,
   by decide⟩

/-! ## Pool allocator: foreign addresses -/

theorem pool_free_rejects (a : PoolAllocator) (mem : Mem) (pointer : Nat)
    (h : pointer < a.mMemory ∨ a.mNumFreeObjects = a.mNumTotalObjects) :
    a.free mem pointer = none := by
  unfold PoolAllocator.free
  rcases h with h | h
  · rw [if_pos (by omega)]
  · by_cases h1 : pointer ≥ a.mMemory
    · rw [if_neg (not_not.mpr h1), if_pos (by omega)]
    · rw [if_pos h1]

/-- C11 (the code at the failing input): in a 2-slot pool of a 16-byte type
whose buffer is `[4096, 4128)`, with one slot handed out, `free(8192)` is
accepted although 8192 lies above the buffer: it becomes the free-list head
and `numFreeObjects` goes from 1 to 2. -/
theorem pool_free_accepts_foreign :
    ((PoolConfig.init 16 4 4096 (fun _ => 0) 2).bind
      (fun c0 => c0.run 16 [PoolOp.allocate])).map
        (fun c => (c.alloc, (c.alloc.free c.mem 8192).map (fun r => r.1)))
      = some ({ mMemory := 4096, mFreeList := 4112, mNumTotalObjects := 2,
                mNumFreeObjects := 1, mAdjustment := 0 },
              some { mMemory := 4096, mFreeList := 8192, mNumTotalObjects := 2,
                     mNumFreeObjects := 2, mAdjustment := 0 }) ∧
    ¬ (8192 < 4096 + 2 * 16) := by
  refine ⟨by decide, by decide⟩

/-! ## Linear allocator: disjoint blocks -/

theorem linear_allocateAll_ge (reqs : List (Nat × Nat)) :
    ∀ (a a' : LinearAllocator) (addresses : List Nat),
      a.allocateAll reqs = some (a', addresses) → a.inAddressSpace reqs = true →
      a.mCurrentPosition ≤ a'.mCurrentPosition ∧
      addresses.length = reqs.length ∧
      (∀ x ∈ addresses.zip (reqs.map Prod.fst), a.mCurrentPosition ≤ x.1) ∧
      (addresses.zip (reqs.map Prod.fst)).Pairwise (fun x y => x.1 + x.2 ≤ y.1) := by
  induction reqs with
  | nil =>
    intro a a' addresses h _
    simp only [LinearAllocator.allocateAll, Option.some.injEq, Prod.mk.injEq] at h
    obtain ⟨h1, h2⟩ := h
    subst h1 h2
    simp
  | cons req rest ih =>
    obtain ⟨size, alignment⟩ := req
    intro a a' addresses h hfit
    simp only [LinearAllocator.allocateAll] at h
    simp only [LinearAllocator.inAddressSpace, Bool.and_eq_true, decide_eq_true_eq] at hfit
    cases h1 : a.allocate size alignment with
    | none => simp [h1] at h
    | some r =>
      obtain ⟨a1, address⟩ := r
      simp only [h1] at h hfit
      obtain ⟨hc, hrest⟩ := hfit
      cases h2 : a1.allocateAll rest with
      | none => simp [h2] at h
      | some r2 =>
        obtain ⟨a2, addrs2⟩ := r2
        simp only [h2, Option.some.injEq, Prod.mk.injEq] at h
        obtain ⟨h3, h4⟩ := h
        subst h3 h4
        obtain ⟨i1, i2, i3, i4⟩ := ih a1 a2 addrs2 h2 hrest
        obtain ⟨_, _, _, haddr, ha1⟩ := linear_allocate_eq_some a a1 size alignment address h1
        have hcur1 : a1.mCurrentPosition = (address + size) % ptrMod := by rw [ha1]
        simp only [ptrMod] at hc haddr hcur1
        have haddr' : address = a.mCurrentPosition +
            alignForwardAdjustment a.mCurrentPosition alignment := by omega
        have hcur1' : a1.mCurrentPosition = address + size := by omega
        simp only [List.map_cons, List.zip_cons_cons, List.length_cons, List.mem_cons,
          List.pairwise_cons]
        refine ⟨by omega, by omega, ?_, ?_, i4⟩
        · intro x hx
          rcases hx with rfl | hx
          · show a.mCurrentPosition ≤ address
            omega
          · have := i3 x hx
            omega
        · intro y hy
          have := i3 y hy
          show address + size ≤ y.1
          omega

/-- C12: for every sequence of successful `allocate` calls from any state
(no `clean` and no `setCurrentPosition` in between) whose blocks end inside the
address space, each returned block `[address, address + size)` begins at or
after the end of every earlier one, so the blocks are pairwise disjoint: no
byte belongs to two of them. -/
theorem linear_allocations_disjoint (a a' : LinearAllocator) (reqs : List (Nat × Nat))
    (addresses : List Nat) (hrun : a.allocateAll reqs = some (a', addresses))
    (hfit : a.inAddressSpace reqs = true) :
    addresses.length = reqs.length ∧
    (addresses.zip (reqs.map Prod.fst)).Pairwise (fun x y => x.1 + x.2 ≤ y.1) ∧
    (addresses.zip (reqs.map Prod.fst)).Pairwise
      (fun x y => ∀ b, ¬ ((x.1 ≤ b ∧ b < x.1 + x.2) ∧ (y.1 ≤ b ∧ b < y.1 + y.2))) := by
  obtain ⟨_, h2, _, h4⟩ := linear_allocateAll_ge reqs a a' addresses hrun hfit
  refine ⟨h2, h4, ?_⟩
  refine List.Pairwise.imp ?_ h4
  intro x y hxy b hb
  omega

/-- Witness of C12: in a 1024-byte arena at 4096 the blocks of 16 bytes
(alignment 4), 3 bytes (alignment 1) and 24 bytes (alignment 8) are
`[4096, 4112)`, `[4112, 4115)` and `[4120, 4144)`. -/
theorem linear_allocations_disjoint_witness :
    [4096, 4112, 4120].length = [((16 : Nat), (4 : Nat)), (3, 1), (24, 8)].length ∧
    ([4096, 4112, 4120].zip ([((16 : Nat), (4 : Nat)), (3, 1), (24, 8)].map Prod.fst)).Pairwise
      (fun x y => x.1 + x.2 ≤ y.1) ∧
    ([4096, 4112, 4120].zip ([((16 : Nat), (4 : Nat)), (3, 1), (24, 8)].map Prod.fst)).Pairwise
      (fun x y => ∀ b, ¬ ((x.1 ≤ b ∧ b < x.1 + x.2) ∧ (y.1 ≤ b ∧ b < y.1 + y.2))) :=
  linear_allocations_disjoint
    { mStart := 4096, mCurrentPosition := 4096, mSize := 1024, mUsedMemory := 0,
      mNumAllocations := 0 }
    { mStart := 4096, mCurrentPosition := 4144, mSize := 1024, mUsedMemory := 48,
      mNumAllocations := 3 }
    [(16, 4), (3, 1), (24, 8)] [4096, 4112, 4120] (by decide) (by decide)

/-! ## Pool allocator: slots handed out -/

theorem pool_slotsFrom_eq_map (s : Nat) :
    ∀ n p, PoolAllocator.slotsFrom s n p = (List.range n).map (fun k => p + k * s) := by
  intro n
  induction n with
  | zero => intro p; rfl
  | succ n ih =>
    intro p
    rw [PoolAllocator.slotsFrom, ih (p + s), List.range_succ_eq_map]
    simp only [List.map_cons, List.map_map, Nat.zero_mul, Nat.add_zero]
    congr 1
    apply List.map_congr_left
    intro k _
    simp only [Function.comp, Nat.succ_eq_add_one, Nat.add_mul, Nat.one_mul]
    omega

theorem pool_slotsFrom_index (s : Nat) (n p q : Nat)
    (h : q ∈ PoolAllocator.slotsFrom s n p) : ∃ k, k < n ∧ q = p + k * s := by
  rw [pool_slotsFrom_eq_map] at h
  simp only [List.mem_map, List.mem_range] at h
  obtain ⟨k, hk, hq⟩ := h
  exact ⟨k, hk, hq.symm⟩

theorem pool_slotsFrom_pairwise (s : Nat) :
    ∀ n p, (PoolAllocator.slotsFrom s n p).Pairwise (fun x y => x + s ≤ y) := by
  intro n
  induction n with
  | zero => intro p; exact List.Pairwise.nil
  | succ n ih =>
    intro p
    simp only [PoolAllocator.slotsFrom, List.pairwise_cons]
    refine ⟨fun y hy => ?_, ih _⟩
    exact (pool_slotsFrom_bounds s n _ y hy).1

theorem poolRun_run_fields (s : Nat) (ops : List PoolOp) :
    ∀ c c' : PoolConfig, c.run s ops = some c' →
      c'.alloc.mNumTotalObjects = c.alloc.mNumTotalObjects ∧
      c'.alloc.mMemory = c.alloc.mMemory ∧ c'.alloc.mAdjustment = c.alloc.mAdjustment := by
  induction ops with
  | nil =>
    intro c c' h
    simp only [PoolConfig.run, Option.some.injEq] at h
    subst h; exact ⟨rfl, rfl, rfl⟩
  | cons op ops ih =>
    intro c c' h
    simp only [PoolConfig.run] at h
    cases h1 : c.step s op with
    | none => simp [h1] at h
    | some c1 =>
      simp only [h1] at h
      obtain ⟨i1, i2, i3⟩ := ih c1 c' h
      obtain ⟨f1, f2, f3⟩ := poolRun_step_fields s c c1 op h1
      exact ⟨by rw [i1, f1], by rw [i2, f2], by rw [i3, f3]⟩

theorem poolRun_init_fields (sizeofT alignofT memory numObjects : Nat) (mem : Mem)
    (c0 : PoolConfig) (hal : alignofT ∈ alignments)
    (hinit : PoolConfig.init sizeofT alignofT memory mem numObjects = some c0) :
    c0.alloc.mMemory = memory ∧
    c0.alloc.mAdjustment = alignForwardAdjustment memory alignofT ∧
    c0.alloc.mNumTotalObjects = numObjects ∧ c0.alloc.mNumFreeObjects = numObjects ∧
    c0.live = [] ∧
    c0.alloc.mFreeList = (memory + alignForwardAdjustment memory alignofT) % ptrMod ∧
    c0.mem = PoolAllocator.freeListInitLoop sizeofT ((numObjects + u32Mod - 1) % u32Mod)
      ((memory + alignForwardAdjustment memory alignofT) % ptrMod) mem := by
  unfold PoolConfig.init PoolAllocator.new at hinit
  by_cases hs : sizeofT ≥ sizeofPointer
  · simp only [hs, not_true_eq_false, if_false, Option.some.injEq] at hinit
    subst hinit
    obtain ⟨k, hk, rfl⟩ := alignments_pow2 alignofT hal
    have hmod : 2 ^ k % u8Mod = 2 ^ k :=
      Nat.mod_eq_of_lt (Nat.lt_of_le_of_lt (Nat.pow_le_pow_right (by decide) hk)
        (by decide : 2 ^ 7 < u8Mod))
    simp [PoolAllocator.freeListInit, hmod]
  · simp [hs] at hinit

theorem pool_allocateN_linked (mem : Mem) (fl : List Nat) :
    ∀ a : PoolAllocator, PoolConfig.Linked mem a.mFreeList fl →
      a.mNumFreeObjects = fl.length → fl.length < u32Mod →
      (∀ q ∈ fl, 0 < q) →
      ∃ a', PoolAllocator.allocateN mem fl.length a = some (a', fl) ∧
        a'.mNumFreeObjects = 0 := by
  induction fl with
  | nil =>
    intro a _ hlen _ _
    exact ⟨a, rfl, hlen⟩
  | cons q rest ih =>
    intro a hlink hlen hlt hpos
    simp only [PoolConfig.Linked] at hlink
    obtain ⟨hhead, hrest⟩ := hlink
    simp only [List.length_cons] at hlen hlt
    have hq := hpos q (List.mem_cons_self _ _)
    have halloc := pool_allocate_isSome a mem (by omega) (by omega)
    simp only [List.length_cons, PoolAllocator.allocateN, halloc]
    obtain ⟨a', h1, h2⟩ := ih
      { a with mFreeList := load mem a.mFreeList % ptrMod,
               mNumFreeObjects := (a.mNumFreeObjects + u32Mod - 1) % u32Mod }
      (by rw [hhead]; exact hrest)
      (by show (a.mNumFreeObjects + u32Mod - 1) % u32Mod = rest.length
          simp only [u32Mod] at *; omega)
      (by omega) (fun x hx => hpos x (List.mem_cons_of_mem _ hx))
    rw [h1]
    exact ⟨a', by rw [hhead], h2⟩

theorem pool_loop_linked_slots (s n p : Nat) (mem : Mem) (hs : 0 < s) (hn : n < u32Mod)
    (hsl : ∀ q ∈ PoolAllocator.slotsFrom s n p, q < ptrMod) :
    PoolConfig.Linked
      (PoolAllocator.freeListInitLoop s ((n + u32Mod - 1) % u32Mod) (p % ptrMod) mem)
      (p % ptrMod) (PoolAllocator.slotsFrom s n p) := by
  rcases Nat.eq_zero_or_pos n with h0 | h0
  · rw [h0]
    simp [PoolAllocator.slotsFrom, PoolConfig.Linked]
  · obtain ⟨k, rfl⟩ : ∃ k, n = k + 1 := ⟨n - 1, by omega⟩
    have hcount : (k + 1 + u32Mod - 1) % u32Mod = k := by
      simp only [u32Mod] at *; omega
    rw [hcount]
    have hmem0 := pool_slotsFrom_mem s (k + 1) p 0 (by omega)
    simp only [Nat.zero_mul, Nat.add_zero] at hmem0
    have hfirst := hsl _ hmem0
    have hlast := hsl _ (pool_slotsFrom_mem s (k + 1) p k (by omega))
    rw [Nat.mod_eq_of_lt hfirst]
    exact (pool_freeListInitLoop_linked s hs k _ mem hlast).1

theorem pool_allocateN_fresh (s n p : Nat) (mem : Mem) (a : PoolAllocator) (hs : 0 < s)
    (hn : n < u32Mod) (hsl : ∀ q ∈ PoolAllocator.slotsFrom s n p, 0 < q ∧ q < ptrMod)
    (hfl : a.mFreeList = p % ptrMod) (hfree : a.mNumFreeObjects = n) :
    ∃ a', PoolAllocator.allocateN
        (PoolAllocator.freeListInitLoop s ((n + u32Mod - 1) % u32Mod) (p % ptrMod) mem) n a
      = some (a', PoolAllocator.slotsFrom s n p) := by
  have hl := pool_loop_linked_slots s n p mem hs hn (fun q hq => (hsl q hq).2)
  have hlen := pool_slotsFrom_length s n p
  obtain ⟨a', h1, _⟩ := pool_allocateN_linked _ (PoolAllocator.slotsFrom s n p) a
    (by rw [hfl]; exact hl) (by rw [hfree, hlen]) (by rw [hlen]; exact hn)
    (fun q hq => (hsl q hq).1)
  rw [hlen] at h1
  exact ⟨a', h1⟩

theorem pool_slots_in_space (sizeofT alignofT memory numObjects : Nat)
    (hal : alignofT ∈ alignments) (hle : alignofT ≤ sizeofT) (hmem : 0 < memory)
    (hbuf : memory + numObjects * sizeofT ≤ ptrMod) :
    ∀ q ∈ PoolAllocator.slotsFrom sizeofT numObjects
        (memory + alignForwardAdjustment memory alignofT),
      memory ≤ q ∧ 0 < q ∧ q < ptrMod := by
  obtain ⟨k, hk, rfl⟩ := alignments_pow2 alignofT hal
  have hadj := alignForwardAdjustment_pow2_lt memory k hk
  intro q hq
  have hb := pool_slotsFrom_bounds sizeofT _ _ q hq
  generalize alignForwardAdjustment memory (2 ^ k) = adj at *
  have hpos : 0 < 2 ^ k := Nat.two_pow_pos k
  omega

/-- C13: in every state reached from construction by successful `allocate`
(`createNoConstruct`), `create`, `free` (`removeNoDestruct`), `remove` and
`clean` calls, each removal targeting a slot currently handed out, a
successful allocation returns one of the slot addresses
`memory + adjustment + k * sizeof(T)` with `k < numTotalObjects`, where
`adjustment = alignForwardAdjustment(memory, alignof(T))`, and this address is
none of the addresses currently handed out, which are pairwise distinct slot
addresses themselves. -/
theorem pool_no_double_handout (sizeofT alignofT memory numObjects : Nat) (mem : Mem)
    (ops : List PoolOp) (c0 c : PoolConfig) (hal : alignofT ∈ alignments)
    (hle : alignofT ≤ sizeofT) (hmem : 0 < memory)
    (hbuf : memory + numObjects * sizeofT ≤ ptrMod) (hn : numObjects < u32Mod)
    (hinit : PoolConfig.init sizeofT alignofT memory mem numObjects = some c0)
    (hrun : c0.run sizeofT ops = some c) :
    (∀ a' p, c.alloc.allocate c.mem = some (a', p) →
      (∃ k, k < numObjects ∧
        p = memory + alignForwardAdjustment memory alignofT + k * sizeofT) ∧
      p ∉ c.live) ∧
    (∀ a' mem' p value, c.alloc.create c.mem value = some (a', mem', p) →
      (∃ k, k < numObjects ∧
        p = memory + alignForwardAdjustment memory alignofT + k * sizeofT) ∧
      p ∉ c.live) ∧
    c.live.Nodup ∧
    (∀ q ∈ c.live, ∃ k, k < numObjects ∧
      q = memory + alignForwardAdjustment memory alignofT + k * sizeofT) := by
  obtain ⟨hs, hinv0, hn0⟩ :=
    poolRun_Inv_init sizeofT alignofT memory numObjects mem c0 hal hle hmem hbuf hn hinit
  obtain ⟨hinv, htot, _⟩ := poolRun_Inv_run sizeofT hs ops c0 c hinv0 hrun
  obtain ⟨f1, f2, _, _, _, _, _⟩ :=
    poolRun_init_fields sizeofT alignofT memory numObjects mem c0 hal hinit
  obtain ⟨_, g2, g3⟩ := poolRun_run_fields sizeofT ops c0 c hrun
  obtain ⟨hlt, hslots, hnd, hlen, fl, hfl, hperm, hlink⟩ := hinv
  have hndall : (fl ++ c.live).Nodup := hperm.nodup_iff.mpr hnd
  have hslot : ∀ q ∈ c.alloc.slots sizeofT, ∃ k, k < numObjects ∧
      q = memory + alignForwardAdjustment memory alignofT + k * sizeofT := by
    intro q hq
    unfold PoolAllocator.slots at hq
    rw [htot, hn0, g2, g3, f1, f2] at hq
    exact pool_slotsFrom_index sizeofT _ _ q hq
  have halloc : ∀ a' p, c.alloc.allocate c.mem = some (a', p) →
      p ∈ c.alloc.slots sizeofT ∧ p ∉ c.live := by
    intro a' p h
    obtain ⟨hpos, _, hp, _⟩ := pool_allocate_eq_some _ _ _ _ h
    cases hfl' : fl with
    | nil => rw [hfl'] at hfl; simp at hfl; omega
    | cons q rest =>
      rw [hfl'] at hlink hperm hndall
      have hh : c.alloc.mFreeList = q := hlink.1
      rw [hp, hh]
      refine ⟨hperm.subset (by simp), fun hq => ?_⟩
      exact (List.nodup_append.mp hndall).2.2 (List.mem_cons_self _ _) hq
  refine ⟨fun a' p h => ⟨hslot p (halloc a' p h).1, (halloc a' p h).2⟩, ?_,
    (List.nodup_append.mp hndall).2.1,
    fun q hq => hslot q (hperm.subset (List.mem_append_right _ hq))⟩
  intro a' mem' p value h
  unfold PoolAllocator.create at h
  cases h1 : c.alloc.allocate c.mem with
  | none => simp [h1] at h
  | some r =>
    obtain ⟨a1, p1⟩ := r
    simp only [h1, Option.some.injEq, Prod.mk.injEq] at h
    obtain ⟨_, _, hp⟩ := h
    subst hp
    exact ⟨hslot p1 (halloc a1 p1 h1).1, (halloc a1 p1 h1).2⟩

/-- Witness of C13: in a 2-slot pool of a 16-byte type at 4096 with slot 4096
handed out, the next allocation returns slot 4112. -/
theorem pool_no_double_handout_witness :
    (∃ k, k < 2 ∧ 4112 = 4096 + alignForwardAdjustment 4096 4 + k * 16) ∧ 4112 ∉ [4096] :=
  (pool_no_double_handout 16 4 4096 2 (fun _ => 0) [PoolOp.allocate]
    { alloc := { mMemory := 4096, mFreeList := 4096, mNumTotalObjects := 2,
                 mNumFreeObjects := 2, mAdjustment := 0 },
      mem := store (fun _ => 0) 4096 4112, live := [] }
    { alloc := { mMemory := 4096, mFreeList := 4112, mNumTotalObjects := 2,
                 mNumFreeObjects := 1, mAdjustment := 0 },
      mem := store (fun _ => 0) 4096 4112, live := [4096] }
    (by decide) (by decide) (by decide) (by decide) (by decide) (by rfl) (by rfl)).1
    { mMemory := 4096, mFreeList := 0, mNumTotalObjects := 2, mNumFreeObjects := 0,
      mAdjustment := 0 } 4112 (by decide)

theorem pool_allocateN_init (sizeofT alignofT memory numObjects : Nat) (mem : Mem)
    (c0 : PoolConfig) (hal : alignofT ∈ alignments) (hle : alignofT ≤ sizeofT)
    (hmem : 0 < memory) (hbuf : memory + numObjects * sizeofT ≤ ptrMod)
    (hn : numObjects < u32Mod)
    (hinit : PoolConfig.init sizeofT alignofT memory mem numObjects = some c0) :
    ∃ a', PoolAllocator.allocateN c0.mem numObjects c0.alloc
      = some (a', (List.range numObjects).map
          (fun k => memory + alignForwardAdjustment memory alignofT + k * sizeofT)) := by
  obtain ⟨hs, _, _⟩ :=
    poolRun_Inv_init sizeofT alignofT memory numObjects mem c0 hal hle hmem hbuf hn hinit
  obtain ⟨_, _, _, f4, _, f6, f7⟩ :=
    poolRun_init_fields sizeofT alignofT memory numObjects mem c0 hal hinit
  have hsl := pool_slots_in_space sizeofT alignofT memory numObjects hal hle hmem hbuf
  rw [← pool_slotsFrom_eq_map, f7]
  exact pool_allocateN_fresh sizeofT numObjects _ mem c0.alloc hs hn
    (fun q hq => (hsl q hq).2) f6 f4

/-- C19: for every pool of `numObjects` slots of size `sizeofT` constructed in
a buffer at `memory`, the `numObjects` successive `allocate` calls right after
construction all succeed and the `k`-th returns
`memory + adjustment + k * sizeofT` with
`adjustment = alignForwardAdjustment(memory, alignof(T))`; these addresses are
pairwise distinct and each slot ends at or before the start of every later
one. -/
theorem pool_initial_order (sizeofT alignofT memory numObjects : Nat) (mem : Mem)
    (c0 : PoolConfig) (hal : alignofT ∈ alignments) (hle : alignofT ≤ sizeofT)
    (hmem : 0 < memory) (hbuf : memory + numObjects * sizeofT ≤ ptrMod)
    (hn : numObjects < u32Mod)
    (hinit : PoolConfig.init sizeofT alignofT memory mem numObjects = some c0) :
    (∃ a', PoolAllocator.allocateN c0.mem numObjects c0.alloc
      = some (a', (List.range numObjects).map
          (fun k => memory + alignForwardAdjustment memory alignofT + k * sizeofT))) ∧
    ((List.range numObjects).map
      (fun k => memory + alignForwardAdjustment memory alignofT + k * sizeofT)).Nodup ∧
    ((List.range numObjects).map
      (fun k => memory + alignForwardAdjustment memory alignofT + k * sizeofT)).Pairwise
        (fun x y => x + sizeofT ≤ y) := by
  obtain ⟨hs, _, _⟩ :=
    poolRun_Inv_init sizeofT alignofT memory numObjects mem c0 hal hle hmem hbuf hn hinit
  refine ⟨pool_allocateN_init sizeofT alignofT memory numObjects mem c0 hal hle hmem hbuf hn
    hinit, ?_, ?_⟩
  · rw [← pool_slotsFrom_eq_map]
    exact pool_slotsFrom_nodup sizeofT hs _ _
  · rw [← pool_slotsFrom_eq_map]
    exact pool_slotsFrom_pairwise sizeofT _ _

/-- Witness of C19: a 3-slot pool of a 16-byte type at 4096 hands out 4096,
4112, 4128 in this order. -/
theorem pool_initial_order_witness :
    (PoolAllocator.allocateN (store (store (fun _ => 0) 4096 4112) 4112 4128) 3
      { mMemory := 4096, mFreeList := 4096, mNumTotalObjects := 3, mNumFreeObjects := 3,
        mAdjustment := 0 }).map (fun r => r.2) = some [4096, 4112, 4128] ∧
    ((∃ a', PoolAllocator.allocateN (store (store (fun _ => 0) 4096 4112) 4112 4128) 3
        { mMemory := 4096, mFreeList := 4096, mNumTotalObjects := 3, mNumFreeObjects := 3,
          mAdjustment := 0 }
      = some (a', (List.range 3).map
          (fun k => 4096 + alignForwardAdjustment 4096 4 + k * 16))) ∧
    ((List.range 3).map (fun k => 4096 + alignForwardAdjustment 4096 4 + k * 16)).Nodup ∧
    ((List.range 3).map (fun k => 4096 + alignForwardAdjustment 4096 4 + k * 16)).Pairwise
        (fun x y => x + 16 ≤ y)) :=
  ⟨by decide,
   pool_initial_order 16 4 4096 3 (fun _ => 0)
    { alloc := { mMemory := 4096, mFreeList := 4096, mNumTotalObjects := 3,
                 mNumFreeObjects := 3, mAdjustment := 0 },
      mem := store (store (fun _ => 0) 4096 4112) 4112 4128, live := [] }
    (by decide) (by decide) (by decide) (by decide) (by decide) (by rfl)⟩

/-- C18: in every state reached from construction by successful `allocate`,
`create`, `free`, `remove` and `clean` calls (any number of slots handed out,
any free-list order), `clean()` sets `numFreeObjects == numTotalObjects` and
rebuilds the free list: the next `numTotalObjects` allocations all succeed and
return the same addresses, in the same order, as the allocations on the
freshly constructed pool over the same buffer, namely the slots in address
order. -/
theorem pool_clean_rebuilds (sizeofT alignofT memory numObjects : Nat) (mem : Mem)
    (ops : List PoolOp) (c0 c : PoolConfig) (hal : alignofT ∈ alignments)
    (hle : alignofT ≤ sizeofT) (hmem : 0 < memory)
    (hbuf : memory + numObjects * sizeofT ≤ ptrMod) (hn : numObjects < u32Mod)
    (hinit : PoolConfig.init sizeofT alignofT memory mem numObjects = some c0)
    (hrun : c0.run sizeofT ops = some c) :
    (PoolAllocator.clean sizeofT c.alloc c.mem).1.mNumFreeObjects
      = (PoolAllocator.clean sizeofT c.alloc c.mem).1.mNumTotalObjects ∧
    (PoolAllocator.clean sizeofT c.alloc c.mem).1.mNumTotalObjects = numObjects ∧
    ∃ a1 a2 addresses,
      PoolAllocator.allocateN (PoolAllocator.clean sizeofT c.alloc c.mem).2 numObjects
        (PoolAllocator.clean sizeofT c.alloc c.mem).1 = some (a1, addresses) ∧
      PoolAllocator.allocateN c0.mem numObjects c0.alloc = some (a2, addresses) ∧
      addresses = (List.range numObjects).map
        (fun k => memory + alignForwardAdjustment memory alignofT + k * sizeofT) := by
  obtain ⟨hs, _, _⟩ :=
    poolRun_Inv_init sizeofT alignofT memory numObjects mem c0 hal hle hmem hbuf hn hinit
  obtain ⟨f1, f2, f3, _, _, _, _⟩ :=
    poolRun_init_fields sizeofT alignofT memory numObjects mem c0 hal hinit
  obtain ⟨g1, g2, g3⟩ := poolRun_run_fields sizeofT ops c0 c hrun
  obtain ⟨a2, h2⟩ :=
    pool_allocateN_init sizeofT alignofT memory numObjects mem c0 hal hle hmem hbuf hn hinit
  have hsl := pool_slots_in_space sizeofT alignofT memory numObjects hal hle hmem hbuf
  have htot : c.alloc.mNumTotalObjects = numObjects := by rw [g1, f3]
  have hbase : c.alloc.mMemory + c.alloc.mAdjustment
      = memory + alignForwardAdjustment memory alignofT := by rw [g2, g3, f1, f2]
  simp only [PoolAllocator.clean, PoolAllocator.freeListInit]
  rw [htot, hbase]
  refine ⟨trivial, rfl, ?_⟩
  obtain ⟨a1, h1⟩ := pool_allocateN_fresh sizeofT numObjects
    (memory + alignForwardAdjustment memory alignofT) c.mem
    { mMemory := c.alloc.mMemory,
      mFreeList := (memory + alignForwardAdjustment memory alignofT) % ptrMod,
      mNumTotalObjects := numObjects, mNumFreeObjects := numObjects,
      mAdjustment := c.alloc.mAdjustment } hs hn
    (fun q hq => (hsl q hq).2) rfl rfl
  rw [pool_slotsFrom_eq_map] at h1
  exact ⟨a1, a2, _, h1, h2, rfl⟩

/-- Witness of C18: a 2-slot pool of a 16-byte type at 4096 after `allocate`,
`create`, `free(4096)`; after `clean()` two allocations return 4096 and 4112
as on the fresh pool. -/
theorem pool_clean_rebuilds_witness :
    ((PoolAllocator.allocateN
      (PoolAllocator.clean 16
        { mMemory := 4096, mFreeList := 4096, mNumTotalObjects := 2, mNumFreeObjects := 1,
          mAdjustment := 0 }
        (store (store (store (fun _ => 0) 4096 4112) 4112 7) 4096 0)).2 2
      (PoolAllocator.clean 16
        { mMemory := 4096, mFreeList := 4096, mNumTotalObjects := 2, mNumFreeObjects := 1,
          mAdjustment := 0 }
        (store (store (store (fun _ => 0) 4096 4112) 4112 7) 4096 0)).1).map (fun r => r.2)
      = some [4096, 4112]) ∧
    ∃ a1 a2 addresses,
      PoolAllocator.allocateN
        (PoolAllocator.clean 16
          { mMemory := 4096, mFreeList := 4096, mNumTotalObjects := 2, mNumFreeObjects := 1,
            mAdjustment := 0 }
          (store (store (store (fun _ => 0) 4096 4112) 4112 7) 4096 0)).2 2
        (PoolAllocator.clean 16
          { mMemory := 4096, mFreeList := 4096, mNumTotalObjects := 2, mNumFreeObjects := 1,
            mAdjustment := 0 }
          (store (store (store (fun _ => 0) 4096 4112) 4112 7) 4096 0)).1
        = some (a1, addresses) ∧
      PoolAllocator.allocateN (store (fun _ => 0) 4096 4112) 2
        { mMemory := 4096, mFreeList := 4096, mNumTotalObjects := 2, mNumFreeObjects := 2,
          mAdjustment := 0 } = some (a2, addresses) ∧
      addresses = (List.range 2).map (fun k => 4096 + alignForwardAdjustment 4096 4 + k * 16) :=
  ⟨by decide,
   (pool_clean_rebuilds 16 4 4096 2 (fun _ => 0)
    [PoolOp.allocate, PoolOp.create 7, PoolOp.free 4096]
    { alloc := { mMemory := 4096, mFreeList := 4096, mNumTotalObjects := 2,
                 mNumFreeObjects := 2, mAdjustment := 0 },
      mem := store (fun _ => 0) 4096 4112, live := [] }
    { alloc := { mMemory := 4096, mFreeList := 4096, mNumTotalObjects := 2,
                 mNumFreeObjects := 1, mAdjustment := 0 },
      mem := store (store (store (fun _ => 0) 4096 4112) 4112 7) 4096 0, live := [4112] }
    (by decide) (by decide) (by decide) (by decide) (by decide) (by rfl) (by rfl)).2.2⟩

/-! ## Reset and monotonicity of the bump allocators -/

/-- C17: for every `LinearAllocator` and `StackAllocator` state, `clean()`
yields `usedMemory == 0`, `numAllocations == 0`, `currentPosition == start`
(and `previousPosition == 0` for the stack) with `start` and `size` unchanged;
this is the state the constructor builds over the same arena, so the next
`allocate(size, alignment)` does what it does on a fresh allocator and returns
the same address. -/
theorem bump_clean_resets :
    (∀ a : LinearAllocator,
      a.clean = { mStart := a.mStart, mCurrentPosition := a.mStart, mSize := a.mSize,
                  mUsedMemory := 0, mNumAllocations := 0 } ∧
      (0 < a.mSize → LinearAllocator.new a.mStart a.mSize = some a.clean) ∧
      (∀ a0, LinearAllocator.new a.mStart a.mSize = some a0 →
        a.clean = a0 ∧
        ∀ size alignment, a.clean.allocate size alignment = a0.allocate size alignment)) ∧
    (∀ a : StackAllocator,
      a.clean = { mStart := a.mStart, mCurrentPosition := a.mStart, mPreviousPosition := 0,
                  mSize := a.mSize, mUsedMemory := 0, mNumAllocations := 0 } ∧
      (0 < a.mSize → StackAllocator.new a.mStart a.mSize = some a.clean) ∧
      (∀ a0, StackAllocator.new a.mStart a.mSize = some a0 →
        a.clean = a0 ∧
        ∀ mem size alignment,
          a.clean.allocate mem size alignment = a0.allocate mem size alignment)) := by
  refine ⟨fun a => ⟨rfl, ?_, ?_⟩, fun a => ⟨rfl, ?_, ?_⟩⟩
  · intro h
    unfold LinearAllocator.new
    rw [if_neg (not_not.mpr h)]
    rfl
  · intro a0 h
    unfold LinearAllocator.new at h
    by_cases hz : a.mSize > 0
    · rw [if_neg (not_not.mpr hz)] at h
      simp only [Option.some.injEq] at h
      subst h
      exact ⟨rfl, fun _ _ => rfl⟩
    · rw [if_pos hz] at h
      simp at h
  · intro h
    unfold StackAllocator.new
    rw [if_neg (not_not.mpr h)]
    rfl
  · intro a0 h
    unfold StackAllocator.new at h
    by_cases hz : a.mSize > 0
    · rw [if_neg (not_not.mpr hz)] at h
      simp only [Option.some.injEq] at h
      subst h
      exact ⟨rfl, fun _ _ _ => rfl⟩
    · rw [if_pos hz] at h
      simp at h

/-- Witness of C17: after two allocations in a 1024-byte arena at 4096,
`clean()` gives the fresh allocator, and the next 16-byte allocation returns
4096 again. -/
theorem bump_clean_resets_witness :
    LinearAllocator.new 4096 1024
      = some (LinearAllocator.clean
          { mStart := 4096, mCurrentPosition := 4136, mSize := 1024, mUsedMemory := 40,
            mNumAllocations := 2 }) ∧
    ((LinearAllocator.clean
        { mStart := 4096, mCurrentPosition := 4136, mSize := 1024, mUsedMemory := 40,
          mNumAllocations := 2 }).allocate 16 4).map (fun r => r.2) = some 4096 ∧
    ((StackAllocator.clean
        { mStart := 4096, mCurrentPosition := 4168, mPreviousPosition := 4144, mSize := 1024,
          mUsedMemory := 72, mNumAllocations := 2 }).allocate (fun _ => 0) 16 4).map
        (fun r => r.2.2) = some 4112 :=
  ⟨(bump_clean_resets.1
      { mStart := 4096, mCurrentPosition := 4136, mSize := 1024, mUsedMemory := 40,
        mNumAllocations := 2 }).2.1 (by decide),
   by decide, by decide⟩

theorem linear_create_family (a a' : LinearAllocator) (mem mem' : Mem)
    (sizeofT alignofT length value q : Nat)
    (h : a.createNoConstruct sizeofT alignofT = some (a', q) ∨
      a.create mem sizeofT alignofT value = some (a', mem', q) ∨
      a.createArrayNoConstruct mem sizeofT alignofT length = some (a', mem', q) ∨
      a.createArray mem sizeofT alignofT length value = some (a', mem', q)) :
    ∃ size alignment address, a.allocate size alignment = some (a', address) := by
  rcases h with h | h | h | h
  · exact ⟨_, _, _, h⟩
  · unfold LinearAllocator.create at h
    cases h1 : a.allocate (sizeofT % u32Mod) (alignofT % u8Mod) with
    | none => simp [h1] at h
    | some r =>
      obtain ⟨a1, p⟩ := r
      simp only [h1, Option.some.injEq, Prod.mk.injEq] at h
      obtain ⟨h2, _, _⟩ := h
      subst h2
      exact ⟨_, _, _, h1⟩
  · unfold LinearAllocator.createArrayNoConstruct at h
    by_cases hl : length = 0
    · simp [hl] at h
    · rw [if_neg hl] at h
      simp only at h
      cases h1 : a.allocate (arrayBlockSize sizeofT length (arrayHeaderSize sizeofT))
          (alignofT % u8Mod) with
      | none => simp [h1] at h
      | some r =>
        obtain ⟨a1, p⟩ := r
        simp only [h1, Option.some.injEq, Prod.mk.injEq] at h
        obtain ⟨h2, _, _⟩ := h
        subst h2
        exact ⟨_, _, _, h1⟩
  · unfold LinearAllocator.createArray LinearAllocator.createArrayNoConstruct at h
    by_cases hl : length = 0
    · simp [hl] at h
    · rw [if_neg hl] at h
      simp only at h
      cases h1 : a.allocate (arrayBlockSize sizeofT length (arrayHeaderSize sizeofT))
          (alignofT % u8Mod) with
      | none => simp [h1] at h
      | some r =>
        obtain ⟨a1, p⟩ := r
        simp only [h1, Option.some.injEq, Prod.mk.injEq] at h
        obtain ⟨h2, _, _⟩ := h
        subst h2
        exact ⟨_, _, _, h1⟩

/-- C20 fails as stated: after `allocate(16, 4)` and `allocate(24, 8)` in a
1024-byte arena at 4096 `usedMemory` is 40, and the successful
`setCurrentPosition(4112)` lowers it to 16.  Also, after `allocate(16, 4)` the
call `createArrayNoConstruct<uint8_t>(4294967284)` succeeds through the
wrapped capacity check and `usedMemory` goes from 16 to 8. -/
theorem linear_setCurrentPosition_reclaims :
    (((LinearAllocator.new 4096 1024).bind (fun a => a.allocate 16 4)).bind
      (fun r => r.1.allocate 24 8)).bind
        (fun r => (r.1.setCurrentPosition 4112).map
          (fun a' => (r.1.mUsedMemory, a'.mUsedMemory))) = some (40, 16) ∧
    ¬ (40 ≤ 16) ∧
    ((LinearAllocator.new 4096 1024).bind (fun a => a.allocate 16 4)).bind
      (fun r => (r.1.createArrayNoConstruct (fun _ => 0) 1 1 4294967284).map
        (fun q => (r.1.mUsedMemory, q.1.mUsedMemory))) = some (16, 8) ∧
    ¬ (16 ≤ 8) := by
  refine ⟨by decide, by decide, by decide, by decide⟩

/-- C20 (amended): every successful member of the create family is a
successful `allocate`; a successful `allocate` whose 32-bit sum
`usedMemory + padding + size` does not wrap leaves `usedMemory` greater than
before; a successful `setCurrentPosition(position)`, accepted only for
`start < position < currentPosition`, sets `usedMemory` to `position - start`
(as a 32-bit value), which is smaller than before in every state with
`usedMemory == currentPosition - start`: next to `clean()` it is the operation
that reclaims memory. -/
theorem linear_usedMemory_monotone :
    (∀ (a a' : LinearAllocator) (mem mem' : Mem) (sizeofT alignofT length value q : Nat),
      (a.createNoConstruct sizeofT alignofT = some (a', q) ∨
        a.create mem sizeofT alignofT value = some (a', mem', q) ∨
        a.createArrayNoConstruct mem sizeofT alignofT length = some (a', mem', q) ∨
        a.createArray mem sizeofT alignofT length value = some (a', mem', q)) →
      ∃ size alignment address, a.allocate size alignment = some (a', address)) ∧
    (∀ (a a' : LinearAllocator) (size alignment address : Nat),
      a.allocate size alignment = some (a', address) →
      a.mUsedMemory + alignForwardAdjustment a.mCurrentPosition alignment + size < u32Mod →
      a.mUsedMemory ≤ a'.mUsedMemory ∧ a.mUsedMemory ≠ a'.mUsedMemory) ∧
    (∀ (a a' : LinearAllocator) (position : Nat), a.WF →
      a.setCurrentPosition position = some a' →
      a.mStart < position ∧ position < a.mCurrentPosition ∧
      a'.mCurrentPosition = position ∧
      a'.mUsedMemory = (position - a.mStart) % u32Mod ∧
      (a.mUsedMemory = a.mCurrentPosition - a.mStart →
        a'.mUsedMemory = position - a.mStart ∧ a'.mUsedMemory < a.mUsedMemory)) := by
  refine ⟨linear_create_family, ?_, ?_⟩
  · intro a a' size alignment address h hno
    obtain ⟨hs, _, _, _, ha'⟩ := linear_allocate_eq_some a a' size alignment address h
    have hu : a'.mUsedMemory = (a.mUsedMemory +
        (size + alignForwardAdjustment a.mCurrentPosition alignment) % u32Mod) % u32Mod := by
      rw [ha']
    simp only [u32Mod] at hu hno
    omega
  · intro a a' position hwf h
    obtain ⟨hst, hc, hsz, hu, hn⟩ := hwf
    unfold LinearAllocator.setCurrentPosition at h
    by_cases h1 : a.mCurrentPosition > position
    · by_cases h2 : a.mStart < position
      · rw [if_neg (not_not.mpr h1), if_neg (not_not.mpr h2)] at h
        simp only [Option.some.injEq] at h
        subst h
        have hused : (position + ptrMod - a.mStart) % ptrMod % u32Mod
            = (position - a.mStart) % u32Mod := by
          simp only [ptrMod, u32Mod] at *; omega
        refine ⟨h2, h1, rfl, hused, ?_⟩
        intro hinv
        show (position + ptrMod - a.mStart) % ptrMod % u32Mod = position - a.mStart ∧
          (position + ptrMod - a.mStart) % ptrMod % u32Mod < a.mUsedMemory
        simp only [ptrMod, u32Mod] at *; omega
      · rw [if_neg (not_not.mpr h1), if_pos h2] at h
        simp at h
    · rw [if_pos h1] at h
      simp at h

/-- Witness of the amended C20: `allocate(24, 8)` takes `usedMemory` from 16 to
40, and `setCurrentPosition(4112)` takes it back to 16. -/
theorem linear_usedMemory_monotone_witness :
    (16 ≤ 40 ∧ 16 ≠ 40) ∧
    (4096 < 4112 ∧ 4112 < 4136 ∧ 4112 = 4112 ∧ 16 = (4112 - 4096) % u32Mod ∧
      (40 = 4136 - 4096 → 16 = 4112 - 4096 ∧ 16 < 40)) :=
  ⟨linear_usedMemory_monotone.2.1
     { mStart := 4096, mCurrentPosition := 4112, mSize := 1024, mUsedMemory := 16,
       mNumAllocations := 1 }
     { mStart := 4096, mCurrentPosition := 4136, mSize := 1024, mUsedMemory := 40,
       mNumAllocations := 2 } 24 8 4112 (by decide) (by decide),
   linear_usedMemory_monotone.2.2
     { mStart := 4096, mCurrentPosition := 4136, mSize := 1024, mUsedMemory := 40,
       mNumAllocations := 2 }
     { mStart := 4096, mCurrentPosition := 4112, mSize := 1024, mUsedMemory := 16,
       mNumAllocations := 2 } 4112 (by decide) (by decide)⟩

/-! ## Arrays -/

theorem arrayHeaderSize_cases (s : Nat) (hs : 1 ≤ s) :
    (s = 1 ∧ arrayHeaderSize s = 4) ∨ (s = 2 ∧ arrayHeaderSize s = 2) ∨
    (s = 3 ∧ arrayHeaderSize s = 2) ∨ (s = 4 ∧ arrayHeaderSize s = 1) ∨
    (5 ≤ s ∧ arrayHeaderSize s = 1) := by
  by_cases h5 : 5 ≤ s
  · right; right; right; right
    refine ⟨h5, ?_⟩
    unfold arrayHeaderSize
    have h1 : 4 / s = 0 := Nat.div_eq_of_lt (by omega)
    have h2 : 4 % s = 4 := Nat.mod_eq_of_lt (by omega)
    simp [h1, h2, u8Mod]
  · have h4 : s ≤ 4 := by omega
    interval_cases s
    · left; exact ⟨rfl, by decide⟩
    · right; left; exact ⟨rfl, by decide⟩
    · right; right; left; exact ⟨rfl, by decide⟩
    · right; right; right; left; exact ⟨rfl, by decide⟩

/-- The header elements hold the 4-byte length word, and one element fewer
would not. -/
theorem arrayHeaderSize_least (s : Nat) (hs : 1 ≤ s) :
    4 ≤ arrayHeaderSize s * s ∧ (arrayHeaderSize s - 1) * s < 4 ∧ 1 ≤ arrayHeaderSize s := by
  rcases arrayHeaderSize_cases s hs with ⟨rfl, h⟩ | ⟨rfl, h⟩ | ⟨rfl, h⟩ | ⟨rfl, h⟩ | ⟨h5, h⟩
  · rw [h]; decide
  · rw [h]; decide
  · rw [h]; decide
  · rw [h]; decide
  · rw [h]; simp; omega

theorem arrayBlockSize_le (s length h : Nat) : arrayBlockSize s length h ≤ s * (length + h) := by
  unfold arrayBlockSize
  calc s * ((length + h) % u32Mod) % ptrMod % u32Mod
      ≤ s * ((length + h) % u32Mod) % ptrMod := Nat.mod_le _ _
    _ ≤ s * ((length + h) % u32Mod) := Nat.mod_le _ _
    _ ≤ s * (length + h) := Nat.mul_le_mul_left _ (Nat.mod_le _ _)

theorem arrayBlockSize_exact (s length h : Nat) (hfit : s * (length + h) < u32Mod)
    (hs : 1 ≤ s) : arrayBlockSize s length h = s * (length + h) := by
  unfold arrayBlockSize
  have h1 : length + h ≤ s * (length + h) := Nat.le_mul_of_pos_left _ hs
  have h2 : (length + h) % u32Mod = length + h := Nat.mod_eq_of_lt (by omega)
  have h3 : s * (length + h) % ptrMod = s * (length + h) :=
    Nat.mod_eq_of_lt (by simp only [ptrMod, u32Mod] at *; omega)
  rw [h2, h3, Nat.mod_eq_of_lt hfit]

/-- C14 (the code at the failing input): `createArrayNoConstruct<uint64_t>` of
length 536870912 on a fresh 1024-byte arena at 4096 succeeds; the header takes
one element, and the block requested from `allocate` is
`8 * (536870912 + 1)` narrowed to 32 bits, which is 8 bytes, not 4294967304:
`usedMemory` is 8 for the linear and 24 for the stack allocator, and the
returned pointer is the end of the block. -/
theorem array_block_size_truncates :
    arrayHeaderSize 8 = 1 ∧
    arrayBlockSize 8 536870912 (arrayHeaderSize 8) = 8 ∧
    ¬ (8 = 8 * (536870912 + 1)) ∧
    ((LinearAllocator.new 4096 1024).bind
      (fun a => a.createArrayNoConstruct (fun _ => 0) 8 8 536870912)).map
        (fun r => (r.1, r.2.2))
      = some ({ mStart := 4096, mCurrentPosition := 4104, mSize := 1024, mUsedMemory := 8,
                mNumAllocations := 1 }, 4104) ∧
    ((StackAllocator.new 4096 1024).bind
      (fun a => a.createArrayNoConstruct (fun _ => 0) 8 8 536870912)).map
        (fun r => (r.1, r.2.2))
      = some ({ mStart := 4096, mCurrentPosition := 4120, mPreviousPosition := 4112,
                mSize := 1024, mUsedMemory := 24, mNumAllocations := 1 }, 4120) := by
  refine ⟨by decide, by decide, by decide, by decide, by decide⟩

/-- C15 (the code at the failing input): `createArrayNoConstruct<uint8_t>` of
length 4294967295 on a fresh 1024-byte arena at 4096 succeeds; the header
takes 4 elements, `length + headerSize` wraps to 3, so the block is the 3
bytes `[4096, 4099)` (linear) or `[4112, 4115)` (stack), the returned pointer
is 4100 or 4116, and the length word 4294967295 is written to the 4 bytes
`[4096, 4100)` or `[4112, 4116)`, which end one byte behind the block. -/
theorem array_length_word_outside_block :
    arrayHeaderSize 1 = 4 ∧
    arrayBlockSize 1 4294967295 (arrayHeaderSize 1) = 3 ∧
    ((LinearAllocator.new 4096 1024).bind
      (fun a => a.createArrayNoConstruct (fun _ => 0) 1 1 4294967295)).map
        (fun r => (r.1, r.2.2, load r.2.1 (r.2.2 - 4)))
      = some ({ mStart := 4096, mCurrentPosition := 4099, mSize := 1024, mUsedMemory := 3,
                mNumAllocations := 1 }, 4100, 4294967295) ∧
    ((StackAllocator.new 4096 1024).bind
      (fun a => a.createArrayNoConstruct (fun _ => 0) 1 1 4294967295)).map
        (fun r => (r.1, r.2.2, load r.2.1 (r.2.2 - 4)))
      = some ({ mStart := 4096, mCurrentPosition := 4115, mPreviousPosition := 4112,
                mSize := 1024, mUsedMemory := 19, mNumAllocations := 1 }, 4116,
              4294967295) ∧
    ¬ (4100 ≤ 4099) ∧ ¬ (4116 ≤ 4115) := by
  refine ⟨by decide, by decide, by decide, by decide, by decide, by decide⟩

theorem constructElements_frame (s pointer value : Nat) (hs : 1 ≤ s) :
    ∀ count i (mem : Mem), pointer + (i + count) * s ≤ ptrMod →
      ∀ k, k < pointer → constructElements s pointer value count i mem k = mem k := by
  intro count
  induction count with
  | zero => intro i mem _ k _; rfl
  | succ count ih =>
    intro i mem hle k hk
    have he : i + (count + 1) = i + 1 + count := by omega
    rw [constructElements, ih (i + 1) _ (by rw [← he]; exact hle) k hk]
    have h1 : (i + 1) * s ≤ (i + (count + 1)) * s := Nat.mul_le_mul_right s (by omega)
    rw [Nat.succ_mul] at h1
    have hkey : (pointer + i * s) % ptrMod = pointer + i * s :=
      Nat.mod_eq_of_lt (by omega)
    have hne : k ≠ pointer + i * s := by omega
    simp [store, hkey, hne]

/-- Freeing the most recent fitting allocation restores the state before it
as soon as its header is still in memory. -/
theorem stack_free_restores (a a' : StackAllocator) (mem mem' later : Mem)
    (size alignment address : Nat) (hwf : a.WF) (hal : alignment ∈ alignments)
    (h : a.allocate mem size alignment = some (a', mem', address))
    (hfit : StackAllocator.blockFits a size address)
    (hsame : later (address - 16) = mem' (address - 16) ∧
      later (address - 8) = mem' (address - 8)) :
    a'.free later address = some a := by
  obtain ⟨adj, hge, hlt, hs, haddr, hcur, hprev, hused, hnum, hst, hsz, hwf', hr1, hr2, _⟩ :=
    stack_allocate_fits a a' mem mem' size alignment address hwf hal h hfit
  obtain ⟨hst0, hc, hpv, hsz0, hu, hn⟩ := hwf
  obtain ⟨hf1, hf2⟩ := hfit
  have hkeys := stack_headerAddress_add address (by omega)
    (by simp only [ptrMod] at *; omega)
  have hr1' : StackAllocator.readAdjustment later (StackAllocator.headerAddress address)
      = adj := by
    rw [← hr1]
    unfold StackAllocator.readAdjustment load
    rw [hkeys.2, hsame.2]
  have hr2' : StackAllocator.readPreviousAddress later (StackAllocator.headerAddress address)
      = a.mPreviousPosition := by
    rw [← hr2]
    unfold StackAllocator.readPreviousAddress load
    rw [hkeys.1, hsame.1]
  unfold StackAllocator.free
  simp only [hprev, not_true_eq_false, if_false, hr1', hr2', Option.some.injEq]
  cases a with
  | mk s c p z u n =>
    cases a' with
    | mk s' c' p' z' u' n' =>
      simp only at *
      subst hst hsz hprev hcur hused hnum
      simp only [StackAllocator.mk.injEq, true_and, and_true]
      simp only [ptrMod, u32Mod] at *
      refine ⟨?_, ?_, ?_⟩ <;> omega

theorem alignments_mod (alignofT : Nat) (hal : alignofT ∈ alignments) :
    alignofT % u8Mod = alignofT := by
  obtain ⟨k, hk, rfl⟩ := alignments_pow2 alignofT hal
  exact Nat.mod_eq_of_lt (Nat.lt_of_le_of_lt (Nat.pow_le_pow_right (by decide) hk)
    (by decide : 2 ^ 7 < u8Mod))

theorem stack_createArrayNoConstruct_eq_some (a a' : StackAllocator) (mem mem' : Mem)
    (sizeofT alignofT length q : Nat)
    (h : a.createArrayNoConstruct mem sizeofT alignofT length = some (a', mem', q)) :
    length ≠ 0 ∧
    ∃ mem1 address,
      a.allocate mem (arrayBlockSize sizeofT length (arrayHeaderSize sizeofT))
        (alignofT % u8Mod) = some (a', mem1, address) ∧
      q = (address + arrayHeaderSize sizeofT * sizeofT) % ptrMod ∧
      mem' = store mem1 ((q + ptrMod - 4) % ptrMod) length := by
  unfold StackAllocator.createArrayNoConstruct at h
  by_cases hl : length = 0
  · simp [hl] at h
  · rw [if_neg hl] at h
    simp only at h
    cases h1 : a.allocate mem (arrayBlockSize sizeofT length (arrayHeaderSize sizeofT))
        (alignofT % u8Mod) with
    | none => simp [h1] at h
    | some r =>
      obtain ⟨a1, mem1, p⟩ := r
      simp only [h1, Option.some.injEq, Prod.mk.injEq] at h
      obtain ⟨h2, h3, h4⟩ := h
      subst h2
      refine ⟨hl, mem1, p, rfl, h4.symm, ?_⟩
      rw [← h3, ← h4]

theorem stack_createArray_eq_some (a a' : StackAllocator) (mem mem' : Mem)
    (sizeofT alignofT length value q : Nat)
    (h : a.createArray mem sizeofT alignofT length value = some (a', mem', q)) :
    ∃ mem2, a.createArrayNoConstruct mem sizeofT alignofT length = some (a', mem2, q) ∧
      mem' = constructElements sizeofT q value length 0 mem2 := by
  unfold StackAllocator.createArray at h
  cases h1 : a.createArrayNoConstruct mem sizeofT alignofT length with
  | none => simp [h1] at h
  | some r =>
    obtain ⟨a1, mem2, p⟩ := r
    simp only [h1, Option.some.injEq, Prod.mk.injEq] at h
    obtain ⟨h2, h3, h4⟩ := h
    subst h2 h4
    exact ⟨mem2, rfl, h3.symm⟩

/-- The removal side of an array round trip, given the block of the array and
a memory that still holds the allocation header and the length word. -/
theorem stack_array_remove (a a' : StackAllocator) (mem mem1 mem' : Mem)
    (sizeofT alignofT length address : Nat) (hwf : a.WF) (hs : 1 ≤ sizeofT)
    (hal : alignofT ∈ alignments) (hlen : length < u32Mod)
    (h : a.allocate mem (arrayBlockSize sizeofT length (arrayHeaderSize sizeofT)) alignofT
      = some (a', mem1, address))
    (hfit : a.mCurrentPosition ≤ address ∧
      address + sizeofT * (arrayHeaderSize sizeofT + length) < ptrMod)
    (hkeys : mem' (address - 16) = mem1 (address - 16) ∧
      mem' (address - 8) = mem1 (address - 8) ∧
      mem' (address + arrayHeaderSize sizeofT * sizeofT - 4) = length) :
    (address + arrayHeaderSize sizeofT * sizeofT + ptrMod -
      (arrayHeaderSize sizeofT * sizeofT) % ptrMod) % ptrMod = address ∧
    a'.removeArrayNoDestruct mem' sizeofT (address + arrayHeaderSize sizeofT * sizeofT)
      = some a ∧
    a'.removeArray mem' sizeofT (address + arrayHeaderSize sizeofT * sizeofT)
      = some (a, length) := by
  obtain ⟨hX4, _, _⟩ := arrayHeaderSize_least sizeofT hs
  have hXle : arrayHeaderSize sizeofT * sizeofT
      ≤ sizeofT * (arrayHeaderSize sizeofT + length) := by
    rw [Nat.mul_comm]
    exact Nat.mul_le_mul_left _ (Nat.le_add_right _ _)
  have hsize := arrayBlockSize_le sizeofT length (arrayHeaderSize sizeofT)
  rw [Nat.add_comm length] at hsize
  have hbf : StackAllocator.blockFits a
      (arrayBlockSize sizeofT length (arrayHeaderSize sizeofT)) address :=
    ⟨hfit.1, by omega⟩
  have hfree := stack_free_restores a a' mem mem1 mem' _ alignofT address hwf hal h hbf
    ⟨hkeys.1, hkeys.2.1⟩
  have hback : (address + arrayHeaderSize sizeofT * sizeofT + ptrMod -
      (arrayHeaderSize sizeofT * sizeofT) % ptrMod) % ptrMod = address := by
    simp only [ptrMod] at *; omega
  have hkey : (address + arrayHeaderSize sizeofT * sizeofT + ptrMod - 4) % ptrMod
      = address + arrayHeaderSize sizeofT * sizeofT - 4 := by
    simp only [ptrMod] at *; omega
  have hload : load mem' (address + arrayHeaderSize sizeofT * sizeofT - 4) % u32Mod
      = length := by
    unfold load
    rw [hkeys.2.2, Nat.mod_eq_of_lt hlen]
  refine ⟨hback, ?_, ?_⟩
  · unfold StackAllocator.removeArrayNoDestruct
    rw [if_neg (by omega)]
    simp only [hback, hfree]
  · unfold StackAllocator.removeArray
    rw [if_neg (by omega)]
    simp only [hback, hfree, hkey, hload]

/-- C16: from every state whose fields hold machine values, for every element
size `sizeofT >= 1` with a power-of-two alignment and every 32-bit length for
which `createArrayNoConstruct` or `createArray` succeeds returning `q`, the
array lying inside the address space: `q` minus the recomputed header elements
is the address `allocate` returned (the new `previousPosition`), so the
immediately following `removeArrayNoDestruct(q)` and `removeArray(q)` pass the
LIFO check and give back the allocator as it was before the creation
(`currentPosition`, `previousPosition`, `usedMemory`, `numAllocations`,
`start`, `size`); `removeArray` reads back the length. -/
theorem stack_array_round_trip (a a' : StackAllocator) (mem mem' : Mem)
    (sizeofT alignofT length value q : Nat) (hwf : a.WF) (hs : 1 ≤ sizeofT)
    (hal : alignofT ∈ alignments) (hlen : length < u32Mod)
    (hcreate : a.createArrayNoConstruct mem sizeofT alignofT length = some (a', mem', q) ∨
      a.createArray mem sizeofT alignofT length value = some (a', mem', q))
    (hfit : StackAllocator.arrayFits a sizeofT length a'.mPreviousPosition) :
    (∃ mem1, a.allocate mem (arrayBlockSize sizeofT length (arrayHeaderSize sizeofT))
      alignofT = some (a', mem1, a'.mPreviousPosition)) ∧
    (q + ptrMod - (arrayHeaderSize sizeofT * sizeofT) % ptrMod) % ptrMod
      = a'.mPreviousPosition ∧
    a'.removeArrayNoDestruct mem' sizeofT q = some a ∧
    a'.removeArray mem' sizeofT q = some (a, length) := by
  have hmod := alignments_mod alignofT hal
  obtain ⟨hX4, _, _⟩ := arrayHeaderSize_least sizeofT hs
  have hXle : arrayHeaderSize sizeofT * sizeofT
      ≤ sizeofT * (arrayHeaderSize sizeofT + length) := by
    rw [Nat.mul_comm]
    exact Nat.mul_le_mul_left _ (Nat.le_add_right _ _)
  have hsum : arrayHeaderSize sizeofT * sizeofT + (0 + length) * sizeofT
      = sizeofT * (arrayHeaderSize sizeofT + length) := by
    rw [Nat.zero_add, Nat.mul_add, Nat.mul_comm sizeofT, Nat.mul_comm sizeofT]
  -- both creation functions allocate the same block and store the length word
  have hcore : ∃ mem1 mem2 address,
      a.allocate mem (arrayBlockSize sizeofT length (arrayHeaderSize sizeofT)) alignofT
        = some (a', mem1, address) ∧
      q = (address + arrayHeaderSize sizeofT * sizeofT) % ptrMod ∧
      mem2 = store mem1 ((q + ptrMod - 4) % ptrMod) length ∧
      (mem' = mem2 ∨ mem' = constructElements sizeofT q value length 0 mem2) := by
    rcases hcreate with h | h
    · obtain ⟨_, mem1, address, h1, h2, h3⟩ :=
        stack_createArrayNoConstruct_eq_some a a' mem mem' sizeofT alignofT length q h
      rw [hmod] at h1
      exact ⟨mem1, mem', address, h1, h2, h3, Or.inl rfl⟩
    · obtain ⟨mem2, h0, hm⟩ :=
        stack_createArray_eq_some a a' mem mem' sizeofT alignofT length value q h
      obtain ⟨_, mem1, address, h1, h2, h3⟩ :=
        stack_createArrayNoConstruct_eq_some a a' mem mem2 sizeofT alignofT length q h0
      rw [hmod] at h1
      exact ⟨mem1, mem2, address, h1, h2, h3, Or.inr hm⟩
  obtain ⟨mem1, mem2, address, h1, hq, hm2, hm'⟩ := hcore
  obtain ⟨adj0, _, _, _, _, _, ha'⟩ := stack_allocate_eq_some a a' mem mem1 _ _ address h1
  have hprev : a'.mPreviousPosition = address := by rw [ha']
  rw [hprev] at hfit ⊢
  obtain ⟨hf1, hf2⟩ := hfit
  have hsize := arrayBlockSize_le sizeofT length (arrayHeaderSize sizeofT)
  rw [Nat.add_comm length] at hsize
  obtain ⟨adj, hge, _, _, haddr, _⟩ := stack_allocate_fits a a' mem mem1 _ alignofT address
    hwf hal h1 ⟨hf1, by omega⟩
  have hq' : q = address + arrayHeaderSize sizeofT * sizeofT := by
    rw [hq]
    exact Nat.mod_eq_of_lt (by omega)
  have hkey : (q + ptrMod - 4) % ptrMod = address + arrayHeaderSize sizeofT * sizeofT - 4 := by
    rw [hq']
    simp only [ptrMod] at *; omega
  have hkeys2 : mem2 (address - 16) = mem1 (address - 16) ∧
      mem2 (address - 8) = mem1 (address - 8) ∧
      mem2 (address + arrayHeaderSize sizeofT * sizeofT - 4) = length := by
    rw [hm2, hkey]
    have n1 : address - 16 ≠ address + arrayHeaderSize sizeofT * sizeofT - 4 := by omega
    have n2 : address - 8 ≠ address + arrayHeaderSize sizeofT * sizeofT - 4 := by omega
    simp [store, n1, n2]
  have hkeys : mem' (address - 16) = mem1 (address - 16) ∧
      mem' (address - 8) = mem1 (address - 8) ∧
      mem' (address + arrayHeaderSize sizeofT * sizeofT - 4) = length := by
    rcases hm' with rfl | hm'
    · exact hkeys2
    · have hframe := constructElements_frame sizeofT q value hs length 0 mem2
        (by rw [hq', Nat.add_assoc, hsum]; omega)
      rw [hm', hframe _ (by omega), hframe _ (by omega), hframe _ (by omega)]
      exact hkeys2
  obtain ⟨r1, r2, r3⟩ := stack_array_remove a a' mem mem1 mem' sizeofT alignofT length
    address hwf hs hal hlen h1 ⟨hf1, hf2⟩ hkeys
  rw [hq']
  exact ⟨⟨mem1, h1⟩, r1, r2, r3⟩

/-- Witness of C16: arrays of 10 elements of size 1, 2, 4, 8 created on a
fresh 1024-byte arena at 4096 give `usedMemory` 30, 40, 60, 104 and 0 after
removal; for size 1 the array pointer is 4116 and the block address 4112. -/
theorem stack_array_round_trip_witness :
    [1, 2, 4, 8].map (fun s =>
      ((StackAllocator.new 4096 1024).bind
        (fun a => a.createArrayNoConstruct (fun _ => 0) s s 10)).map
          (fun r => (r.1.mUsedMemory,
            (r.1.removeArrayNoDestruct r.2.1 s r.2.2).map (fun b => b.mUsedMemory))))
      = [some (30, some 0), some (40, some 0), some (60, some 0), some (104, some 0)] ∧
    ((4116 + ptrMod - (arrayHeaderSize 1 * 1) % ptrMod) % ptrMod = 4112 ∧
    StackAllocator.removeArrayNoDestruct
      { mStart := 4096, mCurrentPosition := 4126, mPreviousPosition := 4112, mSize := 1024,
        mUsedMemory := 30, mNumAllocations := 1 }
      (store (store (store (fun _ => 0) 4104 16) 4096 0) 4112 10) 1 4116
      = some { mStart := 4096, mCurrentPosition := 4096, mPreviousPosition := 0,
               mSize := 1024, mUsedMemory := 0, mNumAllocations := 0 } ∧
    StackAllocator.removeArray
      { mStart := 4096, mCurrentPosition := 4126, mPreviousPosition := 4112, mSize := 1024,
        mUsedMemory := 30, mNumAllocations := 1 }
      (store (store (store (fun _ => 0) 4104 16) 4096 0) 4112 10) 1 4116
      = some ({ mStart := 4096, mCurrentPosition := 4096, mPreviousPosition := 0,
                mSize := 1024, mUsedMemory := 0, mNumAllocations := 0 }, 10)) :=
  ⟨by decide,
   (stack_array_round_trip
    { mStart := 4096, mCurrentPosition := 4096, mPreviousPosition := 0, mSize := 1024,
      mUsedMemory := 0, mNumAllocations := 0 }
    { mStart := 4096, mCurrentPosition := 4126, mPreviousPosition := 4112, mSize := 1024,
      mUsedMemory := 30, mNumAllocations := 1 }
    (fun _ => 0) (store (store (store (fun _ => 0) 4104 16) 4096 0) 4112 10)
    1 1 10 0 4116 (by decide) (by decide) (by decide) (by decide) (Or.inl (by rfl))
    (by decide)).2⟩

theorem linear_createArrayNoConstruct_eq_some (a a' : LinearAllocator) (mem mem' : Mem)
    (sizeofT alignofT length q : Nat)
    (h : a.createArrayNoConstruct mem sizeofT alignofT length = some (a', mem', q)) :
    length ≠ 0 ∧
    ∃ address,
      a.allocate (arrayBlockSize sizeofT length (arrayHeaderSize sizeofT))
        (alignofT % u8Mod) = some (a', address) ∧
      q = (address + arrayHeaderSize sizeofT * sizeofT) % ptrMod ∧
      mem' = store mem ((q + ptrMod - 4) % ptrMod) length := by
  unfold LinearAllocator.createArrayNoConstruct at h
  by_cases hl : length = 0
  · simp [hl] at h
  · rw [if_neg hl] at h
    simp only at h
    cases h1 : a.allocate (arrayBlockSize sizeofT length (arrayHeaderSize sizeofT))
        (alignofT % u8Mod) with
    | none => simp [h1] at h
    | some r =>
      obtain ⟨a1, p⟩ := r
      simp only [h1, Option.some.injEq, Prod.mk.injEq] at h
      obtain ⟨h2, h3, h4⟩ := h
      subst h2
      refine ⟨hl, p, rfl, h4.symm, ?_⟩
      rw [← h3, ← h4]

/-- For lengths whose block size `sizeofT * (length + headerSize)` fits in 32
bits and whose block lies inside the address space, the length word of a
linear array is read back, and its 4 bytes lie inside the block and in front
of the elements. -/
theorem linear_array_header_inside (a a' : LinearAllocator) (mem mem' : Mem)
    (sizeofT alignofT length q : Nat) (hs : 1 ≤ sizeofT)
    (hsize : sizeofT * (length + arrayHeaderSize sizeofT) < u32Mod)
    (h : a.createArrayNoConstruct mem sizeofT alignofT length = some (a', mem', q))
    (hfit : a.mCurrentPosition + 256 + sizeofT * (length + arrayHeaderSize sizeofT)
      ≤ ptrMod) :
    load mem' (q - 4) = length ∧
    ∃ address,
      a.allocate (sizeofT * (length + arrayHeaderSize sizeofT)) (alignofT % u8Mod)
        = some (a', address) ∧
      q = address + arrayHeaderSize sizeofT * sizeofT ∧
      address ≤ q - 4 ∧ q - 4 + 4 = q ∧
      q + length * sizeofT = address + sizeofT * (length + arrayHeaderSize sizeofT) := by
  obtain ⟨_, address, h1, hq, hm⟩ :=
    linear_createArrayNoConstruct_eq_some a a' mem mem' sizeofT alignofT length q h
  rw [arrayBlockSize_exact sizeofT length _ hsize hs] at h1
  obtain ⟨hX4, _, _⟩ := arrayHeaderSize_least sizeofT hs
  obtain ⟨_, _, _, haddr, _⟩ := linear_allocate_eq_some a a' _ _ address h1
  have hadj : alignForwardAdjustment a.mCurrentPosition (alignofT % u8Mod) < 256 :=
    alignForwardAdjustment_lt_u8 _ _
  have hsum : sizeofT * (length + arrayHeaderSize sizeofT)
      = length * sizeofT + arrayHeaderSize sizeofT * sizeofT := by
    rw [Nat.mul_add, Nat.mul_comm sizeofT, Nat.mul_comm sizeofT]
  have hq' : q = address + arrayHeaderSize sizeofT * sizeofT := by
    simp only [ptrMod] at *; omega
  have hkey : (q + ptrMod - 4) % ptrMod = q - 4 := by
    simp only [ptrMod] at *; omega
  refine ⟨?_, address, h1, hq', by omega, by omega, by omega⟩
  rw [hm, hkey]
  exact load_store_same _ _ _

/-! ## Header-aware padding: minimality and the checked precondition -/

/-- C24: for every address, every power-of-two alignment `2 ^ k` with `k ≤ 7`
(so at most 128) and every header size of at most 128,
`alignForwardAdjustmentWithHeader` returns a padding `r` that aligns the
address, exceeds the plain padding of `alignForwardAdjustment` by a whole
multiple of the alignment, is at least the header size, is the least padding
of at least the header size that aligns the address, is smaller than header
size plus alignment, and is the plain padding when that already covers the
header. -/
theorem alignForwardAdjustmentWithHeader_least (address k headerSize : Nat) (hk : k ≤ 7)
    (hh : headerSize ≤ 128) :
    ∃ r, alignForwardAdjustmentWithHeader address (2 ^ k) headerSize = some r ∧
      (address + r) % 2 ^ k = 0 ∧
      (∃ q, r = alignForwardAdjustment address (2 ^ k) + 2 ^ k * q) ∧
      headerSize ≤ r ∧
      (∀ r', headerSize ≤ r' → (address + r') % 2 ^ k = 0 → r ≤ r') ∧
      r < headerSize + 2 ^ k ∧
      (headerSize ≤ alignForwardAdjustment address (2 ^ k) →
        r = alignForwardAdjustment address (2 ^ k)) := by
  have hpos : 0 < 2 ^ k := Nat.two_pow_pos k
  have hle : 2 ^ k ≤ 2 ^ 7 := Nat.pow_le_pow_right (by decide) hk
  have hfit : headerSize + 2 ^ k ≤ 256 := by omega
  obtain ⟨q, hq, hge, hlt, hq0⟩ :=
    alignForwardAdjustmentWithHeader_eq address k headerSize hk hfit
  have hplain : (address + alignForwardAdjustment address (2 ^ k)) % 2 ^ k = 0 := by
    rw [alignForwardAdjustment_pow2 address k hk]
    exact mod_add_pad address _ hpos
  have hmin : ∀ r', (address + r') % 2 ^ k = 0 → alignForwardAdjustment address (2 ^ k) ≤ r' := by
    intro r' hr'
    rw [alignForwardAdjustment_pow2 address k hk]
    exact pad_le_of_aligned address _ r' hpos hr'
  generalize alignForwardAdjustment address (2 ^ k) = p at *
  generalize 2 ^ k = a at *
  refine ⟨_, hq, ?_, ⟨q, rfl⟩, hge, ?_, hlt, ?_⟩
  · rw [← Nat.add_assoc, Nat.add_mul_mod_self_left]
    exact hplain
  · intro r' hr' hal
    have hp := hmin r' hal
    have hd : a ∣ r' - p := by
      have h1 : a ∣ address + p := Nat.dvd_of_mod_eq_zero hplain
      have h2 : a ∣ address + p + (r' - p) := by
        have : address + p + (r' - p) = address + r' := by omega
        rw [this]
        exact Nat.dvd_of_mod_eq_zero hal
      exact (Nat.dvd_add_right h1).mp h2
    obtain ⟨j, hj⟩ := hd
    by_contra hcon
    have hjq : j < q := by
      by_contra hjq
      have : a * q ≤ a * j := Nat.mul_le_mul_left a (Nat.le_of_not_lt hjq)
      omega
    have : a * (j + 1) ≤ a * q := Nat.mul_le_mul_left a hjq
    rw [Nat.mul_add, Nat.mul_one] at this
    omega
  · intro h
    rw [hq0 h]
    simp

/-- Witness of C24 at the stack test's cursor: address 30, alignment 8 and
header size 16 give the padding 18. -/
theorem alignForwardAdjustmentWithHeader_least_witness :
    ∃ r, alignForwardAdjustmentWithHeader 30 (2 ^ 3) 16 = some r ∧
      (30 + r) % 2 ^ 3 = 0 ∧
      (∃ q, r = alignForwardAdjustment 30 (2 ^ 3) + 2 ^ 3 * q) ∧
      16 ≤ r ∧
      (∀ r', 16 ≤ r' → (30 + r') % 2 ^ 3 = 0 → r ≤ r') ∧
      r < 16 + 2 ^ 3 ∧
      (16 ≤ alignForwardAdjustment 30 (2 ^ 3) → r = alignForwardAdjustment 30 (2 ^ 3)) :=
  alignForwardAdjustmentWithHeader_least 30 3 16 (by decide) (by decide)

/-- C26 fails as stated: alignment 6 passes both checks of
`alignForwardAdjustmentWithHeader` (it is positive and even), yet at address 2
the padding is 0 for header size 0 and 18 for header size 16, and neither 2 nor
20 is a multiple of 6. -/
theorem alignForwardAdjustmentWithHeader_even_unaligned :
    alignForwardAdjustmentWithHeader 2 6 0 = some 0 ∧ (2 + 0) % 6 ≠ 0 ∧
    alignForwardAdjustmentWithHeader 2 6 16 = some 18 ∧ (2 + 18) % 6 ≠ 0 ∧
    ¬ (∀ address alignment headerSize r, headerSize ≤ 16 →
        alignment > 0 → (alignment = 1 ∨ alignment % 2 = 0) →
        alignForwardAdjustmentWithHeader address alignment headerSize = some r →
        (address + r) % alignment = 0) := by
  refine ⟨by decide, by decide, by decide, by decide, ?_⟩
  intro h
  have h1 := h 2 6 0 0 (by decide) (by decide) (by decide) (by decide)
  exact absurd h1 (by decide)

/-- C26 (amended): for every address, every header size of at most 16 and
every power-of-two alignment `2 ^ k` with `k ≤ 7`, the call passes both checks
and the returned padding `r` satisfies `(address + r) % 2 ^ k = 0`. -/
theorem alignForwardAdjustmentWithHeader_aligned (address k headerSize : Nat) (hk : k ≤ 7)
    (hh : headerSize ≤ 16) :
    ∃ r, alignForwardAdjustmentWithHeader address (2 ^ k) headerSize = some r ∧
      (address + r) % 2 ^ k = 0 := by
  have hpos : 0 < 2 ^ k := Nat.two_pow_pos k
  have hle : 2 ^ k ≤ 2 ^ 7 := Nat.pow_le_pow_right (by decide) hk
  obtain ⟨q, hq, _, _, _⟩ :=
    alignForwardAdjustmentWithHeader_eq address k headerSize hk (by omega)
  refine ⟨_, hq, ?_⟩
  rw [← Nat.add_assoc, Nat.add_mul_mod_self_left, alignForwardAdjustment_pow2 address k hk]
  exact mod_add_pad address _ hpos

/-- Witness of the amended C26 at address 2, alignment 4 and the header size
16 of the stack allocator. -/
theorem alignForwardAdjustmentWithHeader_aligned_witness :
    ∃ r, alignForwardAdjustmentWithHeader 2 (2 ^ 2) 16 = some r ∧ (2 + r) % 2 ^ 2 = 0 :=
  alignForwardAdjustmentWithHeader_aligned 2 2 16 (by decide) (by decide)

/-! ## Teardown -/

theorem bump_destroy_iff :
    (∀ a : LinearAllocator,
      (a.destroy.isSome ↔ (a.mUsedMemory = 0 ∧ a.mNumAllocations = 0)) ∧
      (a.destroy = none ↔ ¬ (a.mUsedMemory = 0 ∧ a.mNumAllocations = 0))) ∧
    (∀ a : StackAllocator,
      (a.destroy.isSome ↔ (a.mUsedMemory = 0 ∧ a.mNumAllocations = 0)) ∧
      (a.destroy = none ↔ ¬ (a.mUsedMemory = 0 ∧ a.mNumAllocations = 0))) := by
  refine ⟨?_, ?_⟩
  · intro a
    unfold LinearAllocator.destroy
    by_cases h : a.mNumAllocations = 0 ∧ a.mUsedMemory = 0
    · rw [if_neg (not_not.mpr h)]
      exact ⟨⟨fun _ => ⟨h.2, h.1⟩, fun _ => rfl⟩,
        ⟨fun hs => by simp at hs, fun hn => absurd ⟨h.2, h.1⟩ hn⟩⟩
    · rw [if_pos h]
      exact ⟨⟨fun hs => by simp at hs, fun hz => absurd ⟨hz.2, hz.1⟩ h⟩,
        ⟨fun _ => fun hz => h ⟨hz.2, hz.1⟩, fun _ => rfl⟩⟩
  · intro a
    unfold StackAllocator.destroy
    by_cases h : a.mNumAllocations = 0 ∧ a.mUsedMemory = 0
    · rw [if_neg (not_not.mpr h)]
      exact ⟨⟨fun _ => ⟨h.2, h.1⟩, fun _ => rfl⟩,
        ⟨fun hs => by simp at hs, fun hn => absurd ⟨h.2, h.1⟩ hn⟩⟩
    · rw [if_pos h]
      exact ⟨⟨fun hs => by simp at hs, fun hz => absurd ⟨hz.2, hz.1⟩ h⟩,
        ⟨fun _ => fun hz => h ⟨hz.2, hz.1⟩, fun _ => rfl⟩⟩

/-- C21 fails on the code for the pool: after one `create` in a pool of two
slots (`numFreeObjects = 1`, `numTotalObjects = 2`) the destructor runs to its
end, whereas the destructors of a linear and of a stack allocator with one
object created in a 1024-byte arena are rejected. -/
theorem pool_destroy_with_live_slot :
    (∃ a0 mem0 a1 mem1 p,
      PoolAllocator.new 16 4 4096 (fun _ => 0) 2 = some (a0, mem0) ∧
      a0.create mem0 55 = some (a1, mem1, p) ∧
      a1.mNumFreeObjects = 1 ∧ a1.mNumTotalObjects = 2 ∧
      a1.destroy = some a1) ∧
    (∃ a0 a1 p,
      LinearAllocator.new 4096 1024 = some a0 ∧
      a0.createNoConstruct 16 4 = some (a1, p) ∧
      a1.mNumAllocations = 1 ∧ a1.mUsedMemory = 16 ∧
      a1.destroy = none) ∧
    (∃ a0 a1 mem1 p,
      StackAllocator.new 4096 1024 = some a0 ∧
      a0.createNoConstruct (fun _ => 0) 16 4 = some (a1, mem1, p) ∧
      a1.mNumAllocations = 1 ∧ a1.mUsedMemory = 32 ∧
      a1.destroy = none) :=
  ⟨⟨_, _, _, _, _, rfl, rfl, rfl, rfl, rfl⟩,
   ⟨_, _, _, rfl, rfl, rfl, rfl, rfl⟩,
   ⟨_, _, _, _, rfl, rfl, rfl, rfl, rfl⟩⟩

/-! ## Linear allocator: bookkeeping and cursor -/

theorem linear_cursor_arith (cur start used size p : Nat)
    (hs : start < 2 ^ 64) (hc : cur < 2 ^ 64)
    (hu : used = (cur + 2 ^ 64 - start) % 2 ^ 64 % 2 ^ 32) :
    (used + (size + p) % 2 ^ 32) % 2 ^ 32
      = (((cur + p) % 2 ^ 64 + size) % 2 ^ 64 + 2 ^ 64 - start) % 2 ^ 64 % 2 ^ 32 := by
  have e1 : (((cur + p) % 2 ^ 64 + size) % 2 ^ 64 + 2 ^ 64 - start) % 2 ^ 64
      = ((cur + 2 ^ 64 - start) % 2 ^ 64 + (size + p)) % 2 ^ 64 := by
    have h1 : ((cur + p) % 2 ^ 64 + size) % 2 ^ 64 = (cur + p + size) % 2 ^ 64 := by
      rw [Nat.add_mod, Nat.mod_mod, ← Nat.add_mod]
    rw [h1]
    have h2 : (cur + p + size) % 2 ^ 64 < 2 ^ 64 := Nat.mod_lt _ (by decide)
    have h3 : ((cur + p + size) % 2 ^ 64 + 2 ^ 64 - start) % 2 ^ 64
        = ((cur + p + size) % 2 ^ 64 + (2 ^ 64 - start)) % 2 ^ 64 := by
      congr 1; omega
    rw [h3, Nat.add_mod, Nat.mod_mod, ← Nat.add_mod]
    have h4 : ((cur + 2 ^ 64 - start) % 2 ^ 64 + (size + p)) % 2 ^ 64
        = (cur + 2 ^ 64 - start + (size + p)) % 2 ^ 64 := by
      rw [Nat.add_mod, Nat.mod_mod, ← Nat.add_mod]
    rw [h4]
    congr 1; omega
  have hd : (2 : Nat) ^ 32 ∣ 2 ^ 64 := ⟨2 ^ 32, by norm_num⟩
  have hr : ((cur + 2 ^ 64 - start) % 2 ^ 64 + (size + p)) % 2 ^ 64 % 2 ^ 32
      = ((cur + 2 ^ 64 - start) % 2 ^ 64 % 2 ^ 32 + (size + p) % 2 ^ 32) % 2 ^ 32 := by
    rw [Nat.mod_mod_of_dvd _ hd]
    exact Nat.add_mod _ _ _
  rw [e1, hu, hr]

theorem linear_rewind_arith (position start : Nat) (h1 : start ≤ position)
    (h2 : position < ptrMod) :
    (position + ptrMod - start) % ptrMod % u32Mod = (position - start) % u32Mod := by
  have h3 : (position + ptrMod - start) % ptrMod = position - start := by
    simp only [ptrMod] at *
    omega
  rw [h3]

theorem linear_cursor_step (a a' : LinearAllocator) (op : LinearOp)
    (hs : a.mStart < ptrMod) (hc : a.mCurrentPosition < ptrMod)
    (hu : a.mUsedMemory = (a.mCurrentPosition + ptrMod - a.mStart) % ptrMod % u32Mod)
    (h : a.step op = some a') :
    a'.mStart = a.mStart ∧ a'.mSize = a.mSize ∧ a'.mCurrentPosition < ptrMod ∧
    a'.mUsedMemory = (a'.mCurrentPosition + ptrMod - a'.mStart) % ptrMod % u32Mod := by
  cases op with
  | allocate size alignment =>
    simp only [LinearAllocator.step] at h
    cases hal : a.allocate size alignment with
    | none => rw [hal] at h; simp at h
    | some r =>
      obtain ⟨a1, address⟩ := r
      rw [hal] at h
      simp only [Option.some.injEq] at h
      subst h
      obtain ⟨_, _, _, haddr, ha'⟩ := linear_allocate_eq_some a a1 size alignment address hal
      subst ha'
      subst haddr
      refine ⟨rfl, rfl, Nat.mod_lt _ (by decide), ?_⟩
      exact linear_cursor_arith _ _ _ _ _ hs hc hu
  | setCurrentPosition position =>
    simp only [LinearAllocator.step, LinearAllocator.setCurrentPosition] at h
    by_cases h1 : a.mCurrentPosition > position
    · by_cases h2 : a.mStart < position
      · simp only [h1, h2, not_true_eq_false, if_false, Option.some.injEq] at h
        subst h
        refine ⟨rfl, rfl, ?_, rfl⟩
        show position < ptrMod
        exact Nat.lt_trans h1 hc
      · simp [h1, h2] at h
    · simp [h1] at h
  | clean =>
    simp only [LinearAllocator.step, LinearAllocator.clean, Option.some.injEq] at h
    subst h
    refine ⟨rfl, rfl, hs, ?_⟩
    show 0 = (a.mStart + ptrMod - a.mStart) % ptrMod % u32Mod
    rw [linear_rewind_arith _ _ (Nat.le_refl _) hs]
    simp

theorem linear_cursor_run (ops : List LinearOp) (a a' : LinearAllocator)
    (hs : a.mStart < ptrMod) (hc : a.mCurrentPosition < ptrMod)
    (hu : a.mUsedMemory = (a.mCurrentPosition + ptrMod - a.mStart) % ptrMod % u32Mod)
    (h : a.run ops = some a') :
    a'.mStart = a.mStart ∧ a'.mSize = a.mSize ∧ a'.mCurrentPosition < ptrMod ∧
    a'.mUsedMemory = (a'.mCurrentPosition + ptrMod - a'.mStart) % ptrMod % u32Mod := by
  induction ops generalizing a with
  | nil =>
    simp only [LinearAllocator.run, Option.some.injEq] at h
    subst h
    exact ⟨rfl, rfl, hc, hu⟩
  | cons op ops ih =>
    simp only [LinearAllocator.run] at h
    cases hstep : a.step op with
    | none => rw [hstep] at h; simp at h
    | some a1 =>
      rw [hstep] at h
      obtain ⟨h1, h2, h3, h4⟩ := linear_cursor_step a a1 op hs hc hu hstep
      obtain ⟨k1, k2, k3, k4⟩ := ih a1 (h1 ▸ hs) h3 h4 h
      exact ⟨k1.trans h1, k2.trans h2, k3, k4⟩

theorem linear_setCurrentPosition_eq_some (a a' : LinearAllocator) (position : Nat)
    (h : a.setCurrentPosition position = some a') :
    a.mStart < position ∧ position < a.mCurrentPosition ∧
    a' = { a with mCurrentPosition := position,
                  mUsedMemory := (position + ptrMod - a.mStart) % ptrMod % u32Mod } := by
  unfold LinearAllocator.setCurrentPosition at h
  by_cases h1 : a.mCurrentPosition > position
  · by_cases h2 : a.mStart < position
    · simp only [h1, h2, not_true_eq_false, if_false, Option.some.injEq] at h
      exact ⟨h2, h1, h.symm⟩
    · simp [h1, h2] at h
  · simp [h1] at h

/-- C27 fails on the code: in an arena of 64 bytes at 4096, `allocate(16, 1)`
followed by `allocate(2 ^ 32 - 16, 1)`, the call that
`createArrayNoConstruct<uint8_t>(4294967276)` makes and that passes the
capacity check because the 32-bit sum `16 + 0 + 4294967280` wraps to 0,
leaves `usedMemory = 0` with the cursor `2 ^ 32` bytes above `start`, beyond
the end of the arena; after a further `allocate(16, 1)` the call
`setCurrentPosition(start + 2 ^ 32 + 8)` is accepted and sets `usedMemory` to
8, not to `position - start`. -/
theorem linear_usedMemory_cursor_wraps :
    ∃ a0 b a1 a2 a3,
      LinearAllocator.new 4096 64 = some a0 ∧
      a0.createNoConstruct 16 1 = some (b, 4096) ∧
      b.mUsedMemory = 16 ∧ b.mCurrentPosition - b.mStart = 16 ∧
      (b.mUsedMemory + alignForwardAdjustment b.mCurrentPosition 1 + 4294967280) % u32Mod = 0 ∧
      (∃ mem1 q, b.createArrayNoConstruct (fun _ => 0) 1 1 4294967276 = some (a1, mem1, q)) ∧
      a0.run [.allocate 16 1, .allocate 4294967280 1] = some a1 ∧
      a1.mUsedMemory = 0 ∧ a1.mCurrentPosition - a1.mStart = 4294967296 ∧
      a1.mStart + a1.mSize < a1.mCurrentPosition ∧
      a1.run [.allocate 16 1] = some a2 ∧
      a2.setCurrentPosition (4096 + 4294967296 + 8) = some a3 ∧
      a3.mUsedMemory = 8 ∧ 4096 + 4294967296 + 8 - a2.mStart = 4294967304 :=
  ⟨_, _, _, _, _, rfl, rfl, rfl, rfl, by decide, ⟨_, _, rfl⟩, rfl, rfl, rfl, by decide,
    rfl, rfl, rfl, rfl⟩

/-- Bookkeeping of the linear allocator over runs: in every state reachable
from construction by successful `allocate`, `setCurrentPosition` and `clean`
calls, `usedMemory` is the difference `currentPosition - start` of the two
`uintptr_t` fields reduced to 32 bits, so it equals `currentPosition - start`
whenever the cursor is less than `2 ^ 32` bytes above `start`, as it is while
no capacity check has wrapped.  `setCurrentPosition(position)` is accepted
exactly when `start < position < currentPosition`; it sets `currentPosition`
to `position` and `usedMemory` to `position - start` reduced to 32 bits and
leaves `numAllocations`, `start` and `size` unchanged. -/
theorem linear_usedMemory_cursor (start size : Nat) (ops : List LinearOp)
    (a0 a : LinearAllocator) (hstart : start < ptrMod)
    (hnew : LinearAllocator.new start size = some a0)
    (hrun : a0.run ops = some a) :
    a.mUsedMemory = (a.mCurrentPosition + ptrMod - a.mStart) % ptrMod % u32Mod ∧
    (a.mStart ≤ a.mCurrentPosition → a.mCurrentPosition - a.mStart < u32Mod →
      a.mUsedMemory = a.mCurrentPosition - a.mStart) ∧
    (∀ position, (a.setCurrentPosition position).isSome ↔
      (a.mStart < position ∧ position < a.mCurrentPosition)) ∧
    (∀ position a', a.setCurrentPosition position = some a' →
      a'.mCurrentPosition = position ∧
      a'.mUsedMemory = (position - a.mStart) % u32Mod ∧
      (position - a.mStart < u32Mod → a'.mUsedMemory = position - a.mStart) ∧
      a'.mNumAllocations = a.mNumAllocations ∧ a'.mStart = a.mStart ∧
      a'.mSize = a.mSize) := by
  have h0 : a0 = { mStart := start, mCurrentPosition := start, mSize := size,
                   mUsedMemory := 0, mNumAllocations := 0 } := by
    unfold LinearAllocator.new at hnew
    by_cases hsz : size > 0
    · simp only [hsz, not_true_eq_false, if_false, Option.some.injEq] at hnew
      exact hnew.symm
    · simp [hsz] at hnew
  have hu0 : a0.mUsedMemory = (a0.mCurrentPosition + ptrMod - a0.mStart) % ptrMod % u32Mod := by
    subst h0
    show 0 = (start + ptrMod - start) % ptrMod % u32Mod
    rw [linear_rewind_arith _ _ (Nat.le_refl _) hstart]
    simp
  obtain ⟨hs, _, hc, hu⟩ := linear_cursor_run ops a0 a (by subst h0; exact hstart)
    (by subst h0; exact hstart) hu0 hrun
  have hsa : a.mStart < ptrMod := by rw [hs]; subst h0; exact hstart
  refine ⟨hu, ?_, ?_, ?_⟩
  · intro hle hlt
    rw [hu, linear_rewind_arith _ _ hle hc]
    exact Nat.mod_eq_of_lt hlt
  · intro position
    constructor
    · intro hsome
      cases hset : a.setCurrentPosition position with
      | none => rw [hset] at hsome; simp at hsome
      | some a' =>
        obtain ⟨h1, h2, _⟩ := linear_setCurrentPosition_eq_some a a' position hset
        exact ⟨h1, h2⟩
    · intro ⟨h1, h2⟩
      unfold LinearAllocator.setCurrentPosition
      simp [h1, h2]
  · intro position a' hset
    obtain ⟨h1, h2, h3⟩ := linear_setCurrentPosition_eq_some a a' position hset
    subst h3
    have hmod : (position + ptrMod - a.mStart) % ptrMod % u32Mod
        = (position - a.mStart) % u32Mod :=
      linear_rewind_arith _ _ (Nat.le_of_lt h1) (Nat.lt_trans h2 hc)
    refine ⟨rfl, hmod, ?_, rfl, rfl, rfl⟩
    intro hlt
    show (position + ptrMod - a.mStart) % ptrMod % u32Mod = _
    rw [hmod]
    exact Nat.mod_eq_of_lt hlt

/-- The bookkeeping lemma on the test arena of 1024 bytes at 4096: after the
allocations of 16 and 24 bytes and a rewind to 4112. -/
theorem linear_usedMemory_cursor_witness :
    ∃ a0 a : LinearAllocator,
      LinearAllocator.new 4096 1024 = some a0 ∧
      a0.run [.allocate 16 4, .allocate 24 8, .setCurrentPosition 4112] = some a ∧
      a.mUsedMemory = 16 ∧ a.mCurrentPosition = 4112 ∧
      a.mUsedMemory = (a.mCurrentPosition + ptrMod - a.mStart) % ptrMod % u32Mod :=
  ⟨_, _, rfl, rfl, rfl, rfl,
    (linear_usedMemory_cursor 4096 1024
      [.allocate 16 4, .allocate 24 8, .setCurrentPosition 4112] _ _
      (by decide) rfl rfl).1⟩

/-! ## Pool allocator: buffer layout and free-list construction -/

/-- C28 fails on the code: for a type of size and alignment 32 and a buffer of
two slots that `std::malloc` returned at 4112 (16-byte aligned), the
adjustment is 16, the slots handed out are 4128 and 4160, and slot 1 ends at
4192, which is 16 bytes past the end 4176 of the reserved buffer. -/
theorem pool_last_slot_outside_buffer :
    ∃ a mem' a',
      PoolAllocator.new 32 32 4112 (fun _ => 0) 2 = some (a, mem') ∧
      a.mAdjustment = 16 ∧ a.mAdjustment = alignForwardAdjustment 4112 32 ∧
      PoolAllocator.slots 32 a = [4128, 4160] ∧
      PoolAllocator.allocateN mem' 2 a = some (a', [4128, 4160]) ∧
      a.mMemory + a.mNumTotalObjects * 32 = 4176 ∧
      a.slot 32 1 + 32 = 4192 ∧
      a.mMemory + a.mNumTotalObjects * 32 < a.slot 32 1 + 32 :=
  ⟨_, _, _, rfl, rfl, rfl, rfl, rfl, rfl, rfl, by decide⟩

/-- C23 fails on the code: in a pool of two 16-byte slots at 4096,
construction writes the link of slot 0 and leaves the link word of the last
slot as it was, whatever the buffer held before, so after two allocations the
free-list head is the prior content of that word and not null; the same holds
after `clean()`, where the word holds what the client stored in the slot. -/
theorem pool_last_link_not_written :
    (∀ mem : Mem, ∃ a mem' a',
      PoolAllocator.new 16 4 4096 mem 2 = some (a, mem') ∧
      load mem' 4096 = 4112 ∧
      load mem' 4112 = mem 4112 ∧
      PoolAllocator.allocateN mem' 2 a = some (a', [4096, 4112]) ∧
      a'.mFreeList = mem 4112 % ptrMod) ∧
    (∃ a mem' a',
      PoolAllocator.new 16 4 4096 (fun _ => 77) 2 = some (a, mem') ∧
      load mem' 4112 = 77 ∧
      PoolAllocator.allocateN mem' 2 a = some (a', [4096, 4112]) ∧
      a'.mFreeList = 77 ∧ a'.mFreeList ≠ 0) ∧
    (∃ c0 c a',
      PoolConfig.init 16 4 4096 (fun _ => 0) 2 = some c0 ∧
      c0.run 16 [.create 55, .create 99, .clean] = some c ∧
      load c.mem 4096 = 4112 ∧
      load c.mem 4112 = 99 ∧
      PoolAllocator.allocateN c.mem 2 c.alloc = some (a', [4096, 4112]) ∧
      a'.mFreeList = 99) := by
  refine ⟨?_, ?_, ?_⟩
  · intro mem
    exact ⟨_, _, _, rfl, rfl, rfl, rfl, rfl⟩
  · exact ⟨_, _, _, rfl, rfl, rfl, rfl, by decide⟩
  · exact ⟨_, _, _, rfl, rfl, rfl, rfl, rfl, rfl⟩

theorem pool_freeListInitLoop_writes (s : Nat) (hs : 0 < s) :
    ∀ k p (mem : Mem) i, p + k * s < ptrMod → i < k →
      load (PoolAllocator.freeListInitLoop s k p mem) (p + i * s) = p + (i + 1) * s := by
  intro k
  induction k with
  | zero => intro p mem i _ hi; omega
  | succ k ih =>
    intro p mem i hp hi
    have hps : (p + s) % ptrMod = p + s := by
      apply Nat.mod_eq_of_lt
      have : p + s ≤ p + (k + 1) * s := by
        rw [Nat.add_mul, Nat.one_mul]; omega
      omega
    have hnext : load (store mem p ((p + s) % ptrMod)) p % ptrMod = p + s := by
      rw [load_store_same, Nat.mod_mod, hps]
    have hp' : p + s + k * s < ptrMod := by
      rw [Nat.add_mul, Nat.one_mul] at hp; omega
    simp only [PoolAllocator.freeListInitLoop]
    rw [hnext]
    cases i with
    | zero =>
      have hfr := (pool_freeListInitLoop_linked s hs k (p + s)
        (store mem p ((p + s) % ptrMod)) hp').2 p (by omega)
      simp only [Nat.zero_mul, Nat.add_zero, Nat.zero_add, Nat.one_mul]
      show PoolAllocator.freeListInitLoop s k (p + s) (store mem p ((p + s) % ptrMod)) p = p + s
      rw [hfr]
      show load (store mem p ((p + s) % ptrMod)) p = p + s
      rw [load_store_same, hps]
    | succ j =>
      have h := ih (p + s) (store mem p ((p + s) % ptrMod)) j hp' (by omega)
      have e1 : p + (j + 1) * s = p + s + j * s := by
        rw [Nat.add_mul, Nat.one_mul]; omega
      have e2 : p + (j + 1 + 1) * s = p + s + (j + 1) * s := by
        rw [Nat.add_mul (j + 1) 1 s, Nat.one_mul]; omega
      rw [e1, e2]
      exact h

/-- C29 fails on the code for `numTotalObjects = 0`: the loop bound
`mNumTotalObjects - 1` wraps to `2 ^ 32 - 1`, so constructing a pool of zero
16-byte slots at 4096 runs the loop body `2 ^ 32 - 1` times; the first link is
written at 4096 and the last at `4096 + (2 ^ 32 - 2) * 16`, although the buffer
is empty.  The pool has `numFreeObjects = 0` and `allocate` fails, as
claimed. -/
theorem pool_freeListInit_zero_objects :
    ∃ a mem',
      PoolAllocator.new 16 4 4096 (fun _ => 0) 0 = some (a, mem') ∧
      a.mNumTotalObjects = 0 ∧ a.mNumFreeObjects = 0 ∧
      (a.mNumTotalObjects + u32Mod - 1) % u32Mod = 4294967295 ∧
      mem' = PoolAllocator.freeListInitLoop 16 4294967295 4096 (fun _ => 0) ∧
      load mem' 4096 = 4112 ∧
      load mem' (4096 + 4294967294 * 16) = 4096 + 4294967295 * 16 ∧
      a.allocate mem' = none := by
  refine ⟨{ mMemory := 4096, mFreeList := 4096, mNumTotalObjects := 0,
            mNumFreeObjects := 0, mAdjustment := 0 },
          PoolAllocator.freeListInitLoop 16 4294967295 4096 (fun _ => 0),
          ?_, rfl, rfl, by decide, rfl, ?_, ?_, rfl⟩
  · have hadj : alignForwardAdjustment 4096 (4 % u8Mod) = 0 := by decide
    have hcount : (0 + u32Mod - 1) % u32Mod = 4294967295 := by decide
    have hhead : (4096 + 0) % ptrMod = 4096 := by decide
    simp only [PoolAllocator.new, PoolAllocator.freeListInit, hadj, hcount, hhead]
    simp [sizeofPointer]
  · exact pool_freeListInitLoop_writes 16 (by decide) 4294967295 4096 (fun _ => 0) 0
      (by decide) (by decide)
  · exact pool_freeListInitLoop_writes 16 (by decide) 4294967295 4096 (fun _ => 0) 4294967294
      (by decide) (by decide)

/-! ## Pool allocator: reuse order -/

theorem pool_allocateN_snoc (mem : Mem) :
    ∀ (m : Nat) (a a1 a2 : PoolAllocator) (l : List Nat) (p : Nat),
      PoolAllocator.allocateN mem m a = some (a1, l) →
      a1.allocate mem = some (a2, p) →
      PoolAllocator.allocateN mem (m + 1) a = some (a2, l ++ [p]) := by
  intro m
  induction m with
  | zero =>
    intro a a1 a2 l p h1 h2
    simp only [PoolAllocator.allocateN, Option.some.injEq, Prod.mk.injEq] at h1
    obtain ⟨ha, hl⟩ := h1
    subst ha; subst hl
    simp [PoolAllocator.allocateN, h2]
  | succ m ih =>
    intro a a1 a2 l p h1 h2
    rw [PoolAllocator.allocateN] at h1
    cases hal : a.allocate mem with
    | none => rw [hal] at h1; simp at h1
    | some r =>
      obtain ⟨b, q⟩ := r
      simp only [hal] at h1
      cases hrest : PoolAllocator.allocateN mem m b with
      | none => simp [hrest] at h1
      | some r2 =>
        obtain ⟨b2, l2⟩ := r2
        simp only [hrest, Option.some.injEq, Prod.mk.injEq] at h1
        obtain ⟨hb, hl⟩ := h1
        subst hb; subst hl
        have h3 := ih b b2 a2 l2 p hrest h2
        rw [PoolAllocator.allocateN, hal]
        simp only [h3, List.cons_append]

theorem poolRun_free_step (s : Nat) (c c' : PoolConfig) (p : Nat)
    (h : c.step s (PoolOp.free p) = some c') :
    p ∈ c.live ∧ c.alloc.mMemory ≤ p ∧ c.alloc.mNumFreeObjects < c.alloc.mNumTotalObjects ∧
    c' = { alloc := { c.alloc with mFreeList := p,
                                   mNumFreeObjects := (c.alloc.mNumFreeObjects + 1) % u32Mod },
           mem := store c.mem p c.alloc.mFreeList,
           live := c.live.erase p } := by
  simp only [PoolConfig.step] at h
  by_cases hp : p ∈ c.live
  · rw [if_pos hp] at h
    cases hf : c.alloc.free c.mem p with
    | none => rw [hf] at h; simp at h
    | some r =>
      obtain ⟨a1, mem1⟩ := r
      rw [hf] at h
      simp only [Option.some.injEq] at h
      obtain ⟨h1, h2, h3, h4⟩ := pool_free_eq_some _ _ _ _ _ hf
      subst h3; subst h4
      exact ⟨hp, h1, h2, h.symm⟩
  · rw [if_neg hp] at h; simp at h

theorem poolRun_frees_frame (s : Nat) (ps : List Nat) :
    ∀ c c' : PoolConfig, c.run s (ps.map PoolOp.free) = some c' →
      (∀ q ∈ ps, q ∈ c.live) ∧ (∀ q, q ∉ ps → c'.mem q = c.mem q) := by
  induction ps with
  | nil =>
    intro c c' h
    simp only [List.map_nil, PoolConfig.run, Option.some.injEq] at h
    subst h
    exact ⟨fun q hq => by simp at hq, fun q _ => rfl⟩
  | cons p rest ih =>
    intro c c' h
    simp only [List.map_cons, PoolConfig.run] at h
    cases hstep : c.step s (PoolOp.free p) with
    | none => rw [hstep] at h; simp at h
    | some c1 =>
      rw [hstep] at h
      obtain ⟨hp, _, _, hc1⟩ := poolRun_free_step s c c1 p hstep
      obtain ⟨h1, h2⟩ := ih c1 c' h
      subst hc1
      refine ⟨?_, ?_⟩
      · intro q hq
        rcases List.mem_cons.mp hq with rfl | hq
        · exact hp
        · exact List.mem_of_mem_erase (h1 q hq)
      · intro q hq
        have hqp : q ≠ p := fun e => hq (e ▸ List.mem_cons_self _ _)
        have hqr : q ∉ rest := fun e => hq (List.mem_cons_of_mem _ e)
        rw [h2 q hqr]
        show store c.mem p c.alloc.mFreeList q = c.mem q
        simp [store, hqp]

theorem poolRun_frees_lifo (s : Nat) (hs : 0 < s) (ps : List Nat) :
    ∀ c c' : PoolConfig, c.Inv s → c.alloc.mFreeList < ptrMod →
      c.run s (ps.map PoolOp.free) = some c' →
      PoolAllocator.allocateN c'.mem ps.length c'.alloc = some (c.alloc, ps.reverse) := by
  induction ps with
  | nil =>
    intro c c' _ _ h
    simp only [List.map_nil, PoolConfig.run, Option.some.injEq] at h
    subst h
    rfl
  | cons p rest ih =>
    intro c c' hinv hhead h
    have hrun := h
    simp only [List.map_cons, PoolConfig.run] at h
    cases hstep : c.step s (PoolOp.free p) with
    | none => rw [hstep] at h; simp at h
    | some c1 =>
      rw [hstep] at h
      have hinv1 := poolRun_Inv_step s hs c c1 (PoolOp.free p) hinv hstep
      obtain ⟨hp, _, hfree, hc1⟩ := poolRun_free_step s c c1 p hstep
      obtain ⟨hlt, hslots, hnd, hlen, fl, hfl, hperm, hlink⟩ := hinv
      have hpslot : p ∈ c.alloc.slots s := hperm.subset (List.mem_append_right _ hp)
      obtain ⟨_, hppos, hpptr⟩ := hslots p hpslot
      have hndlive : c.live.Nodup :=
        (List.nodup_append.mp (hperm.nodup_iff.mpr hnd)).2.1
      have hhead1 : c1.alloc.mFreeList < ptrMod := by rw [hc1]; exact hpptr
      have h3 := ih c1 c' hinv1 hhead1 h
      obtain ⟨hsub, hframe⟩ := poolRun_frees_frame s rest c1 c' h
      have hprest : p ∉ rest := by
        intro hmem
        have := hsub p hmem
        rw [hc1] at this
        exact ((List.Nodup.mem_erase_iff hndlive).mp this).1 rfl
      have hload : load c'.mem p = c.alloc.mFreeList := by
        show c'.mem p = _
        rw [hframe p hprest, hc1]
        show store c.mem p c.alloc.mFreeList p = _
        simp [store]
      have hal : c1.alloc.allocate c'.mem = some (c.alloc, p) := by
        rw [pool_allocate_isSome c1.alloc c'.mem
          (by rw [hc1]; show 0 < (c.alloc.mNumFreeObjects + 1) % u32Mod
              simp only [u32Mod] at *; omega)
          (by rw [hc1]; show p ≠ 0; omega)]
        rw [hc1]
        show some (({ c.alloc with
            mFreeList := load c'.mem p % ptrMod,
            mNumFreeObjects :=
              ((c.alloc.mNumFreeObjects + 1) % u32Mod + u32Mod - 1) % u32Mod } : PoolAllocator), p)
          = some (c.alloc, p)
        rw [hload, Nat.mod_eq_of_lt hhead]
        have hcnt : ((c.alloc.mNumFreeObjects + 1) % u32Mod + u32Mod - 1) % u32Mod
            = c.alloc.mNumFreeObjects := by
          simp only [u32Mod] at *; omega
        rw [hcnt]
      have := pool_allocateN_snoc c'.mem rest.length c'.alloc c1.alloc c.alloc rest.reverse p h3 hal
      simpa [List.reverse_cons] using this

theorem poolRun_head_step (s : Nat) (c c' : PoolConfig) (op : PoolOp)
    (hinv : c.Inv s) (h : c.step s op = some c') : c'.alloc.mFreeList < ptrMod := by
  have hmod : ∀ x : Nat, x % ptrMod < ptrMod := fun x => Nat.mod_lt _ (by decide)
  obtain ⟨_, hslots, hnd, _, fl, _, hperm, _⟩ := hinv
  have hlive : ∀ p ∈ c.live, p < ptrMod := fun p hp =>
    (hslots p (hperm.subset (List.mem_append_right _ hp))).2.2
  cases op with
  | allocate =>
    simp only [PoolConfig.step] at h
    cases hal : c.alloc.allocate c.mem with
    | none => rw [hal] at h; simp at h
    | some r =>
      obtain ⟨a1, p⟩ := r
      rw [hal] at h
      simp only [Option.some.injEq] at h
      subst h
      obtain ⟨_, _, _, ha1⟩ := pool_allocate_eq_some _ _ _ _ hal
      subst ha1
      exact hmod _
  | create value =>
    simp only [PoolConfig.step, PoolAllocator.create] at h
    cases hal : c.alloc.allocate c.mem with
    | none => rw [hal] at h; simp at h
    | some r =>
      obtain ⟨a1, p⟩ := r
      rw [hal] at h
      simp only [Option.some.injEq] at h
      subst h
      obtain ⟨_, _, _, ha1⟩ := pool_allocate_eq_some _ _ _ _ hal
      subst ha1
      exact hmod _
  | free p =>
    obtain ⟨hp, _, _, hc'⟩ := poolRun_free_step s c c' p h
    subst hc'
    exact hlive p hp
  | remove p =>
    simp only [PoolConfig.step, PoolAllocator.remove] at h
    by_cases hp : p ∈ c.live
    · rw [if_pos hp] at h
      by_cases h0 : p = 0
      · simp [h0] at h
      · rw [if_neg h0] at h
        cases hf : c.alloc.free c.mem p with
        | none => rw [hf] at h; simp at h
        | some r =>
          obtain ⟨a1, mem1⟩ := r
          rw [hf] at h
          simp only [Option.some.injEq] at h
          subst h
          obtain ⟨_, _, ha1, _⟩ := pool_free_eq_some _ _ _ _ _ hf
          subst ha1
          exact hlive p hp
    · rw [if_neg hp] at h; simp at h
  | clean =>
    simp only [PoolConfig.step, Option.some.injEq] at h
    subst h
    exact hmod _

theorem poolRun_head_run (s : Nat) (hs : 0 < s) (ops : List PoolOp) :
    ∀ c c' : PoolConfig, c.Inv s → c.alloc.mFreeList < ptrMod → c.run s ops = some c' →
      c'.alloc.mFreeList < ptrMod := by
  induction ops with
  | nil =>
    intro c c' _ hh h
    simp only [PoolConfig.run, Option.some.injEq] at h
    subst h
    exact hh
  | cons op ops ih =>
    intro c c' hinv _ h
    simp only [PoolConfig.run] at h
    cases hstep : c.step s op with
    | none => rw [hstep] at h; simp at h
    | some c1 =>
      rw [hstep] at h
      exact ih c1 c' (poolRun_Inv_step s hs c c1 op hinv hstep)
        (poolRun_head_step s c c1 op hinv hstep) h

/-- C25: in every state of a run of a pool (constructed over a non-null buffer
inside the address space for a type whose alignment is a power of two of at
most its size), for every pointer `p` that `free` accepts the `allocate`
right after `free(p)` returns `p` and leaves the allocator, in particular the
free-list head and `numFreeObjects`, as it was before the `free`; and after
freeing handed-out slots `p1, ..., pk` in that order the next `k` allocations
return `pk, ..., p1` and leave the allocator as it was before the frees. -/
theorem pool_reuse_lifo (sizeofT alignofT memory numObjects : Nat) (mem : Mem)
    (ops : List PoolOp) (c0 c : PoolConfig) (hal : alignofT ∈ alignments)
    (hle : alignofT ≤ sizeofT) (hmem : 0 < memory)
    (hbuf : memory + numObjects * sizeofT ≤ ptrMod) (hn : numObjects < u32Mod)
    (hinit : PoolConfig.init sizeofT alignofT memory mem numObjects = some c0)
    (hrun : c0.run sizeofT ops = some c) :
    (∀ p a1 mem1, c.alloc.free c.mem p = some (a1, mem1) →
      a1.allocate mem1 = some (c.alloc, p) ∧
      a1.mFreeList = p ∧ a1.mNumFreeObjects = c.alloc.mNumFreeObjects + 1) ∧
    (∀ (ps : List Nat) c', c.run sizeofT (ps.map PoolOp.free) = some c' →
      PoolAllocator.allocateN c'.mem ps.length c'.alloc = some (c.alloc, ps.reverse)) := by
  obtain ⟨hs, hinv0, hn0⟩ :=
    poolRun_Inv_init sizeofT alignofT memory numObjects mem c0 hal hle hmem hbuf hn hinit
  obtain ⟨hinv, htot, _⟩ := poolRun_Inv_run sizeofT hs ops c0 c hinv0 hrun
  obtain ⟨f1, _, _, _, _, f6, _⟩ :=
    poolRun_init_fields sizeofT alignofT memory numObjects mem c0 hal hinit
  obtain ⟨_, g2, _⟩ := poolRun_run_fields sizeofT ops c0 c hrun
  have hhead0 : c0.alloc.mFreeList < ptrMod := by
    rw [f6]; exact Nat.mod_lt _ (by decide)
  have hhead := poolRun_head_run sizeofT hs ops c0 c hinv0 hhead0 hrun
  refine ⟨?_, fun ps c' h => poolRun_frees_lifo sizeofT hs ps c c' hinv hhead h⟩
  intro p a1 mem1 hfree
  obtain ⟨h1, h2, h3, h4⟩ := pool_free_eq_some _ _ _ _ _ hfree
  have hlt : c.alloc.mNumTotalObjects < u32Mod := hinv.1
  have hp0 : p ≠ 0 := by rw [g2, f1] at h1; omega
  have hcnt1 : (c.alloc.mNumFreeObjects + 1) % u32Mod = c.alloc.mNumFreeObjects + 1 := by
    simp only [u32Mod] at *; omega
  subst h3; subst h4
  refine ⟨?_, rfl, hcnt1⟩
  rw [pool_allocate_isSome _ _ (by show 0 < (c.alloc.mNumFreeObjects + 1) % u32Mod
                                   rw [hcnt1]; omega) (by show p ≠ 0; exact hp0)]
  show some (({ c.alloc with
      mFreeList := load (store c.mem p c.alloc.mFreeList) p % ptrMod,
      mNumFreeObjects :=
        ((c.alloc.mNumFreeObjects + 1) % u32Mod + u32Mod - 1) % u32Mod } : PoolAllocator), p)
    = some (c.alloc, p)
  rw [load_store_same, Nat.mod_eq_of_lt hhead, hcnt1]
  have hcnt : (c.alloc.mNumFreeObjects + 1 + u32Mod - 1) % u32Mod
      = c.alloc.mNumFreeObjects := by
    simp only [u32Mod] at *; omega
  rw [hcnt]

/-- Witness of C25 in the pool of the tests (two 16-byte slots, here at 4096):
after both slots were handed out, freeing 4096 and then 4112 makes the next
two allocations return 4112 and then 4096. -/
theorem pool_reuse_lifo_witness :
    ∃ c0 c c',
      PoolConfig.init 16 4 4096 (fun _ => 0) 2 = some c0 ∧
      c0.run 16 [.allocate, .allocate] = some c ∧
      c.run 16 ([4096, 4112].map PoolOp.free) = some c' ∧
      PoolAllocator.allocateN c'.mem 2 c'.alloc = some (c.alloc, [4112, 4096]) :=
  ⟨_, _, _, rfl, rfl, rfl,
    (pool_reuse_lifo 16 4 4096 2 (fun _ => 0) [.allocate, .allocate] _ _
      (by decide) (by decide) (by decide) (by decide) (by decide) rfl rfl).2
      [4096, 4112] _ rfl⟩

/-! ## Stack allocator: removal with nothing live -/

theorem stackRun_Chain_nil_iff (mem : Mem) (current previous : Nat) (live : List Nat)
    (h : StackConfig.Chain mem current previous live) : previous = 0 ↔ live = [] := by
  cases live with
  | nil =>
    simp only [StackConfig.Chain] at h
    exact ⟨fun _ => rfl, fun _ => h⟩
  | cons p rest =>
    simp only [StackConfig.Chain] at h
    obtain ⟨hp, _, hge, hle, _⟩ := h
    have h16 : sizeofHeader = 16 := rfl
    constructor
    · intro h0; omega
    · intro hnil; simp at hnil

theorem stackRun_count_step (c c' : StackConfig) (op : StackOp) (hinv : c.Inv)
    (hcount : c.alloc.mNumAllocations = c.live.length % u32Mod)
    (h : c.step op = some c') :
    c'.alloc.mNumAllocations = c'.live.length % u32Mod := by
  obtain ⟨hwf, hchain⟩ := hinv
  cases op with
  | allocate size alignment =>
    simp only [StackConfig.step] at h
    by_cases hal : alignment ∈ alignments
    · rw [if_pos hal] at h
      cases h1 : c.alloc.allocate c.mem size alignment with
      | none => simp [h1] at h
      | some r =>
        obtain ⟨a1, mem1, p⟩ := r
        simp only [h1] at h
        by_cases hbf : StackAllocator.blockFits c.alloc size p
        · rw [if_pos hbf] at h
          simp only [Option.some.injEq] at h
          subst h
          obtain ⟨adj, _, _, _, _, _, ha1⟩ :=
            stack_allocate_eq_some c.alloc a1 c.mem mem1 size alignment p h1
          subst ha1
          show (c.alloc.mNumAllocations + 1) % u32Mod = (c.live.length + 1) % u32Mod
          rw [hcount]
          simp only [u32Mod]
          omega
        · rw [if_neg hbf] at h; simp at h
    · rw [if_neg hal] at h; simp at h
  | remove object =>
    simp only [StackConfig.step, StackAllocator.remove] at h
    by_cases ho : object = 0
    · simp [ho] at h
    · rw [if_neg ho] at h
      cases h1 : c.alloc.free c.mem object with
      | none => simp [h1] at h
      | some a1 =>
        simp only [h1, Option.some.injEq] at h
        subst h
        obtain ⟨hptr, ha1⟩ := stack_free_eq_some c.alloc a1 c.mem object h1
        cases hl : c.live with
        | nil =>
          rw [hl] at hchain
          simp only [StackConfig.Chain] at hchain
          omega
        | cons p rest =>
          subst ha1
          show (c.alloc.mNumAllocations + u32Mod - 1) % u32Mod = (p :: rest).tail.length % u32Mod
          rw [hcount, hl]
          simp only [List.length_cons, List.tail_cons, u32Mod]
          omega
  | clean =>
    simp only [StackConfig.step, Option.some.injEq] at h
    subst h
    rfl

theorem stackRun_count_run (ops : List StackOp) :
    ∀ c c' : StackConfig, c.Inv → c.alloc.mNumAllocations = c.live.length % u32Mod →
      c.run ops = some c' → c'.alloc.mNumAllocations = c'.live.length % u32Mod := by
  induction ops with
  | nil =>
    intro c c' _ hc h
    simp only [StackConfig.run, Option.some.injEq] at h
    subst h
    exact hc
  | cons op ops ih =>
    intro c c' hinv hc h
    simp only [StackConfig.run] at h
    cases hstep : c.step op with
    | none => rw [hstep] at h; simp at h
    | some c1 =>
      rw [hstep] at h
      exact ih c1 c' (stackRun_Inv_step c c1 op hinv hstep)
        (stackRun_count_step c c1 op hinv hc hstep) h

theorem stack_allocate_unit (a : StackAllocator) (mem : Mem)
    (hsz : a.mSize = u32Mod - 1) (hcur : a.mCurrentPosition + 17 < ptrMod) :
    a.allocate mem 1 1 =
      some ({ a with mPreviousPosition := a.mCurrentPosition + 16,
                     mCurrentPosition := a.mCurrentPosition + 17,
                     mUsedMemory := (a.mUsedMemory + (1 + 16) % u32Mod) % u32Mod,
                     mNumAllocations := (a.mNumAllocations + 1) % u32Mod },
            store (store mem
              ((StackAllocator.headerAddress (a.mCurrentPosition + 16) + offsetofAdjustment)
                % ptrMod) 16)
              (StackAllocator.headerAddress (a.mCurrentPosition + 16)) a.mPreviousPosition,
            a.mCurrentPosition + 16) := by
  obtain ⟨q, hq, hge, hlt, _⟩ :=
    alignForwardAdjustmentWithHeader_eq a.mCurrentPosition 0 16 (by decide) (by decide)
  have hadj : alignForwardAdjustment a.mCurrentPosition (2 ^ 0) + 2 ^ 0 * q = 16 := by
    simp only [Nat.pow_zero] at *; omega
  rw [hadj] at hq
  simp only [Nat.pow_zero] at hq
  have h16 : sizeofHeader % u8Mod = 16 := by decide
  have hchk : (a.mUsedMemory + 16 + 1) % u32Mod ≤ a.mSize := by
    rw [hsz]
    have : (a.mUsedMemory + 16 + 1) % u32Mod < u32Mod := Nat.mod_lt _ (by decide)
    omega
  have hal : (a.mCurrentPosition + 16) % ptrMod = a.mCurrentPosition + 16 :=
    Nat.mod_eq_of_lt (by omega)
  have hend : (a.mCurrentPosition + 16 + 1) % ptrMod = a.mCurrentPosition + 17 :=
    Nat.mod_eq_of_lt (by omega)
  unfold StackAllocator.allocate
  rw [if_neg (by decide), h16, hq]
  simp only [hchk, not_true_eq_false, if_false, hal, hend]

theorem stackRun_unit_step (c : StackConfig) (hsz : c.alloc.mSize = u32Mod - 1)
    (hcur : c.alloc.mCurrentPosition + 17 < ptrMod) :
    ∃ c1, c.step (StackOp.allocate 1 1) = some c1 ∧
      c1.alloc.mSize = c.alloc.mSize ∧
      c1.alloc.mNumAllocations = (c.alloc.mNumAllocations + 1) % u32Mod ∧
      c1.alloc.mCurrentPosition = c.alloc.mCurrentPosition + 17 ∧
      c1.alloc.mPreviousPosition = c.alloc.mCurrentPosition + 16 ∧
      c1.live = (c.alloc.mCurrentPosition + 16) :: c.live := by
  have hal := stack_allocate_unit c.alloc c.mem hsz hcur
  have hbf : StackAllocator.blockFits c.alloc 1 (c.alloc.mCurrentPosition + 16) :=
    ⟨by omega, by omega⟩
  have hstep : c.step (StackOp.allocate 1 1) =
      some { alloc := { c.alloc with
               mPreviousPosition := c.alloc.mCurrentPosition + 16,
               mCurrentPosition := c.alloc.mCurrentPosition + 17,
               mUsedMemory := (c.alloc.mUsedMemory + (1 + 16) % u32Mod) % u32Mod,
               mNumAllocations := (c.alloc.mNumAllocations + 1) % u32Mod },
             mem := store (store c.mem
               ((StackAllocator.headerAddress (c.alloc.mCurrentPosition + 16)
                 + offsetofAdjustment) % ptrMod) 16)
               (StackAllocator.headerAddress (c.alloc.mCurrentPosition + 16))
               c.alloc.mPreviousPosition,
             live := (c.alloc.mCurrentPosition + 16) :: c.live } := by
    simp only [StackConfig.step]
    rw [if_pos (by decide), hal]
    simp only
    rw [if_pos hbf]
  exact ⟨_, hstep, rfl, rfl, rfl, rfl, rfl⟩

theorem stackRun_unit_allocations (n : Nat) :
    ∀ c : StackConfig, c.alloc.mSize = u32Mod - 1 → c.alloc.mNumAllocations < u32Mod →
      c.alloc.mCurrentPosition + 17 * n < ptrMod →
      ∃ c', c.run (List.replicate n (StackOp.allocate 1 1)) = some c' ∧
        c'.alloc.mNumAllocations = (c.alloc.mNumAllocations + n) % u32Mod ∧
        c'.alloc.mCurrentPosition = c.alloc.mCurrentPosition + 17 * n ∧
        c'.live.length = c.live.length + n ∧
        (0 < n → c'.alloc.mPreviousPosition + 1 = c'.alloc.mCurrentPosition) ∧
        (n = 0 → c' = c) := by
  induction n with
  | zero =>
    intro c _ hnum _
    exact ⟨c, rfl, (Nat.mod_eq_of_lt hnum).symm, rfl, rfl, fun h => absurd h (by decide),
      fun _ => rfl⟩
  | succ n ih =>
    intro c hsz hnum hcur
    obtain ⟨c1, hstep, g1, g2, g3, g4, g5⟩ := stackRun_unit_step c hsz (by omega)
    obtain ⟨c', hrun, h1, h2, h3, h4, h5⟩ := ih c1 (g1.trans hsz)
      (by rw [g2]; exact Nat.mod_lt _ (by decide)) (by rw [g3]; omega)
    refine ⟨c', ?_, ?_, ?_, ?_, ?_, fun h => absurd h (by omega)⟩
    · rw [List.replicate_succ, StackConfig.run, hstep]
      exact hrun
    · rw [h1, g2]
      simp only [u32Mod]; omega
    · rw [h2, g3]; omega
    · rw [h3, g5, List.length_cons]; omega
    · intro _
      rcases Nat.eq_zero_or_pos n with h0 | h0
      · rw [h5 h0, g3, g4]
      · exact h4 h0

theorem stackRun_arena_step (c c' : StackConfig) (op : StackOp)
    (h : c.step op = some c') :
    c'.alloc.mStart = c.alloc.mStart ∧ c'.alloc.mSize = c.alloc.mSize := by
  cases op with
  | allocate size alignment =>
    simp only [StackConfig.step] at h
    by_cases hal : alignment ∈ alignments
    · rw [if_pos hal] at h
      cases h1 : c.alloc.allocate c.mem size alignment with
      | none => simp [h1] at h
      | some r =>
        obtain ⟨a1, mem1, p⟩ := r
        simp only [h1] at h
        by_cases hbf : StackAllocator.blockFits c.alloc size p
        · rw [if_pos hbf] at h
          simp only [Option.some.injEq] at h
          subst h
          obtain ⟨adj, _, _, _, _, _, ha1⟩ :=
            stack_allocate_eq_some c.alloc a1 c.mem mem1 size alignment p h1
          subst ha1
          exact ⟨rfl, rfl⟩
        · rw [if_neg hbf] at h; simp at h
    · rw [if_neg hal] at h; simp at h
  | remove object =>
    simp only [StackConfig.step, StackAllocator.remove] at h
    by_cases ho : object = 0
    · simp [ho] at h
    · rw [if_neg ho] at h
      cases h1 : c.alloc.free c.mem object with
      | none => simp [h1] at h
      | some a1 =>
        simp only [h1, Option.some.injEq] at h
        subst h
        obtain ⟨_, ha1⟩ := stack_free_eq_some c.alloc a1 c.mem object h1
        subst ha1
        exact ⟨rfl, rfl⟩
  | clean =>
    simp only [StackConfig.step, Option.some.injEq] at h
    subst h
    exact ⟨rfl, rfl⟩

theorem stackRun_arena_run (ops : List StackOp) :
    ∀ c c' : StackConfig, c.run ops = some c' →
      c'.alloc.mStart = c.alloc.mStart ∧ c'.alloc.mSize = c.alloc.mSize := by
  induction ops with
  | nil =>
    intro c c' h
    simp only [StackConfig.run, Option.some.injEq] at h
    subst h
    exact ⟨rfl, rfl⟩
  | cons op ops ih =>
    intro c c' h
    simp only [StackConfig.run] at h
    cases hstep : c.step op with
    | none => rw [hstep] at h; simp at h
    | some c1 =>
      rw [hstep] at h
      obtain ⟨h1, h2⟩ := stackRun_arena_step c c1 op hstep
      obtain ⟨k1, k2⟩ := ih c1 c' h
      exact ⟨k1.trans h1, k2.trans h2⟩

/-- C22 fails on the code: in an arena of size `2 ^ 32 - 1` at 4096 the
capacity check, whose 32-bit sum wraps, admits `2 ^ 32` successive allocations
of one byte (17 bytes each with the header); they wrap `numAllocations` to 0
while `2 ^ 32` allocations are live and `previousPosition` is non-null, and
`remove` of that non-null address then succeeds with `numAllocations = 0` and
takes the counter to `2 ^ 32 - 1`. -/
theorem stack_counter_zero_with_live :
    ∃ a0 c a',
      StackAllocator.new 4096 4294967295 = some a0 ∧
      StackConfig.run { alloc := a0, mem := fun _ => 0, live := [] }
        (List.replicate 4294967296 (StackOp.allocate 1 1)) = some c ∧
      c.live.length = 4294967296 ∧
      c.alloc.mCurrentPosition = 4096 + 17 * 4294967296 ∧
      c.alloc.mStart + c.alloc.mSize < c.alloc.mCurrentPosition ∧
      c.alloc.mNumAllocations = 0 ∧ c.alloc.mPreviousPosition ≠ 0 ∧
      c.alloc.remove c.mem c.alloc.mPreviousPosition = some a' ∧
      a'.mNumAllocations = 4294967295 := by
  obtain ⟨c, hrun, h1, h2, h3, h4, _⟩ := stackRun_unit_allocations 4294967296
    { alloc := { mStart := 4096, mCurrentPosition := 4096, mPreviousPosition := 0,
                 mSize := 4294967295, mUsedMemory := 0, mNumAllocations := 0 },
      mem := fun _ => 0, live := [] }
    (by decide) (by decide) (by decide)
  have hnum : c.alloc.mNumAllocations = 0 := h1.trans (by decide)
  have hcur : c.alloc.mCurrentPosition = 4096 + 17 * 4294967296 := h2
  have hprev : c.alloc.mPreviousPosition ≠ 0 := by
    have := h4 (by decide)
    omega
  have hrem : ∃ a', c.alloc.remove c.mem c.alloc.mPreviousPosition = some a' ∧
      a'.mNumAllocations = (c.alloc.mNumAllocations + u32Mod - 1) % u32Mod := by
    unfold StackAllocator.remove
    rw [if_neg hprev]
    unfold StackAllocator.free
    simp only [not_true_eq_false, if_false]
    exact ⟨_, rfl, rfl⟩
  obtain ⟨a', hr1, hr2⟩ := hrem
  obtain ⟨hst, hsz⟩ := stackRun_arena_run _ _ c hrun
  have hst' : c.alloc.mStart = 4096 := hst
  have hsz' : c.alloc.mSize = 4294967295 := hsz
  refine ⟨_, c, a', rfl, hrun, h3, hcur, ?_, hnum, hprev, hr1, ?_⟩
  · rw [hst', hsz', hcur]
    decide
  · rw [hr2, hnum]
    decide

/-- Removal with nothing live, over runs: in every state of a run from
construction by successful `allocate`, `remove` / `removeNoDestruct` and
`clean` calls that has fewer than `2 ^ 32` live allocations,
`previousPosition = 0` if and only if `numAllocations = 0`, and that is the
case exactly when nothing is live; whenever `numAllocations = 0`, `remove`
and `removeNoDestruct` fail for every non-null pointer (the allocator is left
as it is), and a `remove` or `removeNoDestruct` that succeeds lowers
`numAllocations` by exactly one. -/
theorem stack_empty_rejects_remove (start size : Nat) (mem : Mem) (ops : List StackOp)
    (a0 : StackAllocator) (c : StackConfig) (hstart : start < ptrMod) (hsize : size < u32Mod)
    (hnew : StackAllocator.new start size = some a0)
    (hrun : StackConfig.run { alloc := a0, mem := mem, live := [] } ops = some c)
    (hlive : c.live.length < u32Mod) :
    (c.alloc.mPreviousPosition = 0 ↔ c.alloc.mNumAllocations = 0) ∧
    (c.alloc.mNumAllocations = 0 ↔ c.live = []) ∧
    (c.alloc.mNumAllocations = 0 → ∀ object, object ≠ 0 →
      c.alloc.remove c.mem object = none ∧ c.alloc.removeNoDestruct c.mem object = none) ∧
    (∀ object a', (c.alloc.remove c.mem object = some a' ∨
        c.alloc.removeNoDestruct c.mem object = some a') →
      a'.mNumAllocations + 1 = c.alloc.mNumAllocations) := by
  have hinv0 := stackRun_Inv_new start size mem a0 hstart hsize hnew
  have hinv := stackRun_Inv_run ops _ c hinv0 hrun
  have hcount0 : a0.mNumAllocations = 0 := by
    unfold StackAllocator.new at hnew
    by_cases hs : size > 0
    · simp only [hs, not_true_eq_false, if_false, Option.some.injEq] at hnew
      rw [← hnew]
    · simp [hs] at hnew
  have hcount := stackRun_count_run ops _ c hinv0 (by show a0.mNumAllocations = 0; exact hcount0)
    hrun
  rw [Nat.mod_eq_of_lt hlive] at hcount
  have hnil := stackRun_Chain_nil_iff _ _ _ _ hinv.2
  have hlen : c.alloc.mNumAllocations = 0 ↔ c.live = [] := by
    rw [hcount]; exact List.length_eq_zero
  have hfree : ∀ object a', object ≠ 0 → c.alloc.free c.mem object = some a' →
      a'.mNumAllocations + 1 = c.alloc.mNumAllocations := by
    intro object a' ho hf
    obtain ⟨hptr, ha'⟩ := stack_free_eq_some c.alloc a' c.mem object hf
    have hne : c.live ≠ [] := fun h => ho (hptr.trans (hnil.mpr h))
    have hpos : 0 < c.live.length := List.length_pos.mpr hne
    subst ha'
    show (c.alloc.mNumAllocations + u32Mod - 1) % u32Mod + 1 = c.alloc.mNumAllocations
    simp only [u32Mod] at *
    omega
  refine ⟨hnil.trans hlen.symm, hlen, ?_, ?_⟩
  · intro hz object ho
    have hprev : c.alloc.mPreviousPosition = 0 := hnil.mpr (hlen.mp hz)
    have hf : c.alloc.free c.mem object = none := by
      cases hf : c.alloc.free c.mem object with
      | none => rfl
      | some a1 =>
        have := (stack_free_eq_some _ _ _ _ hf).1
        omega
    unfold StackAllocator.remove StackAllocator.removeNoDestruct
    rw [if_neg ho]
    exact ⟨hf, hf⟩
  · intro object a' h
    unfold StackAllocator.remove StackAllocator.removeNoDestruct at h
    by_cases ho : object = 0
    · simp [ho] at h
    · rw [if_neg ho] at h
      rcases h with h | h
      · exact hfree object a' ho h
      · exact hfree object a' ho h

/-- The removal lemma on the test arena of 1024 bytes at 4096: after
an allocation of 16 bytes and its removal nothing is live, the counter and the
previous position are 0 and `remove(4112)` fails. -/
theorem stack_empty_rejects_remove_witness :
    StackAllocator.remove
      { mStart := 4096, mCurrentPosition := 4096, mPreviousPosition := 0, mSize := 1024,
        mUsedMemory := 0, mNumAllocations := 0 }
      (store (store (fun _ => 0) 4104 16) 4096 0) 4112 = none :=
  ((stack_empty_rejects_remove 4096 1024 (fun _ => 0)
    [StackOp.allocate 16 4, StackOp.remove 4112]
    { mStart := 4096, mCurrentPosition := 4096, mPreviousPosition := 0, mSize := 1024,
      mUsedMemory := 0, mNumAllocations := 0 }
    { alloc := { mStart := 4096, mCurrentPosition := 4096, mPreviousPosition := 0,
                 mSize := 1024, mUsedMemory := 0, mNumAllocations := 0 },
      mem := store (store (fun _ => 0) 4104 16) 4096 0,
      live := [] }
    (by decide) (by decide) (by decide) (by rfl) (by decide)).2.2.1 (by rfl) 4112
    (by decide)).1

end simple
